import Mathlib

/-!
# Fixed-size-block memory pools (`memory_pools/main/memory_pools.c`)

A shallow embedding of the pool allocator of the worksheet repository,
followed by the properties proved about it.

Modelling conventions.

* Addresses and `size_t` values are natural numbers; `size_t` arithmetic that
  can wrap (`size + 16`, `aligned_size`, `hdr + data`, `stride * block_count`,
  `block_count + 7`, pointer differences) is reduced modulo `2 ^ 32`, the
  width of `size_t` on the ESP32 target.  `NULL` is `0`.
* Memory is viewed as a map from an address to the `memory_block_t` header
  read there (`sizeof(memory_block_t) = 24`).  The map describes any single
  memory exactly; a store to the header at one address is described exactly
  for the headers at least 24 bytes away from it, which do not share bytes
  with it.  Slot starts of one pool are a stride, at least 24 bytes, apart.
  The properties of reachable states therefore restrict the pointers passed
  to `pool_free` to those whose header address is not strictly inside a slot.
* The statistics fields count events of one run and are kept as unbounded
  naturals; `allocation_failures`, a `uint32_t` in the source, is bounded
  explicitly where its increment is stated.
* A load from an address outside readable memory stops the program.  The
  functions `pool_free_checked` and `smart_pool_free_checked` make the loads
  of `pool_free` explicit and return `none` in that case.
* External collaborators are inputs: the outcome of `xSemaphoreTake`, the
  readings of `esp_timer_get_time`, and the results of `heap_caps_malloc`,
  `heap_caps_calloc` and `xSemaphoreCreateMutex`.
* `gpio_set_level(LED_POOL_FULL, 1)` and `gpio_set_level(LED_POOL_ERROR, 1)`
  are recorded as the `led` component of a call's result.
-/

namespace MemoryPools

/-! ## Constants -/

/-- Number of values of `size_t` (32-bit target). -/
def SIZE_T_MOD : Nat := 2 ^ 32

/-- The number of values of `uint32_t`, the type of `allocation_failures`. -/
def UINT32_MOD : Nat := 2 ^ 32

def LED_POOL_FULL : Nat := 18
def LED_POOL_ERROR : Nat := 19

def SMALL_POOL_BLOCK_SIZE : Nat := 64
def SMALL_POOL_BLOCK_COUNT : Nat := 16
def MEDIUM_POOL_BLOCK_SIZE : Nat := 256
def MEDIUM_POOL_BLOCK_COUNT : Nat := 8
def LARGE_POOL_BLOCK_SIZE : Nat := 1024
def LARGE_POOL_BLOCK_COUNT : Nat := 4
def HUGE_POOL_BLOCK_SIZE : Nat := 4096
def HUGE_POOL_BLOCK_COUNT : Nat := 2

def POOL_MAGIC_FREE : Nat := 0xDEADBEEF
def POOL_MAGIC_ALLOC : Nat := 0xCAFEBABE

def POOL_COUNT : Nat := 4

/-- Capability flags of `esp_heap_caps.h`; they are only passed on to the
external allocator. -/
def MALLOC_CAP_INTERNAL : Nat := 2048
def MALLOC_CAP_DEFAULT : Nat := 4096

/-- The value of `sizeof(memory_block_t)`: a pointer, two `uint32_t`, padding
to the alignment of `uint64_t`, and one `uint64_t`. -/
def HDR_SIZE : Nat := 24

/-! ## Data model -/

/-- The header `memory_block_t` stored in front of every slot. -/
structure memory_block_t where
  next : Nat
  magic : Nat
  pool_id : Nat
  alloc_time : Nat
deriving DecidableEq

/-- Memory: the header read at each address.  Headers at addresses less than
24 bytes apart share bytes in the C memory; `Mem.write` describes a store
exactly for the addresses at least 24 bytes away from the one written. -/
abbrev Mem := Nat → memory_block_t

/-- Store a header at an address. -/
def Mem.write (mem : Mem) (a : Nat) (b : memory_block_t) : Mem :=
  fun x => if x = a then b else mem x

/-- The record `memory_pool_t`.  `bitmap` holds the bytes that
`usage_bitmap` points to. -/
structure memory_pool_t where
  name : String
  block_size : Nat
  block_count : Nat
  alignment : Nat
  caps : Nat
  pool_memory : Nat
  free_list : Nat
  usage_bitmap : Nat
  bitmap : List Nat
  allocated_blocks : Nat
  peak_usage : Nat
  total_allocations : Nat
  total_deallocations : Nat
  allocation_time_total : Nat
  deallocation_time_total : Nat
  allocation_failures : Nat
  mutex : Nat
  pool_id : Nat
deriving DecidableEq

/-- The record `pool_config_t`. -/
structure pool_config_t where
  name : String
  block_size : Nat
  block_count : Nat
  caps : Nat
  led_pin : Nat
deriving DecidableEq, Inhabited

/-- The value of a `memory_pool_t` after `memset(pool, 0, sizeof(*pool))`;
also the value of every entry of the static array `pools`. -/
def zero_pool : memory_pool_t :=
  { name := "", block_size := 0, block_count := 0, alignment := 0, caps := 0,
    pool_memory := 0, free_list := 0, usage_bitmap := 0, bitmap := [],
    allocated_blocks := 0, peak_usage := 0, total_allocations := 0,
    total_deallocations := 0, allocation_time_total := 0,
    deallocation_time_total := 0, allocation_failures := 0, mutex := 0,
    pool_id := 0 }

/-! ## Helpers -/

/-- Subtraction of `size_t` values, wrapping modulo `2 ^ 32`. -/
def size_sub (a b : Nat) : Nat :=
  (a % SIZE_T_MOD + (SIZE_T_MOD - b % SIZE_T_MOD)) % SIZE_T_MOD

/-- Source `aligned_size`: `(size + align - 1) & ~(align - 1)` on `size_t`. -/
def aligned_size (size align : Nat) : Nat :=
  (size_sub ((size + align) % SIZE_T_MOD) 1) &&&
    (SIZE_T_MOD - 1 - size_sub align 1)

/-- The slot stride `sizeof(memory_block_t) + aligned_size(block_size, alignment)`. -/
def stride_of (block_size alignment : Nat) : Nat :=
  (HDR_SIZE + aligned_size block_size alignment) % SIZE_T_MOD

/-- The stride of a pool, as recomputed in `pool_malloc` and `pool_free`. -/
def memory_pool_t.stride (pool : memory_pool_t) : Nat :=
  stride_of pool.block_size pool.alignment

/-- The header address `(uint8_t*)ptr - sizeof(memory_block_t)`; for a
pointer below the header size the 32-bit subtraction wraps. -/
def hdr_of_ptr (ptr : Nat) : Nat :=
  if HDR_SIZE ≤ ptr then ptr - HDR_SIZE else ptr + SIZE_T_MOD - HDR_SIZE

/-- Source `usage_bitmap[idx >> 3] |= (uint8_t)(1u << (idx & 7))`. -/
def bitmap_set (bm : List Nat) (idx : Nat) : List Nat :=
  bm.set (idx >>> 3) ((bm.getD (idx >>> 3) 0) ||| ((1 <<< (idx &&& 7)) % 256))

/-- Source `usage_bitmap[idx >> 3] &= (uint8_t)~(1u << (idx & 7))`. -/
def bitmap_clear (bm : List Nat) (idx : Nat) : List Nat :=
  bm.set (idx >>> 3) ((bm.getD (idx >>> 3) 0) &&& (255 - (1 <<< (idx &&& 7)) % 256))

/-- Bit `idx` of the bitmap. -/
def bitmap_bit (bm : List Nat) (idx : Nat) : Bool :=
  (bm.getD (idx >>> 3) 0).testBit (idx &&& 7)

/-! ## Pool initialisation -/

/-- What the external calls of one `try_init_pool` attempt return. -/
structure InitEnv where
  heap_caps_malloc : Nat → Nat → Nat
  heap_caps_calloc : Nat → Nat → Nat → Nat
  xSemaphoreCreateMutex : Nat

/-- Result of `try_init_pool`; `freed` lists the arguments of the
`heap_caps_free` calls it made. -/
structure InitResult where
  ok : Bool
  pool : memory_pool_t
  mem : Mem
  freed : List Nat

/-- One iteration of the threading loop of `try_init_pool`. -/
def init_step (p stride pool_id : Nat) (st : Mem × Nat) (i : Nat) : Mem × Nat :=
  let blk := p + (i * stride) % SIZE_T_MOD
  (st.1.write blk { next := st.2, magic := POOL_MAGIC_FREE, pool_id := pool_id,
                    alloc_time := 0 }, blk)

/-- The loop `for (i = 0; i < block_count; i++)` of `try_init_pool`, started
with `free_list = NULL`; returns the memory and the final `free_list`. -/
def init_free_list (mem : Mem) (p stride pool_id block_count : Nat) : Mem × Nat :=
  (List.range block_count).foldl (init_step p stride pool_id) (mem, 0)

/-- Source `try_init_pool`. -/
def try_init_pool (e : InitEnv) (cfg : pool_config_t) (pool_id block_count : Nat)
    (mem : Mem) : InitResult :=
  let pool0 : memory_pool_t :=
    { zero_pool with name := cfg.name, block_size := cfg.block_size,
                     block_count := block_count, alignment := 4, caps := cfg.caps,
                     pool_id := pool_id }
  let stride := stride_of pool0.block_size pool0.alignment
  let total := (stride * pool0.block_count) % SIZE_T_MOD
  let pm := e.heap_caps_malloc total pool0.caps
  if pm = 0 then
    { ok := false, pool := pool0, mem := mem, freed := [] }
  else
    let bitmap_bytes := ((pool0.block_count + 7) % SIZE_T_MOD) / 8
    let bm := e.heap_caps_calloc bitmap_bytes 1 MALLOC_CAP_INTERNAL
    if bm = 0 then
      { ok := false, pool := { pool0 with pool_memory := 0 }, mem := mem, freed := [pm] }
    else
      let fl := init_free_list mem pm stride pool0.pool_id pool0.block_count
      let pool1 : memory_pool_t :=
        { pool0 with pool_memory := pm, usage_bitmap := bm,
                     bitmap := List.replicate bitmap_bytes 0, free_list := fl.2 }
      let mtx := e.xSemaphoreCreateMutex
      if mtx = 0 then
        { ok := false,
          pool := { pool1 with usage_bitmap := 0, pool_memory := 0, bitmap := [] },
          mem := fl.1, freed := [bm, pm] }
      else
        { ok := true, pool := { pool1 with mutex := mtx }, mem := fl.1, freed := [] }

/-- Result of `init_memory_pool_safely`; `attempts` lists the block counts
passed to `try_init_pool`, in call order. -/
structure SafeInitResult where
  ok : Bool
  pool : memory_pool_t
  mem : Mem
  attempts : List Nat

/-- The `while (count >= 1)` loop of `init_memory_pool_safely`; `k` is the
number of attempts already made and `env k` describes the external calls of
attempt `k`. -/
def init_loop (env : Nat → InitEnv) (cfg : pool_config_t) (pool_id : Nat)
    (count k : Nat) (pool : memory_pool_t) (mem : Mem) : SafeInitResult :=
  if h : 1 ≤ count then
    let r := try_init_pool (env k) cfg pool_id count mem
    if r.ok then
      { ok := true, pool := r.pool, mem := r.mem, attempts := [count] }
    else
      let rest := init_loop env cfg pool_id (count / 2) (k + 1) r.pool r.mem
      { rest with attempts := count :: rest.attempts }
  else
    { ok := false, pool := pool, mem := mem, attempts := [] }
termination_by count
decreasing_by omega

/-- Source `init_memory_pool_safely`. -/
def init_memory_pool_safely (env : Nat → InitEnv) (cfg : pool_config_t)
    (pool_id : Nat) (pool : memory_pool_t) (mem : Mem) : SafeInitResult :=
  init_loop env cfg pool_id cfg.block_count 0 pool mem

/-! ## Allocation and free on one pool -/

/-- External inputs of one `pool_malloc` or `pool_free` call: whether
`xSemaphoreTake` returned `pdTRUE`, and the readings of `esp_timer_get_time`
at entry (`t0`), when the slot is stamped (`t_stamp`, `pool_malloc` only)
and at exit (`t1`). -/
structure CallEnv where
  took : Bool
  t0 : Nat
  t_stamp : Nat
  t1 : Nat
deriving DecidableEq

/-- Result of `pool_malloc`: the returned pointer, the LED switched on by the
call (if any), and the pool and memory after the call. -/
structure MallocResult where
  out : Nat
  led : Option Nat
  pool : memory_pool_t
  mem : Mem

/-- Source `pool_malloc`.  The counter `allocation_failures`, a `uint32_t`
in the source, is incremented here as a natural number; the two agree as long
as the counter is below `2 ^ 32 - 1`. -/
def pool_malloc (c : CallEnv) (pool : memory_pool_t) (mem : Mem) : MallocResult :=
  if pool.mutex = 0 then
    { out := 0, led := none, pool := pool, mem := mem }
  else if c.took then
    if pool.free_list ≠ 0 then
      let blk := pool.free_list
      let pool1 := { pool with free_list := (mem blk).next }
      if (mem blk).magic ≠ POOL_MAGIC_FREE ∨ (mem blk).pool_id ≠ pool.pool_id then
        { out := 0, led := some LED_POOL_ERROR, pool := pool1, mem := mem }
      else
        let mem1 := mem.write blk { (mem blk) with magic := POOL_MAGIC_ALLOC,
                                                   alloc_time := c.t_stamp, next := 0 }
        let allocated := pool1.allocated_blocks + 1
        let peak := if allocated > pool1.peak_usage then allocated else pool1.peak_usage
        let stride := pool1.stride
        let idx := size_sub blk pool1.pool_memory / stride
        let bm := if idx < pool1.block_count then bitmap_set pool1.bitmap idx
                  else pool1.bitmap
        { out := blk + HDR_SIZE, led := none,
          pool := { pool1 with allocated_blocks := allocated, peak_usage := peak,
                               total_allocations := pool1.total_allocations + 1,
                               bitmap := bm,
                               allocation_time_total :=
                                 pool1.allocation_time_total + (c.t1 - c.t0) },
          mem := mem1 }
    else
      { out := 0, led := some LED_POOL_FULL,
        pool := { pool with allocation_failures := pool.allocation_failures + 1,
                            allocation_time_total :=
                              pool.allocation_time_total + (c.t1 - c.t0) },
        mem := mem }
  else
    { out := 0, led := none,
      pool := { pool with allocation_time_total :=
                            pool.allocation_time_total + (c.t1 - c.t0) },
      mem := mem }

/-- Result of `pool_free`. -/
structure FreeResult where
  ok : Bool
  led : Option Nat
  pool : memory_pool_t
  mem : Mem

/-- Source `pool_free`, with every header address taken to be readable; the
loads that the call makes are explicit in `pool_free_checked`.  The region
end `start + stride * block_count` is not wrapped, which agrees with the
source for a region that ends below the top of the address space. -/
def pool_free (c : CallEnv) (pool : memory_pool_t) (ptr : Nat) (mem : Mem) : FreeResult :=
  if ptr = 0 ∨ pool.mutex = 0 then
    { ok := false, led := none, pool := pool, mem := mem }
  else if c.took then
    let blk := hdr_of_ptr ptr
    let stride := pool.stride
    let start := pool.pool_memory
    let pend := start + (stride * pool.block_count) % SIZE_T_MOD
    if blk < start ∨ blk ≥ pend ∨ (mem blk).magic ≠ POOL_MAGIC_ALLOC
        ∨ (mem blk).pool_id ≠ pool.pool_id then
      { ok := false, led := some LED_POOL_ERROR,
        pool := { pool with deallocation_time_total :=
                              pool.deallocation_time_total + (c.t1 - c.t0) },
        mem := mem }
    else
      let idx := size_sub blk start / stride
      let bm := bitmap_clear pool.bitmap idx
      let mem1 := mem.write blk { (mem blk) with magic := POOL_MAGIC_FREE,
                                                 next := pool.free_list }
      let allocated := if pool.allocated_blocks ≠ 0 then pool.allocated_blocks - 1
                       else pool.allocated_blocks
      { ok := true, led := none,
        pool := { pool with bitmap := bm, free_list := blk,
                            allocated_blocks := allocated,
                            total_deallocations := pool.total_deallocations + 1,
                            deallocation_time_total :=
                              pool.deallocation_time_total + (c.t1 - c.t0) },
        mem := mem1 }
  else
    { ok := false, led := none,
      pool := { pool with deallocation_time_total :=
                            pool.deallocation_time_total + (c.t1 - c.t0) },
      mem := mem }

/-- A run of consecutive `pool_malloc` calls on one pool, one per element of
`cs`; returns the pointer and LED of every call and the final state. -/
def pool_malloc_run : List CallEnv → memory_pool_t → Mem →
    List (Nat × Option Nat) × memory_pool_t × Mem
  | [], pool, mem => ([], pool, mem)
  | c :: cs, pool, mem =>
    let r := pool_malloc c pool mem
    let rest := pool_malloc_run cs r.pool r.mem
    ((r.out, r.led) :: rest.1, rest.2.1, rest.2.2)

/-! ## The smart API over the registry `pools` -/

/-- External inputs of one `smart_pool_malloc` or `smart_pool_free` call:
the inputs of the call made on `pools[i]`, and the external heap's answer. -/
structure SmartEnv where
  call : Nat → CallEnv
  heap_caps_malloc : Nat → Nat → Nat

/-- Result of `smart_pool_malloc`; `called` lists the indices of the pools
on which `pool_malloc` was called, in order, and `heap` is the size passed
to the fallback `heap_caps_malloc`, if it was called. -/
structure SmartMallocResult where
  out : Nat
  pools : List memory_pool_t
  mem : Mem
  called : List Nat
  heap : Option Nat

/-- The loop `for (i = 0; i < POOL_COUNT; i++)` of `smart_pool_malloc` with
`n` iterations left, followed by the heap fallback. -/
def smart_malloc_loop (e : SmartEnv) (size need : Nat) :
    Nat → Nat → List memory_pool_t → Mem → SmartMallocResult
  | 0, _, pools, mem =>
    { out := e.heap_caps_malloc size MALLOC_CAP_DEFAULT, pools := pools, mem := mem,
      called := [], heap := some size }
  | n + 1, i, pools, mem =>
    let pool := pools.getD i zero_pool
    if need ≤ pool.block_size then
      let r := pool_malloc (e.call i) pool mem
      if r.out ≠ 0 then
        { out := r.out, pools := pools.set i r.pool, mem := r.mem, called := [i],
          heap := none }
      else
        let rest := smart_malloc_loop e size need n (i + 1) (pools.set i r.pool) r.mem
        { rest with called := i :: rest.called }
    else
      smart_malloc_loop e size need n (i + 1) pools mem

/-- Source `smart_pool_malloc`. -/
def smart_pool_malloc (e : SmartEnv) (size : Nat) (pools : List memory_pool_t)
    (mem : Mem) : SmartMallocResult :=
  smart_malloc_loop e size ((size + 16) % SIZE_T_MOD) POOL_COUNT 0 pools mem

/-- Result of `smart_pool_free`; `called` lists the pools on which `pool_free`
was called and `heap` is the pointer passed to `heap_caps_free`, if any. -/
structure SmartFreeResult where
  ok : Bool
  pools : List memory_pool_t
  mem : Mem
  called : List Nat
  heap : Option Nat

/-- The loop `for (i = 0; i < POOL_COUNT; i++)` of `smart_pool_free` with `n`
iterations left, followed by the heap fallback. -/
def smart_free_loop (e : SmartEnv) (ptr : Nat) :
    Nat → Nat → List memory_pool_t → Mem → SmartFreeResult
  | 0, _, pools, mem =>
    { ok := true, pools := pools, mem := mem, called := [], heap := some ptr }
  | n + 1, i, pools, mem =>
    let r := pool_free (e.call i) (pools.getD i zero_pool) ptr mem
    if r.ok then
      { ok := true, pools := pools.set i r.pool, mem := r.mem, called := [i],
        heap := none }
    else
      let rest := smart_free_loop e ptr n (i + 1) (pools.set i r.pool) r.mem
      { rest with called := i :: rest.called }

/-- Source `smart_pool_free`. -/
def smart_pool_free (e : SmartEnv) (ptr : Nat) (pools : List memory_pool_t)
    (mem : Mem) : SmartFreeResult :=
  if ptr = 0 then
    { ok := false, pools := pools, mem := mem, called := [], heap := none }
  else
    smart_free_loop e ptr POOL_COUNT 0 pools mem

/-! ## The free list as a list of slot addresses -/

/-- The chain of `next` links starting at `head` visits exactly the addresses
of `l`, in order, and then reaches `NULL`. -/
def IsFreeList (mem : Mem) : Nat → List Nat → Prop
  | head, [] => head = 0
  | head, a :: l => head = a ∧ a ≠ 0 ∧ IsFreeList mem (mem a).next l

instance (mem : Mem) : ∀ head l, Decidable (IsFreeList mem head l)
  | head, [] => by unfold IsFreeList; exact inferInstance
  | head, a :: l => by
    unfold IsFreeList
    have := instDecidableIsFreeList mem (mem a).next l
    exact inferInstance

/-- The header at `a` is that of a free slot of `pool`. -/
def ValidFree (mem : Mem) (pool : memory_pool_t) (a : Nat) : Prop :=
  (mem a).magic = POOL_MAGIC_FREE ∧ (mem a).pool_id = pool.pool_id

instance (mem : Mem) (pool : memory_pool_t) (a : Nat) : Decidable (ValidFree mem pool a) := by
  unfold ValidFree; exact inferInstance

/-- The free list of `pool` consists of the slots `l`: the chain of links
visits them in order, no slot occurs twice, and each carries the FREE tag and
the pool's id. -/
def FreeListIs (mem : Mem) (pool : memory_pool_t) (l : List Nat) : Prop :=
  IsFreeList mem pool.free_list l ∧ l.Nodup ∧ ∀ a ∈ l, ValidFree mem pool a

/-- Address of slot `i` of a region starting at `p`, as computed by
`try_init_pool`. -/
def slot_addr (p stride i : Nat) : Nat :=
  p + (i * stride) % SIZE_T_MOD

/-- The slots `count - 1, ..., 1, 0` of a region, highest index first. -/
def slots_desc (p stride count : Nat) : List Nat :=
  ((List.range count).map (slot_addr p stride)).reverse

/-- The pointers and LEDs of the `pool_malloc` calls `cs` made, with no free
in between, on the pool that `try_init_pool` has just initialised. -/
def fresh_pool_run (e : InitEnv) (cfg : pool_config_t) (pool_id block_count : Nat) (mem : Mem)
    (cs : List CallEnv) : List (Nat × Option Nat) × memory_pool_t × Mem :=
  pool_malloc_run cs (try_init_pool e cfg pool_id block_count mem).pool
    (try_init_pool e cfg pool_id block_count mem).mem

/-- Overwrite the state tag and the owner id of the header at `a` with `m`
and `i`, leaving its `next` link as it is. -/
def corrupt_head (mem : Mem) (a m i : Nat) : Mem :=
  mem.write a { (mem a) with magic := m, pool_id := i }

/-- The pools, among `pools[i0], ..., pools[i0 + n - 1]`, whose block size
holds `need` bytes, in registry order. -/
def fitting (need : Nat) (pools : List memory_pool_t) (i0 n : Nat) : List Nat :=
  (List.range' i0 n).filter (fun i => decide (need ≤ (pools.getD i zero_pool).block_size))

/-- Whether `pool_malloc` on `pools[i]`, called in memory `mem` with the
external inputs `e.call i`, returns a slot. -/
def serves (e : SmartEnv) (pools : List memory_pool_t) (mem : Mem) (i : Nat) : Bool :=
  decide ((pool_malloc (e.call i) (pools.getD i zero_pool) mem).out ≠ 0)

/-- The first fitting pool that serves the request, if there is one. -/
def first_served (e : SmartEnv) (need : Nat) (pools : List memory_pool_t) (mem : Mem)
    (i0 n : Nat) : Option Nat :=
  ((fitting need pools i0 n).dropWhile (fun i => !serves e pools mem i)).head?

/-- Whether `pool_free` on `pools[i]`, called in memory `mem` with the
external inputs `e.call i`, accepts `ptr`. -/
def accepts (e : SmartEnv) (pools : List memory_pool_t) (ptr : Nat) (mem : Mem) (i : Nat) :
    Bool :=
  (pool_free (e.call i) (pools.getD i zero_pool) ptr mem).ok

/-- One call on a pool: `pool_malloc` or `pool_free`, with the external
inputs of the call and, for `pool_free`, the pointer passed. -/
inductive PoolOp where
  | malloc (c : CallEnv)
  | free (c : CallEnv) (ptr : Nat)

/-- The pool and memory after one call. -/
def pool_step (op : PoolOp) (s : memory_pool_t × Mem) : memory_pool_t × Mem :=
  match op with
  | PoolOp.malloc c => ((pool_malloc c s.1 s.2).pool, (pool_malloc c s.1 s.2).mem)
  | PoolOp.free c ptr => ((pool_free c s.1 ptr s.2).pool, (pool_free c s.1 ptr s.2).mem)

/-- The pool and memory after a sequence of calls, made in order. -/
def pool_run (ops : List PoolOp) (s : memory_pool_t × Mem) : memory_pool_t × Mem :=
  ops.foldl (fun st op => pool_step op st) s

/-- The pool and memory that a successful `try_init_pool` leaves. -/
def fresh_state (e : InitEnv) (cfg : pool_config_t) (pool_id block_count : Nat) (mem : Mem) :
    memory_pool_t × Mem :=
  ((try_init_pool e cfg pool_id block_count mem).pool,
   (try_init_pool e cfg pool_id block_count mem).mem)

/-- A freshly initialised pool: `try_init_pool` succeeded, the block size
leaves room for the header in `size_t`, and the region handed out by the
allocator ends below the top of the address space.  Nothing is assumed of the
contents of the region, which `heap_caps_malloc` hands out uninitialised. -/
def FreshPool (e : InitEnv) (cfg : pool_config_t) (pool_id block_count : Nat) (mem : Mem) :
    Prop :=
  (try_init_pool e cfg pool_id block_count mem).ok = true ∧
  cfg.block_size + 3 + HDR_SIZE < SIZE_T_MOD ∧
  (try_init_pool e cfg pool_id block_count mem).pool.pool_memory
    + stride_of cfg.block_size 4 * block_count < SIZE_T_MOD

/-- Whether the header address of `ptr` is not strictly inside a slot of the
region of `count` slots that starts at `p`: the pointer is null, or its
header address lies outside the region, or the offset of the header address
from the region start is a multiple of the stride.  Every pointer that
`pool_malloc` returns on the pool is of this kind, and so is every pointer
into another region. -/
def slot_pointer (p stride count ptr : Nat) : Bool :=
  decide (ptr = 0) || decide (hdr_of_ptr ptr < p)
    || decide (p + stride * count ≤ hdr_of_ptr ptr)
    || decide ((hdr_of_ptr ptr - p) % stride = 0)

/-- Whether every pointer passed to `pool_free` in `ops` is a `slot_pointer`. -/
def slot_ops (p stride count : Nat) : List PoolOp → Bool
  | [] => true
  | PoolOp.malloc _ :: ops => slot_ops p stride count ops
  | PoolOp.free _ ptr :: ops => slot_pointer p stride count ptr && slot_ops p stride count ops

/-- The state invariant of a pool whose free list visits the slots `l`:
the region lies inside the address space, the bitmap has a bit for every
slot, the free list is a duplicate-free chain of slot starts, every slot
carries the pool's id and is either on the free list with the FREE tag and a
clear bit or off it with the ALLOCATED tag and a set bit, and the counters
agree with the free list. -/
structure PoolInv (pool : memory_pool_t) (mem : Mem) (l : List Nat) : Prop where
  base : pool.pool_memory ≠ 0
  pos : 0 < pool.stride
  fits : pool.pool_memory + pool.stride * pool.block_count < SIZE_T_MOD
  bmlen : pool.block_count ≤ 8 * pool.bitmap.length
  bytes : ∀ b ∈ pool.bitmap, b < 256
  chain : IsFreeList mem pool.free_list l
  nodup : l.Nodup
  slots : ∀ a ∈ l, ∃ i, i < pool.block_count ∧ a = pool.pool_memory + i * pool.stride
  tags : ∀ i, i < pool.block_count →
    (mem (pool.pool_memory + i * pool.stride)).pool_id = pool.pool_id ∧
    ((pool.pool_memory + i * pool.stride ∈ l ∧
        (mem (pool.pool_memory + i * pool.stride)).magic = POOL_MAGIC_FREE ∧
        bitmap_bit pool.bitmap i = false) ∨
     (pool.pool_memory + i * pool.stride ∉ l ∧
        (mem (pool.pool_memory + i * pool.stride)).magic = POOL_MAGIC_ALLOC ∧
        bitmap_bit pool.bitmap i = true))
  count : pool.allocated_blocks + l.length = pool.block_count
  peak : pool.allocated_blocks ≤ pool.peak_usage ∧ pool.peak_usage ≤ pool.block_count

/-- The pool and memory reached from a successful `try_init_pool` by the
calls `ops`. -/
def fresh_run (e : InitEnv) (cfg : pool_config_t) (pool_id block_count : Nat) (mem : Mem)
    (ops : List PoolOp) : memory_pool_t × Mem :=
  pool_run ops (fresh_state e cfg pool_id block_count mem)

/-- A `pool_malloc` followed immediately by a `pool_free` of the pointer it
returned; `c` and `c2` are the external inputs of the two calls. -/
def round_trip (c c2 : CallEnv) (pool : memory_pool_t) (mem : Mem) : FreeResult :=
  pool_free c2 (pool_malloc c pool mem).pool (pool_malloc c pool mem).out
    (pool_malloc c pool mem).mem

/-- Source `pool_free` with its loads made explicit.  Past the guard and with
the lock held the call loads `blk->magic` and `blk->pool_id` on every path:
in the validity test when the bounds hold, and as arguments of `ESP_LOGE`
when the pointer is refused, also after a failed bounds test.  `readable`
tells at which header addresses a load succeeds; a load elsewhere stops the
program, which is the result `none`. -/
def pool_free_checked (readable : Nat → Bool) (c : CallEnv) (pool : memory_pool_t)
    (ptr : Nat) (mem : Mem) : Option FreeResult :=
  if ptr = 0 ∨ pool.mutex = 0 then
    some (pool_free c pool ptr mem)
  else if c.took then
    if readable (hdr_of_ptr ptr) then some (pool_free c pool ptr mem) else none
  else
    some (pool_free c pool ptr mem)

/-- The loop of `smart_pool_free` over `pool_free_checked`. -/
def smart_free_loop_checked (readable : Nat → Bool) (e : SmartEnv) (ptr : Nat) :
    Nat → Nat → List memory_pool_t → Mem → Option SmartFreeResult
  | 0, _, pools, mem =>
    some { ok := true, pools := pools, mem := mem, called := [], heap := some ptr }
  | n + 1, i, pools, mem =>
    match pool_free_checked readable (e.call i) (pools.getD i zero_pool) ptr mem with
    | none => none
    | some r =>
      if r.ok then
        some { ok := true, pools := pools.set i r.pool, mem := r.mem, called := [i],
               heap := none }
      else
        match smart_free_loop_checked readable e ptr n (i + 1) (pools.set i r.pool) r.mem with
        | none => none
        | some rest => some { rest with called := i :: rest.called }

/-- Source `smart_pool_free` over `pool_free_checked`: `none` when one of its
`pool_free` calls loads from an address that is not readable. -/
def smart_pool_free_checked (readable : Nat → Bool) (e : SmartEnv) (ptr : Nat)
    (pools : List memory_pool_t) (mem : Mem) : Option SmartFreeResult :=
  if ptr = 0 then
    some { ok := false, pools := pools, mem := mem, called := [], heap := none }
  else
    smart_free_loop_checked readable e ptr POOL_COUNT 0 pools mem

/-! ## Start-up configuration (`app_main`) -/

def MALLOC_CAP_SPIRAM : Nat := 1024

/-- The table `cfgs` of `app_main`, after the adjustment made when there is
no PSRAM. -/
def cfgs (has_psram : Bool) : List pool_config_t :=
  [ { name := "Small", block_size := SMALL_POOL_BLOCK_SIZE,
      block_count := SMALL_POOL_BLOCK_COUNT, caps := MALLOC_CAP_INTERNAL, led_pin := 2 },
    { name := "Medium", block_size := MEDIUM_POOL_BLOCK_SIZE,
      block_count := MEDIUM_POOL_BLOCK_COUNT, caps := MALLOC_CAP_INTERNAL, led_pin := 4 },
    { name := "Large", block_size := LARGE_POOL_BLOCK_SIZE,
      block_count := LARGE_POOL_BLOCK_COUNT, caps := MALLOC_CAP_DEFAULT, led_pin := 5 },
    { name := "Huge", block_size := HUGE_POOL_BLOCK_SIZE,
      block_count := if has_psram then HUGE_POOL_BLOCK_COUNT else 1,
      caps := if has_psram then MALLOC_CAP_SPIRAM else MALLOC_CAP_DEFAULT,
      led_pin := 18 } ]

/-! ## Sample states used to instantiate the theorems -/

/-- Memory before start-up: every header field reads zero. -/
def blank_mem : Mem := fun _ => { next := 0, magic := 0, pool_id := 0, alloc_time := 0 }

/-- An allocator that places the region of the pool being initialised at
`base`, its bitmap at `base + 0x8000`, and always creates the mutex. -/
def roomy_env (base : Nat) : InitEnv :=
  { heap_caps_malloc := fun _ _ => base,
    heap_caps_calloc := fun _ _ _ => base + 0x8000,
    xSemaphoreCreateMutex := base + 0x9000 }

/-- A call in which the lock is acquired and the clock advances by one
microsecond between the readings. -/
def quick_call : CallEnv := { took := true, t0 := 100, t_stamp := 101, t1 := 102 }

/-- External inputs in which every lock is acquired and the external heap
answers with the address `0x3FFE0000`. -/
def quick_env : SmartEnv :=
  { call := fun _ => quick_call, heap_caps_malloc := fun _ _ => 0x3FFE0000 }

/-- The pool of 64-byte blocks of `app_main`, freshly initialised at
`0x10000` in blank memory. -/
def small_boot : InitResult :=
  try_init_pool (roomy_env 0x10000) ((cfgs false).getD 0 default) 1 SMALL_POOL_BLOCK_COUNT
    blank_mem

/-- The four pools of `app_main` (no PSRAM), each initialised at the first
attempt by `roomy_env`, with the memory after the four initialisations. -/
def booted : List memory_pool_t × Mem :=
  let r0 := try_init_pool (roomy_env 0x10000) ((cfgs false).getD 0 default) 1 16 blank_mem
  let r1 := try_init_pool (roomy_env 0x20000) ((cfgs false).getD 1 default) 2 8 r0.mem
  let r2 := try_init_pool (roomy_env 0x30000) ((cfgs false).getD 2 default) 3 4 r1.mem
  let r3 := try_init_pool (roomy_env 0x40000) ((cfgs false).getD 3 default) 4 1 r2.mem
  ([r0.pool, r1.pool, r2.pool, r3.pool], r3.mem)

/-- An allocator with room for exactly one slot of the 1024-byte pool (stride
1048 bytes): `heap_caps_malloc` succeeds for requests of at most 1048 bytes;
the bitmap and the mutex are always granted. -/
def tight_env : InitEnv :=
  { heap_caps_malloc := fun size _ => if size ≤ 1048 then 0x30000 else 0,
    heap_caps_calloc := fun _ _ _ => 0x38000,
    xSemaphoreCreateMutex := 0x39000 }

/-- An allocator that refuses every request. -/
def empty_env : InitEnv :=
  { heap_caps_malloc := fun _ _ => 0,
    heap_caps_calloc := fun _ _ _ => 0,
    xSemaphoreCreateMutex := 0 }

/-- The pools of 64-byte and of 256-byte blocks of `booted`. -/
def small_pool : memory_pool_t := booted.1.getD 0 zero_pool
def medium_pool : memory_pool_t := booted.1.getD 1 zero_pool

/-- The one-block pool of 4096-byte blocks of `booted` after its only slot
has been allocated: its free list is empty. -/
def huge_full : MallocResult :=
  pool_malloc quick_call (booted.1.getD 3 zero_pool) booted.2

/-- A call in which `xSemaphoreTake` times out after the 50 ms wait. -/
def late_call : CallEnv := { took := false, t0 := 100, t_stamp := 0, t1 := 50100 }

/-- The memory of `huge_full` after the caller has written, into the first
24 bytes of the payload it holds, bytes that read as a header with the
ALLOCATED tag and the pool's id. -/
def forged_mem : Mem :=
  huge_full.mem.write huge_full.out
    { next := 0, magic := POOL_MAGIC_ALLOC, pool_id := 4, alloc_time := 0 }

/-- The one-block pool after the caller has then freed its slot: no slot is
allocated any more, and the bytes written into the payload are still there. -/
def forged_freed : FreeResult :=
  pool_free quick_call huge_full.pool huge_full.out forged_mem

/-- The registry of `booted` after four allocations have used up the pool of
1024-byte blocks (index 2); the 4096-byte pool (index 3) still has its slot. -/
def drained : List memory_pool_t × Mem :=
  (booted.1.set 2
      (pool_malloc_run (List.replicate 4 quick_call) (booted.1.getD 2 zero_pool) booted.2).2.1,
    (pool_malloc_run (List.replicate 4 quick_call) (booted.1.getD 2 zero_pool) booted.2).2.2)

/-- A request of 10 bytes and a request of 100 bytes on `booted`: the first
is served by the pool of 64-byte blocks, the second by the pool of 256-byte
blocks. -/
def routed_small : SmartMallocResult := smart_pool_malloc quick_env 10 booted.1 booted.2
def routed_medium : SmartMallocResult := smart_pool_malloc quick_env 100 booted.1 booted.2

/-- The state after the pointer of `routed_small` has been freed once through
`smart_pool_free`. -/
def freed_once : SmartFreeResult :=
  smart_pool_free quick_env routed_small.out routed_small.pools routed_small.mem

/-- External inputs in which every `xSemaphoreTake` times out. -/
def late_env : SmartEnv :=
  { call := fun _ => late_call, heap_caps_malloc := fun _ _ => 0x3FFE0000 }

/-- Calls made on the fresh pool of 64-byte blocks: two allocations, an
allocation whose lock wait times out, a free of the second pointer handed
out, a second free of the same pointer, a free of a pointer into another
region, and one more allocation. -/
def sample_ops : List PoolOp :=
  [PoolOp.malloc quick_call, PoolOp.malloc quick_call, PoolOp.malloc late_call,
   PoolOp.free quick_call (0x10000 + 14 * 88 + 24),
   PoolOp.free quick_call (0x10000 + 14 * 88 + 24), PoolOp.free quick_call 0x20018,
   PoolOp.malloc quick_call]

/-- Memory in which the 24 bytes at `0x40018` hold stale data that reads as a
header with the ALLOCATED tag and the id 4; `heap_caps_malloc` does not clear
the memory it hands out. -/
def stale_mem : Mem :=
  blank_mem.write 0x40018 { next := 0, magic := POOL_MAGIC_ALLOC, pool_id := 4, alloc_time := 0 }

/-- The state reached by the calls `ops` from the one-block pool of 4096-byte
blocks of `app_main`, initialised with id 4 at `0x40000` in `stale_mem`: its
only slot starts at `0x40000` and has its payload at `0x40018`, where the
stale data lies. -/
def stale_run (ops : List PoolOp) : memory_pool_t × Mem :=
  fresh_run (roomy_env 0x40000) ((cfgs false).getD 3 default) 4 1 stale_mem ops

/-- Readable memory of the sample states: the addresses from `0x10000` up to
`0x40000000`, which hold the four pool regions and the external heap. -/
def sram (a : Nat) : Bool := decide (0x10000 ≤ a ∧ a < 0x40000000)

/-! ## Basic facts -/

theorem Mem.write_same (mem : Mem) (a : Nat) (b : memory_block_t) :
    (mem.write a b) a = b := by
  simp [Mem.write]

theorem Mem.write_other (mem : Mem) (a x : Nat) (b : memory_block_t) (h : x ≠ a) :
    (mem.write a b) x = mem x := by
  simp [Mem.write, h]

theorem hdr_of_ptr_add (a : Nat) : hdr_of_ptr (a + HDR_SIZE) = a := by
  simp [hdr_of_ptr]

/-- No configured size class can hold a request whose size plus headroom
exceeds 4096: the loop calls no pool and the external heap answers. -/
theorem smart_pool_malloc_no_fit (e : SmartEnv) (size : Nat) (p0 p1 p2 p3 : memory_pool_t)
    (mem : Mem) (h0 : p0.block_size ≤ 4096) (h1 : p1.block_size ≤ 4096)
    (h2 : p2.block_size ≤ 4096) (h3 : p3.block_size ≤ 4096)
    (hlo : 4080 < size) (hhi : size + 16 < SIZE_T_MOD) :
    smart_pool_malloc e size [p0, p1, p2, p3] mem =
      { out := e.heap_caps_malloc size MALLOC_CAP_DEFAULT, pools := [p0, p1, p2, p3],
        mem := mem, called := [], heap := some size } := by
  have hneed : (size + 16) % SIZE_T_MOD = size + 16 := Nat.mod_eq_of_lt hhi
  have n0 : ¬ size + 16 ≤ p0.block_size := by omega
  have n1 : ¬ size + 16 ≤ p1.block_size := by omega
  have n2 : ¬ size + 16 ≤ p2.block_size := by omega
  have n3 : ¬ size + 16 ≤ p3.block_size := by omega
  simp [smart_pool_malloc, smart_malloc_loop, POOL_COUNT, hneed, n0, n1, n2, n3]

/-- What `pool_malloc` does when the lock is acquired and the head slot is a
valid free slot. -/
theorem pool_malloc_ok (c : CallEnv) (pool : memory_pool_t) (mem : Mem)
    (hm : pool.mutex ≠ 0) (ht : c.took = true) (hf : pool.free_list ≠ 0)
    (hv : ValidFree mem pool pool.free_list) :
    (pool_malloc c pool mem).out = pool.free_list + HDR_SIZE ∧
    (pool_malloc c pool mem).led = none ∧
    (pool_malloc c pool mem).pool.free_list = (mem pool.free_list).next ∧
    (pool_malloc c pool mem).pool.mutex = pool.mutex ∧
    (pool_malloc c pool mem).pool.pool_id = pool.pool_id ∧
    (pool_malloc c pool mem).mem =
      mem.write pool.free_list { (mem pool.free_list) with
        magic := POOL_MAGIC_ALLOC, alloc_time := c.t_stamp, next := 0 } := by
  obtain ⟨hv1, hv2⟩ := hv
  simp [pool_malloc, hm, ht, hf, hv1, hv2]

/-- What `pool_malloc` does when the lock is acquired and the free list is
empty. -/
theorem pool_malloc_exhausted (c : CallEnv) (pool : memory_pool_t) (mem : Mem)
    (hm : pool.mutex ≠ 0) (ht : c.took = true) (hf : pool.free_list = 0) :
    pool_malloc c pool mem =
      { out := 0, led := some LED_POOL_FULL,
        pool := { pool with allocation_failures := pool.allocation_failures + 1,
                            allocation_time_total :=
                              pool.allocation_time_total + (c.t1 - c.t0) },
        mem := mem } := by
  simp [pool_malloc, hm, ht, hf]

/-! ## Routing of the configured size classes -/

/-- C1, as amended: with the configured size classes 64, 256, 1024 and 4096
and headroom 16, a request for 40 bytes is first offered to the 64-byte pool
and is served from its head slot when that pool is initialised, non-empty,
uncorrupted and its lock is acquired; a request for 4080 bytes is offered to
the 4096-byte pool only and is served from its head slot under the same
conditions; requests for 4090 and for 5000 bytes are offered to no pool,
change no pool, and return the external heap allocator's answer. -/
theorem smart_pool_malloc_routing (e : SmartEnv) (p0 p1 p2 p3 : memory_pool_t) (mem : Mem)
    (h0 : p0.block_size = SMALL_POOL_BLOCK_SIZE) (h1 : p1.block_size = MEDIUM_POOL_BLOCK_SIZE)
    (h2 : p2.block_size = LARGE_POOL_BLOCK_SIZE) (h3 : p3.block_size = HUGE_POOL_BLOCK_SIZE) :
    ((smart_pool_malloc e 40 [p0, p1, p2, p3] mem).called.head? = some 0 ∧
      (p0.mutex ≠ 0 → p0.free_list ≠ 0 → ValidFree mem p0 p0.free_list →
        (e.call 0).took = true →
        smart_pool_malloc e 40 [p0, p1, p2, p3] mem =
          { out := p0.free_list + HDR_SIZE,
            pools := [(pool_malloc (e.call 0) p0 mem).pool, p1, p2, p3],
            mem := (pool_malloc (e.call 0) p0 mem).mem, called := [0], heap := none })) ∧
    ((smart_pool_malloc e 4080 [p0, p1, p2, p3] mem).called.head? = some 3 ∧
      (p3.mutex ≠ 0 → p3.free_list ≠ 0 → ValidFree mem p3 p3.free_list →
        (e.call 3).took = true →
        smart_pool_malloc e 4080 [p0, p1, p2, p3] mem =
          { out := p3.free_list + HDR_SIZE,
            pools := [p0, p1, p2, (pool_malloc (e.call 3) p3 mem).pool],
            mem := (pool_malloc (e.call 3) p3 mem).mem, called := [3], heap := none })) ∧
    (∀ size, size = 4090 ∨ size = 5000 →
      smart_pool_malloc e size [p0, p1, p2, p3] mem =
        { out := e.heap_caps_malloc size MALLOC_CAP_DEFAULT, pools := [p0, p1, p2, p3],
          mem := mem, called := [], heap := some size }) := by
  simp only [SMALL_POOL_BLOCK_SIZE, MEDIUM_POOL_BLOCK_SIZE, LARGE_POOL_BLOCK_SIZE,
    HUGE_POOL_BLOCK_SIZE] at h0 h1 h2 h3
  refine ⟨⟨?_, ?_⟩, ⟨?_, ?_⟩, ?_⟩
  · by_cases hz : (pool_malloc (e.call 0) p0 mem).out = 0 <;>
      simp [smart_pool_malloc, smart_malloc_loop, POOL_COUNT, SIZE_T_MOD, h0, hz]
  · intro hm hf hv ht
    obtain ⟨ho, -⟩ := pool_malloc_ok (e.call 0) p0 mem hm ht hf hv
    have hnz : (pool_malloc (e.call 0) p0 mem).out ≠ 0 := by rw [ho]; simp [HDR_SIZE]
    simp [smart_pool_malloc, smart_malloc_loop, POOL_COUNT, SIZE_T_MOD, h0, hnz]
    exact ho
  · by_cases hz : (pool_malloc (e.call 3) p3 mem).out = 0 <;>
      simp [smart_pool_malloc, smart_malloc_loop, POOL_COUNT, SIZE_T_MOD, h0, h1, h2, h3, hz]
  · intro hm hf hv ht
    obtain ⟨ho, -⟩ := pool_malloc_ok (e.call 3) p3 mem hm ht hf hv
    have hnz : (pool_malloc (e.call 3) p3 mem).out ≠ 0 := by rw [ho]; simp [HDR_SIZE]
    simp [smart_pool_malloc, smart_malloc_loop, POOL_COUNT, SIZE_T_MOD, h0, h1, h2, h3, hnz]
    exact ho
  · intro size hs
    apply smart_pool_malloc_no_fit <;> first | omega | (simp only [SIZE_T_MOD]; omega)

/-- Instance of `smart_pool_malloc_routing` on the pools of `booted`. -/
theorem smart_pool_malloc_routing_witness :
    smart_pool_malloc quick_env 40
        [booted.1.getD 0 zero_pool, booted.1.getD 1 zero_pool, booted.1.getD 2 zero_pool,
          booted.1.getD 3 zero_pool] booted.2 =
      { out := (booted.1.getD 0 zero_pool).free_list + HDR_SIZE,
        pools := [(pool_malloc (quick_env.call 0) (booted.1.getD 0 zero_pool) booted.2).pool,
          booted.1.getD 1 zero_pool, booted.1.getD 2 zero_pool, booted.1.getD 3 zero_pool],
        mem := (pool_malloc (quick_env.call 0) (booted.1.getD 0 zero_pool) booted.2).mem,
        called := [0], heap := none } :=
  (smart_pool_malloc_routing quick_env (booted.1.getD 0 zero_pool) (booted.1.getD 1 zero_pool)
    (booted.1.getD 2 zero_pool) (booted.1.getD 3 zero_pool) booted.2
    (by decide) (by decide) (by decide) (by decide)).1.2
    (by decide) (by decide) (by decide) (by decide)

/-- C1 fails as stated: with all four pools initialised and non-empty and
every lock available, a request for 4090 bytes needs 4106 bytes with the
headroom, is offered to no pool (the 4096-byte pool keeps its only slot) and
is answered by the external heap. -/
theorem smart_pool_malloc_4090_goes_to_heap :
    (smart_pool_malloc quick_env 4090 booted.1 booted.2).called = [] ∧
    (smart_pool_malloc quick_env 4090 booted.1 booted.2).heap = some 4090 ∧
    (smart_pool_malloc quick_env 4090 booted.1 booted.2).out
      = quick_env.heap_caps_malloc 4090 MALLOC_CAP_DEFAULT ∧
    (smart_pool_malloc quick_env 4090 booted.1 booted.2).pools = booted.1 ∧
    (booted.1.map (fun p => decide (p.mutex ≠ 0 ∧ p.free_list ≠ 0)))
      = [true, true, true, true] ∧
    booted.1.map (fun p => p.block_size) = [64, 256, 1024, 4096] := by
  decide

/-! ## Single-pool laws -/

/-- `pool_malloc` returns a non-null pointer exactly when the pool has a
mutex, the lock is acquired, and the head of the free list is a valid free
slot. -/
theorem pool_malloc_out_ne_zero_iff (c : CallEnv) (pool : memory_pool_t) (mem : Mem) :
    (pool_malloc c pool mem).out ≠ 0 ↔
      pool.mutex ≠ 0 ∧ c.took = true ∧ pool.free_list ≠ 0 ∧
        ValidFree mem pool pool.free_list := by
  unfold pool_malloc ValidFree
  by_cases hm : pool.mutex = 0
  · simp [hm]
  · by_cases ht : c.took = true
    · by_cases hf : pool.free_list = 0
      · simp [hm, ht, hf]
      · by_cases hv1 : (mem pool.free_list).magic = POOL_MAGIC_FREE
        · by_cases hv2 : (mem pool.free_list).pool_id = pool.pool_id
          · simp [hm, ht, hf, hv1, hv2, HDR_SIZE]
          · simp [hm, ht, hf, hv1, hv2]
        · simp [hm, ht, hf, hv1]
    · simp [hm, ht]

/-- `pool_free` succeeds exactly when the pointer is non-null, the pool has a
mutex, the lock is acquired, the header address is inside the backing
region, and the header carries the ALLOCATED tag and the pool's id. -/
theorem pool_free_ok_iff (c : CallEnv) (pool : memory_pool_t) (ptr : Nat) (mem : Mem) :
    (pool_free c pool ptr mem).ok = true ↔
      ptr ≠ 0 ∧ pool.mutex ≠ 0 ∧ c.took = true ∧
        pool.pool_memory ≤ hdr_of_ptr ptr ∧
        hdr_of_ptr ptr < pool.pool_memory + (pool.stride * pool.block_count) % SIZE_T_MOD ∧
        (mem (hdr_of_ptr ptr)).magic = POOL_MAGIC_ALLOC ∧
        (mem (hdr_of_ptr ptr)).pool_id = pool.pool_id := by
  unfold pool_free
  by_cases hp : ptr = 0
  · simp [hp]
  · by_cases hm : pool.mutex = 0
    · simp [hm]
    · by_cases ht : c.took = true
      · simp only [hp, hm, ht, false_or, if_true, if_false]
        split
        · rename_i h
          simp only [Bool.false_eq_true, false_iff]
          intro hh
          rcases h with h | h | h | h
          · omega
          · omega
          · exact h hh.2.2.2.2.2.1
          · exact h hh.2.2.2.2.2.2
        · rename_i h
          simp only [not_or, not_lt, ge_iff_le, not_le, ne_eq, not_not] at h
          simp [h.1, h.2.1, h.2.2.1, h.2.2.2, hp, hm]
      · simp [hp, hm, ht]

/-- The state left by a successful `pool_free`. -/
theorem pool_free_ok_state (c : CallEnv) (pool : memory_pool_t) (ptr : Nat) (mem : Mem)
    (h : (pool_free c pool ptr mem).ok = true) :
    (pool_free c pool ptr mem).pool.free_list = hdr_of_ptr ptr ∧
    (pool_free c pool ptr mem).pool.mutex = pool.mutex ∧
    (pool_free c pool ptr mem).pool.pool_id = pool.pool_id ∧
    (pool_free c pool ptr mem).mem =
      mem.write (hdr_of_ptr ptr) { (mem (hdr_of_ptr ptr)) with
        magic := POOL_MAGIC_FREE, next := pool.free_list } := by
  obtain ⟨hp, hm, ht, h1, h2, h3, h4⟩ := (pool_free_ok_iff c pool ptr mem).1 h
  have hb : ¬ (hdr_of_ptr ptr < pool.pool_memory) := by omega
  have hb2 : ¬ (pool.pool_memory + (pool.stride * pool.block_count) % SIZE_T_MOD
      ≤ hdr_of_ptr ptr) := by omega
  simp [pool_free, hp, hm, ht, hb, hb2, h3, h4]

/-- Freeing a pointer that `pool_malloc` has just returned succeeds, with the
lock acquired, exactly when the slot's header lies in the backing region. -/
theorem pool_free_after_malloc_ok_iff (c1 c2 : CallEnv) (pool : memory_pool_t) (mem : Mem)
    (hA : (pool_malloc c1 pool mem).out ≠ 0) (h2 : c2.took = true) :
    (pool_free c2 (pool_malloc c1 pool mem).pool (pool_malloc c1 pool mem).out
        (pool_malloc c1 pool mem).mem).ok = true ↔
      (pool.pool_memory ≤ pool.free_list ∧
        pool.free_list < pool.pool_memory + (pool.stride * pool.block_count) % SIZE_T_MOD) := by
  obtain ⟨hm, ht, hf, hv⟩ := (pool_malloc_out_ne_zero_iff c1 pool mem).1 hA
  obtain ⟨ho, -, hfl, hmx, hid, hmem⟩ := pool_malloc_ok c1 pool mem hm ht hf hv
  have hbs : (pool_malloc c1 pool mem).pool.stride = pool.stride := by
    obtain ⟨hv1, hv2⟩ := hv
    simp [pool_malloc, hm, ht, hf, hv1, hv2, memory_pool_t.stride]
  have hbc : (pool_malloc c1 pool mem).pool.block_count = pool.block_count := by
    obtain ⟨hv1, hv2⟩ := hv
    simp [pool_malloc, hm, ht, hf, hv1, hv2]
  have hpm : (pool_malloc c1 pool mem).pool.pool_memory = pool.pool_memory := by
    obtain ⟨hv1, hv2⟩ := hv
    simp [pool_malloc, hm, ht, hf, hv1, hv2]
  rw [pool_free_ok_iff, ho, hdr_of_ptr_add, hmem, Mem.write_same, hmx, hid, hbs, hbc, hpm]
  simp [hm, h2, hv.2, HDR_SIZE]

theorem IsFreeList.congr {mem mem2 : Mem} : ∀ {head : Nat} {l : List Nat},
    (∀ a ∈ l, mem2 a = mem a) → IsFreeList mem head l → IsFreeList mem2 head l
  | _, [], _, h => h
  | _, a :: l, hm, h => by
    obtain ⟨h1, h2, h3⟩ := h
    refine ⟨h1, h2, ?_⟩
    rw [hm a (List.mem_cons_self a l)]
    exact IsFreeList.congr (fun b hb => hm b (List.mem_cons_of_mem a hb)) h3

theorem slots_desc_succ (p stride count : Nat) :
    slots_desc p stride (count + 1) = slot_addr p stride count :: slots_desc p stride count := by
  simp [slots_desc, List.range_succ]

theorem mem_slots_desc {p stride count a : Nat} :
    a ∈ slots_desc p stride count ↔ ∃ i, i < count ∧ a = slot_addr p stride i := by
  simp only [slots_desc, List.mem_reverse, List.mem_map, List.mem_range]
  constructor
  · rintro ⟨i, hi, rfl⟩; exact ⟨i, hi, rfl⟩
  · rintro ⟨i, hi, rfl⟩; exact ⟨i, hi, rfl⟩

theorem slot_addr_eq {p stride count i : Nat} (hfit : stride * count < SIZE_T_MOD)
    (hi : i ≤ count) : slot_addr p stride i = p + i * stride := by
  unfold slot_addr
  rw [Nat.mod_eq_of_lt]
  calc i * stride ≤ count * stride := Nat.mul_le_mul_right _ hi
    _ = stride * count := Nat.mul_comm _ _
    _ < SIZE_T_MOD := hfit

theorem slot_addr_lt {p stride count i j : Nat} (hs : 0 < stride)
    (hfit : stride * count < SIZE_T_MOD) (hij : i < j) (hj : j ≤ count) :
    slot_addr p stride i < slot_addr p stride j := by
  rw [slot_addr_eq hfit (by omega : i ≤ count), slot_addr_eq hfit hj]
  have : i * stride < j * stride := Nat.mul_lt_mul_of_pos_right hij hs
  omega

theorem slots_desc_nodup {p stride : Nat} (hs : 0 < stride) : ∀ {count : Nat},
    stride * count < SIZE_T_MOD → (slots_desc p stride count).Nodup
  | 0, _ => by simp [slots_desc]
  | count + 1, hfit => by
    have hfit2 : stride * count < SIZE_T_MOD := by
      have : stride * count ≤ stride * (count + 1) := Nat.mul_le_mul_left _ (by omega)
      omega
    rw [slots_desc_succ, List.nodup_cons]
    refine ⟨?_, slots_desc_nodup hs hfit2⟩
    intro hmem
    obtain ⟨i, hi, he⟩ := mem_slots_desc.1 hmem
    have := slot_addr_lt (p := p) hs hfit hi (Nat.le_succ _)
    omega

theorem init_free_list_succ (mem : Mem) (p stride pool_id count : Nat) :
    init_free_list mem p stride pool_id (count + 1) =
      init_step p stride pool_id (init_free_list mem p stride pool_id count) count := by
  simp [init_free_list, List.range_succ, List.foldl_append]

/-- The threading loop of `try_init_pool` builds a free list that visits
every slot once, highest index first, each tagged FREE with the pool's id;
the head is the last slot written. -/
theorem init_free_list_spec (mem : Mem) (p stride pool_id : Nat) (hp : p ≠ 0)
    (hs : 0 < stride) : ∀ count : Nat, stride * count < SIZE_T_MOD →
      IsFreeList (init_free_list mem p stride pool_id count).1
        (init_free_list mem p stride pool_id count).2 (slots_desc p stride count) ∧
      ∀ a ∈ slots_desc p stride count,
        ((init_free_list mem p stride pool_id count).1 a).magic = POOL_MAGIC_FREE ∧
        ((init_free_list mem p stride pool_id count).1 a).pool_id = pool_id
  | 0, _ => by simp [init_free_list, slots_desc, IsFreeList]
  | count + 1, hfit => by
    have hfit2 : stride * count < SIZE_T_MOD := by
      have : stride * count ≤ stride * (count + 1) := Nat.mul_le_mul_left _ (by omega)
      omega
    obtain ⟨ih1, ih2⟩ := init_free_list_spec mem p stride pool_id hp hs count hfit2
    have hnd := slots_desc_nodup (p := p) hs hfit
    rw [slots_desc_succ, List.nodup_cons] at hnd
    rw [init_free_list_succ, slots_desc_succ]
    have hother : ∀ a ∈ slots_desc p stride count,
        (init_step p stride pool_id (init_free_list mem p stride pool_id count) count).1 a
          = (init_free_list mem p stride pool_id count).1 a := by
      intro a ha
      have hne : a ≠ slot_addr p stride count := fun h => hnd.1 (h ▸ ha)
      simp only [init_step]
      exact Mem.write_other _ _ _ _ hne
    constructor
    · refine ⟨rfl, ?_, ?_⟩
      · unfold slot_addr; omega
      · have : ((init_step p stride pool_id (init_free_list mem p stride pool_id count) count).1
            (slot_addr p stride count)).next = (init_free_list mem p stride pool_id count).2 := by
          simp only [init_step]
          rw [show p + count * stride % SIZE_T_MOD = slot_addr p stride count from rfl,
            Mem.write_same]
        simp only [init_step] at this ⊢
        rw [this]
        exact IsFreeList.congr hother ih1
    · intro a ha
      rcases List.mem_cons.1 ha with h | h
      · subst h
        simp only [init_step]
        rw [show p + count * stride % SIZE_T_MOD = slot_addr p stride count from rfl,
          Mem.write_same]
        exact ⟨rfl, rfl⟩
      · rw [hother a h]
        exact ih2 a h

/-- Fields of the pool produced by a successful `try_init_pool`. -/
theorem try_init_pool_ok (e : InitEnv) (cfg : pool_config_t) (pool_id block_count : Nat)
    (mem : Mem) (h : (try_init_pool e cfg pool_id block_count mem).ok = true) :
    (try_init_pool e cfg pool_id block_count mem).pool.pool_memory ≠ 0 ∧
    (try_init_pool e cfg pool_id block_count mem).pool.mutex ≠ 0 ∧
    (try_init_pool e cfg pool_id block_count mem).pool.pool_id = pool_id ∧
    (try_init_pool e cfg pool_id block_count mem).pool.block_count = block_count ∧
    (try_init_pool e cfg pool_id block_count mem).pool.stride = stride_of cfg.block_size 4 ∧
    (try_init_pool e cfg pool_id block_count mem).pool.allocation_failures = 0 ∧
    (try_init_pool e cfg pool_id block_count mem).pool.allocated_blocks = 0 ∧
    (try_init_pool e cfg pool_id block_count mem).pool.free_list =
      (init_free_list mem (try_init_pool e cfg pool_id block_count mem).pool.pool_memory
        (stride_of cfg.block_size 4) pool_id block_count).2 ∧
    (try_init_pool e cfg pool_id block_count mem).mem =
      (init_free_list mem (try_init_pool e cfg pool_id block_count mem).pool.pool_memory
        (stride_of cfg.block_size 4) pool_id block_count).1 := by
  unfold try_init_pool at h ⊢
  simp only at h ⊢
  split at h
  · simp at h
  · rename_i h1
    rw [if_neg h1]
    split at h
    · simp at h
    · rename_i h2
      rw [if_neg h2]
      split at h
      · simp at h
      · rename_i h3
        rw [if_neg h3]
        simp [h1, h3, memory_pool_t.stride, zero_pool]

/-- A successful `try_init_pool` leaves a free list holding every slot of the
region once, highest index first. -/
theorem try_init_pool_free_list (e : InitEnv) (cfg : pool_config_t) (pool_id block_count : Nat)
    (mem : Mem) (h : (try_init_pool e cfg pool_id block_count mem).ok = true)
    (hs : 0 < stride_of cfg.block_size 4)
    (hfit : stride_of cfg.block_size 4 * block_count < SIZE_T_MOD) :
    FreeListIs (try_init_pool e cfg pool_id block_count mem).mem
      (try_init_pool e cfg pool_id block_count mem).pool
      (slots_desc (try_init_pool e cfg pool_id block_count mem).pool.pool_memory
        (stride_of cfg.block_size 4) block_count) := by
  obtain ⟨hpm, -, hid, -, -, -, -, hfl, hmem⟩ := try_init_pool_ok e cfg pool_id block_count mem h
  obtain ⟨g1, g2⟩ := init_free_list_spec mem _ _ pool_id hpm hs block_count hfit
  refine ⟨?_, slots_desc_nodup hs hfit, ?_⟩
  · rw [hfl, hmem]; exact g1
  · intro a ha
    unfold ValidFree
    rw [hmem, hid]
    exact g2 a ha

/-! ## Runs of allocations -/

theorem ValidFree.of_eq {mem mem2 : Mem} {pool pool2 : memory_pool_t} {a : Nat}
    (hm : mem2 a = mem a) (hid : pool2.pool_id = pool.pool_id) (h : ValidFree mem pool a) :
    ValidFree mem2 pool2 a := by
  unfold ValidFree at h ⊢
  rw [hm, hid]; exact h

/-- Allocating from a pool whose free list is `a :: l` hands out `a` and
leaves the free list `l`. -/
theorem pool_malloc_pop (c : CallEnv) (pool : memory_pool_t) (mem : Mem) (a : Nat)
    (l : List Nat) (hm : pool.mutex ≠ 0) (ht : c.took = true)
    (hl : FreeListIs mem pool (a :: l)) :
    (pool_malloc c pool mem).out = a + HDR_SIZE ∧
    (pool_malloc c pool mem).led = none ∧
    (pool_malloc c pool mem).pool.mutex ≠ 0 ∧
    (pool_malloc c pool mem).pool.allocation_failures = pool.allocation_failures ∧
    FreeListIs (pool_malloc c pool mem).mem (pool_malloc c pool mem).pool l := by
  obtain ⟨⟨hh, ha0, hch⟩, hnd, hval⟩ := hl
  have hf : pool.free_list ≠ 0 := by rw [hh]; exact ha0
  have hv : ValidFree mem pool pool.free_list := by
    rw [hh]; exact hval a (List.mem_cons_self a l)
  obtain ⟨ho, hled, hfl, hmx, hid, hmem⟩ := pool_malloc_ok c pool mem hm ht hf hv
  have hfail : (pool_malloc c pool mem).pool.allocation_failures = pool.allocation_failures := by
    obtain ⟨hv1, hv2⟩ := hv
    simp [pool_malloc, hm, ht, hf, hv1, hv2]
  rw [List.nodup_cons] at hnd
  have hother : ∀ b ∈ l, (pool_malloc c pool mem).mem b = mem b := by
    intro b hb
    rw [hmem, hh]
    exact Mem.write_other _ _ _ _ (fun h => hnd.1 (h ▸ hb))
  refine ⟨by rw [ho, hh], hled, by rw [hmx]; exact hm, hfail, ?_, hnd.2, ?_⟩
  · rw [hfl, hh]
    exact IsFreeList.congr hother hch
  · intro b hb
    exact ValidFree.of_eq (hother b hb) hid (hval b (List.mem_cons_of_mem a hb))

/-- As many lock-acquiring allocations as the free list has slots hand out
exactly those slots, in free-list order, and leave the free list empty. -/
theorem pool_malloc_run_drain : ∀ (l : List Nat) (cs : List CallEnv) (pool : memory_pool_t)
    (mem : Mem), pool.mutex ≠ 0 → (∀ c ∈ cs, c.took = true) → cs.length = l.length →
    FreeListIs mem pool l →
      (pool_malloc_run cs pool mem).1 = l.map (fun a => (a + HDR_SIZE, none)) ∧
      (pool_malloc_run cs pool mem).2.1.mutex ≠ 0 ∧
      (pool_malloc_run cs pool mem).2.1.free_list = 0 ∧
      (pool_malloc_run cs pool mem).2.1.allocation_failures = pool.allocation_failures
  | [], [], pool, mem, hm, _, _, hl => by
    refine ⟨rfl, hm, ?_, rfl⟩
    exact hl.1
  | [], _ :: _, _, _, _, _, hlen, _ => by simp at hlen
  | _ :: _, [], _, _, _, _, hlen, _ => by simp at hlen
  | a :: l, c :: cs, pool, mem, hm, ht, hlen, hl => by
    obtain ⟨ho, hled, hmx, hfail, hl2⟩ :=
      pool_malloc_pop c pool mem a l hm (ht c (List.mem_cons_self c cs)) hl
    obtain ⟨g1, g2, g3, g4⟩ := pool_malloc_run_drain l cs _ _ hmx
      (fun d hd => ht d (List.mem_cons_of_mem c hd)) (by simpa using hlen) hl2
    simp only [pool_malloc_run, List.map_cons]
    refine ⟨?_, g2, g3, ?_⟩
    · rw [g1, ho, hled]
    · rw [g4, hfail]

/-- Every lock-acquiring allocation on a pool with an empty free list fails,
lights the pool-full LED and is counted in `allocation_failures`. -/
theorem pool_malloc_run_exhausted : ∀ (cs : List CallEnv) (pool : memory_pool_t) (mem : Mem),
    pool.mutex ≠ 0 → (∀ c ∈ cs, c.took = true) → pool.free_list = 0 →
      (pool_malloc_run cs pool mem).1 = List.replicate cs.length (0, some LED_POOL_FULL) ∧
      (pool_malloc_run cs pool mem).2.1.allocation_failures =
        pool.allocation_failures + cs.length
  | [], _, _, _, _, _ => by simp [pool_malloc_run]
  | c :: cs, pool, mem, hm, ht, hf => by
    have htc := ht c (List.mem_cons_self c cs)
    have e1 : (pool_malloc c pool mem).out = 0 := by simp [pool_malloc, hm, htc, hf]
    have e2 : (pool_malloc c pool mem).led = some LED_POOL_FULL := by
      simp [pool_malloc, hm, htc, hf]
    have e3 : (pool_malloc c pool mem).pool.mutex ≠ 0 := by
      simp [pool_malloc, hm, htc, hf]
    have e4 : (pool_malloc c pool mem).pool.free_list = 0 := by
      simp [pool_malloc, hm, htc, hf]
    have e5 : (pool_malloc c pool mem).pool.allocation_failures
        = pool.allocation_failures + 1 := by
      simp [pool_malloc, hm, htc, hf]
    obtain ⟨g1, g2⟩ := pool_malloc_run_exhausted cs _ (pool_malloc c pool mem).mem e3
      (fun d hd => ht d (List.mem_cons_of_mem c hd)) e4
    simp only [pool_malloc_run, List.length_cons, List.replicate_succ]
    refine ⟨by rw [g1, e1, e2], ?_⟩
    rw [g2, e5]; omega

theorem pool_malloc_run_append : ∀ (cs ds : List CallEnv) (pool : memory_pool_t) (mem : Mem),
    pool_malloc_run (cs ++ ds) pool mem =
      ((pool_malloc_run cs pool mem).1 ++
          (pool_malloc_run ds (pool_malloc_run cs pool mem).2.1
            (pool_malloc_run cs pool mem).2.2).1,
        (pool_malloc_run ds (pool_malloc_run cs pool mem).2.1
            (pool_malloc_run cs pool mem).2.2).2)
  | [], _, _, _ => by simp [pool_malloc_run]
  | c :: cs, ds, pool, mem => by
    have ih := pool_malloc_run_append cs ds (pool_malloc c pool mem).pool
      (pool_malloc c pool mem).mem
    show pool_malloc_run (c :: (cs ++ ds)) pool mem = _
    simp only [pool_malloc_run, List.cons_append]
    rw [ih]

/-- More lock-acquiring allocations than the free list has slots: the first
ones hand out the slots in free-list order, all later ones fail as
exhausted. -/
theorem pool_malloc_run_overflow (l : List Nat) (cs : List CallEnv) (pool : memory_pool_t)
    (mem : Mem) (hm : pool.mutex ≠ 0) (ht : ∀ c ∈ cs, c.took = true)
    (hlen : l.length ≤ cs.length) (hl : FreeListIs mem pool l) :
    (pool_malloc_run cs pool mem).1 =
      l.map (fun a => (a + HDR_SIZE, none)) ++
        List.replicate (cs.length - l.length) (0, some LED_POOL_FULL) ∧
    (pool_malloc_run cs pool mem).2.1.allocation_failures =
      pool.allocation_failures + (cs.length - l.length) := by
  have hsplit : cs = cs.take l.length ++ cs.drop l.length := (List.take_append_drop _ _).symm
  have hlt : (cs.take l.length).length = l.length := by
    rw [List.length_take]; omega
  obtain ⟨g1, g2, g3, g4⟩ := pool_malloc_run_drain l (cs.take l.length) pool mem hm
    (fun c hc => ht c (List.mem_of_mem_take hc)) hlt hl
  obtain ⟨k1, k2⟩ := pool_malloc_run_exhausted (cs.drop l.length) _
    (pool_malloc_run (cs.take l.length) pool mem).2.2 g2
    (fun c hc => ht c (List.mem_of_mem_drop hc)) g3
  rw [List.length_drop] at k1 k2
  rw [hsplit, pool_malloc_run_append]
  simp only
  rw [g1, k1, k2, g4]
  simp [List.length_append, hlt]

theorem filter_ne_zero_outs (l : List Nat) (n : Nat) (x : Option Nat) :
    (l.map (fun a => (a + HDR_SIZE, (none : Option Nat))) ++ List.replicate n (0, x)).filter
        (fun o => decide (o.1 ≠ 0))
      = l.map (fun a => (a + HDR_SIZE, (none : Option Nat))) := by
  rw [List.filter_append]
  have h1 : (l.map (fun a => (a + HDR_SIZE, (none : Option Nat)))).filter
      (fun o => decide (o.1 ≠ 0)) = l.map (fun a => (a + HDR_SIZE, (none : Option Nat))) := by
    rw [List.filter_eq_self]
    intro o ho
    obtain ⟨a, -, rfl⟩ := List.mem_map.1 ho
    simp [HDR_SIZE]
  have h2 : (List.replicate n ((0 : Nat), x)).filter (fun o => decide (o.1 ≠ 0)) = [] := by
    rw [List.filter_eq_nil_iff]
    intro o ho
    rw [(List.mem_replicate.1 ho).2]
    simp
  rw [h1, h2, List.append_nil]

theorem filter_eq_zero_outs (l : List Nat) (n : Nat) (x : Option Nat) :
    (l.map (fun a => (a + HDR_SIZE, (none : Option Nat))) ++ List.replicate n (0, x)).filter
        (fun o => decide (o.1 = 0))
      = List.replicate n (0, x) := by
  rw [List.filter_append]
  have h1 : (l.map (fun a => (a + HDR_SIZE, (none : Option Nat)))).filter
      (fun o => decide (o.1 = 0)) = [] := by
    rw [List.filter_eq_nil_iff]
    intro o ho
    obtain ⟨a, -, rfl⟩ := List.mem_map.1 ho
    simp [HDR_SIZE]
  have h2 : (List.replicate n ((0 : Nat), x)).filter (fun o => decide (o.1 = 0))
      = List.replicate n (0, x) := by
    rw [List.filter_eq_self]
    intro o ho
    rw [(List.mem_replicate.1 ho).2]
    simp
  rw [h1, h2, List.nil_append]

theorem slots_desc_length (p stride count : Nat) : (slots_desc p stride count).length = count := by
  simp [slots_desc]

/-- C3 (exclusivity): on a pool that `try_init_pool` has just initialised
with `K` blocks (slots of positive stride, region size within `size_t`), any
`N > K` consecutive lock-acquiring `pool_malloc` calls with no free in
between answer as follows: the first `K` return the payload addresses of the
slots `K - 1, ..., 0`; exactly `K` results are non-null and they are pairwise
distinct; the other `N - K` results are null, each signalled as pool
exhausted, and `allocation_failures` ends at `N - K`. -/
theorem pool_exclusivity (e : InitEnv) (cfg : pool_config_t) (pool_id K : Nat) (mem : Mem)
    (cs : List CallEnv)
    (hok : (try_init_pool e cfg pool_id K mem).ok = true)
    (hs : 0 < stride_of cfg.block_size 4)
    (hfit : stride_of cfg.block_size 4 * K < SIZE_T_MOD)
    (ht : ∀ c ∈ cs, c.took = true) (hN : K < cs.length) :
    (fresh_pool_run e cfg pool_id K mem cs).1 =
      (slots_desc (try_init_pool e cfg pool_id K mem).pool.pool_memory
          (stride_of cfg.block_size 4) K).map (fun a => (a + HDR_SIZE, none)) ++
        List.replicate (cs.length - K) (0, some LED_POOL_FULL) ∧
    (fresh_pool_run e cfg pool_id K mem cs).1.length = cs.length ∧
    ((fresh_pool_run e cfg pool_id K mem cs).1.filter (fun o => decide (o.1 ≠ 0))).length = K ∧
    (((fresh_pool_run e cfg pool_id K mem cs).1.filter
        (fun o => decide (o.1 ≠ 0))).map Prod.fst).Nodup ∧
    (fresh_pool_run e cfg pool_id K mem cs).1.filter (fun o => decide (o.1 = 0)) =
      List.replicate (cs.length - K) (0, some LED_POOL_FULL) ∧
    (fresh_pool_run e cfg pool_id K mem cs).2.1.allocation_failures = cs.length - K := by
  have hl := try_init_pool_free_list e cfg pool_id K mem hok hs hfit
  obtain ⟨-, hmx, -, -, -, hfail, -, -, -⟩ := try_init_pool_ok e cfg pool_id K mem hok
  have hlen := slots_desc_length (try_init_pool e cfg pool_id K mem).pool.pool_memory
    (stride_of cfg.block_size 4) K
  obtain ⟨g1, g2⟩ := pool_malloc_run_overflow _ cs _ _ hmx ht (by rw [hlen]; omega) hl
  rw [hlen] at g1 g2
  unfold fresh_pool_run
  refine ⟨g1, ?_, ?_, ?_, ?_, ?_⟩
  · rw [g1]; simp [hlen]; omega
  · rw [g1, filter_ne_zero_outs]; simp [hlen]
  · rw [g1, filter_ne_zero_outs, List.map_map]
    refine List.Nodup.map ?_ hl.2.1
    intro a b hab
    simp only [Function.comp] at hab
    omega
  · rw [g1, filter_eq_zero_outs]
  · rw [g2, hfail]; omega

/-- Instance of `pool_exclusivity`: twenty allocations on the fresh pool of
sixteen 64-byte blocks. -/
theorem pool_exclusivity_witness :
    ((fresh_pool_run (roomy_env 0x10000) ((cfgs false).getD 0 default) 1 16 blank_mem
        (List.replicate 20 quick_call)).1.filter (fun o => decide (o.1 ≠ 0))).length = 16 ∧
    (fresh_pool_run (roomy_env 0x10000) ((cfgs false).getD 0 default) 1 16 blank_mem
        (List.replicate 20 quick_call)).2.1.allocation_failures = 20 - 16 :=
  have h := pool_exclusivity (roomy_env 0x10000) ((cfgs false).getD 0 default) 1 16 blank_mem
    (List.replicate 20 quick_call) (by decide) (by decide) (by decide)
    (fun c hc => by rw [(List.mem_replicate.1 hc).2]; rfl) (by decide)
  ⟨h.2.2.1, h.2.2.2.2.2⟩

/-! ## Exhaustion recovery and rejected frees -/

/-- C4 (exhaustion recovery): in a pool that owns its region and whose free
list is empty, after a successful `pool_free` the next lock-acquiring
`pool_malloc` succeeds, returning the payload of the slot just freed, and the
lock-acquiring `pool_malloc` after that fails, signalled as pool exhausted. -/
theorem pool_exhaustion_recovery (c1 c2 c3 : CallEnv) (pool : memory_pool_t) (ptr : Nat)
    (mem : Mem) (hpm : pool.pool_memory ≠ 0) (hempty : pool.free_list = 0)
    (hfree : (pool_free c1 pool ptr mem).ok = true)
    (h2 : c2.took = true) (h3 : c3.took = true) :
    (pool_malloc c2 (pool_free c1 pool ptr mem).pool (pool_free c1 pool ptr mem).mem).out ≠ 0 ∧
    (pool_malloc c2 (pool_free c1 pool ptr mem).pool (pool_free c1 pool ptr mem).mem).out
      = hdr_of_ptr ptr + HDR_SIZE ∧
    (pool_malloc c3
      (pool_malloc c2 (pool_free c1 pool ptr mem).pool (pool_free c1 pool ptr mem).mem).pool
      (pool_malloc c2 (pool_free c1 pool ptr mem).pool (pool_free c1 pool ptr mem).mem).mem).out
      = 0 ∧
    (pool_malloc c3
      (pool_malloc c2 (pool_free c1 pool ptr mem).pool (pool_free c1 pool ptr mem).mem).pool
      (pool_malloc c2 (pool_free c1 pool ptr mem).pool (pool_free c1 pool ptr mem).mem).mem).led
      = some LED_POOL_FULL := by
  obtain ⟨hp, hm, ht, hb1, hb2, hmg, hpid⟩ := (pool_free_ok_iff c1 pool ptr mem).1 hfree
  obtain ⟨gfl, gmx, gid, gmem⟩ := pool_free_ok_state c1 pool ptr mem hfree
  have hblk : hdr_of_ptr ptr ≠ 0 := by omega
  have hmx : (pool_free c1 pool ptr mem).pool.mutex ≠ 0 := by rw [gmx]; exact hm
  have hf : (pool_free c1 pool ptr mem).pool.free_list ≠ 0 := by rw [gfl]; exact hblk
  have hv : ValidFree (pool_free c1 pool ptr mem).mem (pool_free c1 pool ptr mem).pool
      (pool_free c1 pool ptr mem).pool.free_list := by
    rw [gfl, ValidFree, gmem, Mem.write_same, gid]
    exact ⟨rfl, hpid⟩
  obtain ⟨ho, -, kfl, kmx, -, -⟩ := pool_malloc_ok c2 _ _ hmx h2 hf hv
  have knext : (pool_malloc c2 (pool_free c1 pool ptr mem).pool
      (pool_free c1 pool ptr mem).mem).pool.free_list = 0 := by
    rw [kfl, gfl, gmem, Mem.write_same]
    exact hempty
  have kmx2 : (pool_malloc c2 (pool_free c1 pool ptr mem).pool
      (pool_free c1 pool ptr mem).mem).pool.mutex ≠ 0 := by rw [kmx]; exact hmx
  refine ⟨?_, ?_, ?_, ?_⟩
  · rw [ho]; simp [HDR_SIZE]
  · rw [ho, gfl]
  · rw [pool_malloc_exhausted c3 _ _ kmx2 h3 knext]
  · rw [pool_malloc_exhausted c3 _ _ kmx2 h3 knext]

/-- Instance of `pool_exhaustion_recovery` on the one-block pool of
4096-byte blocks, exhausted by one allocation. -/
theorem pool_exhaustion_recovery_witness :
    huge_full.pool.free_list = 0 ∧
    (pool_free quick_call huge_full.pool huge_full.out huge_full.mem).ok = true ∧
    (pool_malloc quick_call (pool_free quick_call huge_full.pool huge_full.out huge_full.mem).pool
      (pool_free quick_call huge_full.pool huge_full.out huge_full.mem).mem).out ≠ 0 ∧
    (pool_malloc quick_call
      (pool_malloc quick_call
        (pool_free quick_call huge_full.pool huge_full.out huge_full.mem).pool
        (pool_free quick_call huge_full.pool huge_full.out huge_full.mem).mem).pool
      (pool_malloc quick_call
        (pool_free quick_call huge_full.pool huge_full.out huge_full.mem).pool
        (pool_free quick_call huge_full.pool huge_full.out huge_full.mem).mem).mem).out = 0 :=
  have h := pool_exhaustion_recovery quick_call quick_call quick_call huge_full.pool
    huge_full.out huge_full.mem (by decide) (by decide) (by decide) rfl rfl
  ⟨by decide, by decide, h.1, h.2.2.1⟩

/-- The state left by a `pool_free` that does not succeed, on a pool with a
mutex and for a non-null pointer: only the cumulative deallocation time
moves. -/
theorem pool_free_fail_state (c : CallEnv) (pool : memory_pool_t) (ptr : Nat) (mem : Mem)
    (hp : ptr ≠ 0) (hm : pool.mutex ≠ 0) (h : (pool_free c pool ptr mem).ok = false) :
    (pool_free c pool ptr mem).pool =
      { pool with deallocation_time_total := pool.deallocation_time_total + (c.t1 - c.t0) } ∧
    (pool_free c pool ptr mem).mem = mem := by
  unfold pool_free at h ⊢
  simp only [hp, hm, false_or, if_false] at h ⊢
  split
  · split
    · exact ⟨rfl, rfl⟩
    · rename_i ht hb
      rw [if_pos ht, if_neg hb] at h
      simp at h
  · exact ⟨rfl, rfl⟩

/-- C5, as amended: let `p` be returned by `pool_malloc` on a pool `X` whose
free-list head lies in `X`'s backing region, and let `Y` be an initialised
pool whose backing region is disjoint from `X`'s.  Then `pool_free(Y, p)`
returns false, leaves memory unchanged and changes no field of `Y` except
`deallocation_time_total`, which grows by the time the call took; and
`pool_free(X, p)` returns true when `X`'s lock is acquired. -/
theorem cross_pool_free_rejected (cx cy cf : CallEnv) (X Y : memory_pool_t) (mem : Mem)
    (hX : (pool_malloc cx X mem).out ≠ 0)
    (hlo : X.pool_memory ≤ X.free_list)
    (hhi : X.free_list < X.pool_memory + (X.stride * X.block_count) % SIZE_T_MOD)
    (hY : Y.mutex ≠ 0)
    (hdisj : X.pool_memory + (X.stride * X.block_count) % SIZE_T_MOD ≤ Y.pool_memory ∨
      Y.pool_memory + (Y.stride * Y.block_count) % SIZE_T_MOD ≤ X.pool_memory)
    (hf : cf.took = true) :
    (pool_free cy Y (pool_malloc cx X mem).out (pool_malloc cx X mem).mem).ok = false ∧
    (pool_free cy Y (pool_malloc cx X mem).out (pool_malloc cx X mem).mem).mem
      = (pool_malloc cx X mem).mem ∧
    (pool_free cy Y (pool_malloc cx X mem).out (pool_malloc cx X mem).mem).pool =
      { Y with deallocation_time_total := Y.deallocation_time_total + (cy.t1 - cy.t0) } ∧
    (pool_free cf (pool_malloc cx X mem).pool (pool_malloc cx X mem).out
      (pool_malloc cx X mem).mem).ok = true := by
  have hfail : (pool_free cy Y (pool_malloc cx X mem).out (pool_malloc cx X mem).mem).ok
      = false := by
    rw [Bool.eq_false_iff]
    intro hok
    obtain ⟨-, -, -, hb1, hb2, -, -⟩ := (pool_free_ok_iff _ _ _ _).1 hok
    obtain ⟨hm, ht, hfl, hv⟩ := (pool_malloc_out_ne_zero_iff cx X mem).1 hX
    rw [(pool_malloc_ok cx X mem hm ht hfl hv).1, hdr_of_ptr_add] at hb1 hb2
    omega
  obtain ⟨g1, g2⟩ := pool_free_fail_state cy Y _ _ hX hY hfail
  exact ⟨hfail, g2, g1, (pool_free_after_malloc_ok_iff cx cf X mem hX hf).2 ⟨hlo, hhi⟩⟩

/-- Instance of `cross_pool_free_rejected`: a slot of the 64-byte pool is
offered to the 256-byte pool. -/
theorem cross_pool_free_rejected_witness :
    (pool_free quick_call medium_pool (pool_malloc quick_call small_pool booted.2).out
      (pool_malloc quick_call small_pool booted.2).mem).ok = false ∧
    (pool_free quick_call (pool_malloc quick_call small_pool booted.2).pool
      (pool_malloc quick_call small_pool booted.2).out
      (pool_malloc quick_call small_pool booted.2).mem).ok = true :=
  have h := cross_pool_free_rejected quick_call quick_call quick_call small_pool medium_pool
    booted.2 (by decide) (by decide) (by decide) (by decide) (by decide) rfl
  ⟨h.1, h.2.2.2⟩

/-- C5 fails as stated: the 64-byte and the 256-byte pool of `booted` are
initialised and their regions are disjoint, yet offering a slot of the
64-byte pool to the 256-byte pool, which is refused, moves that pool's
cumulative deallocation time from 0 to 2. -/
theorem cross_pool_free_moves_latency :
    (pool_malloc quick_call small_pool booted.2).out ≠ 0 ∧
    small_pool.mutex ≠ 0 ∧ medium_pool.mutex ≠ 0 ∧
    small_pool.pool_memory + (small_pool.stride * small_pool.block_count) % SIZE_T_MOD
      ≤ medium_pool.pool_memory ∧
    (pool_free quick_call medium_pool (pool_malloc quick_call small_pool booted.2).out
      (pool_malloc quick_call small_pool booted.2).mem).ok = false ∧
    medium_pool.deallocation_time_total = 0 ∧
    (pool_free quick_call medium_pool (pool_malloc quick_call small_pool booted.2).out
      (pool_malloc quick_call small_pool booted.2).mem).pool.deallocation_time_total = 2 := by
  decide

/-- C6, as amended: once `pool_free(pool, p)` has succeeded, a second
`pool_free(pool, p)` with no allocation in between returns false, leaves
memory unchanged and changes no field of the pool (free list, bitmap,
`allocated_blocks`, `total_deallocations`, the other counters) except
`deallocation_time_total`, which grows by the time the call took. -/
theorem double_free_rejected (c1 c2 : CallEnv) (pool : memory_pool_t) (ptr : Nat) (mem : Mem)
    (h1 : (pool_free c1 pool ptr mem).ok = true) :
    (pool_free c2 (pool_free c1 pool ptr mem).pool ptr (pool_free c1 pool ptr mem).mem).ok
      = false ∧
    (pool_free c2 (pool_free c1 pool ptr mem).pool ptr (pool_free c1 pool ptr mem).mem).mem
      = (pool_free c1 pool ptr mem).mem ∧
    (pool_free c2 (pool_free c1 pool ptr mem).pool ptr (pool_free c1 pool ptr mem).mem).pool =
      { (pool_free c1 pool ptr mem).pool with
        deallocation_time_total :=
          (pool_free c1 pool ptr mem).pool.deallocation_time_total + (c2.t1 - c2.t0) } := by
  obtain ⟨hp, hm, -, -, -, -, -⟩ := (pool_free_ok_iff c1 pool ptr mem).1 h1
  obtain ⟨-, gmx, -, gmem⟩ := pool_free_ok_state c1 pool ptr mem h1
  have hfail : (pool_free c2 (pool_free c1 pool ptr mem).pool ptr
      (pool_free c1 pool ptr mem).mem).ok = false := by
    rw [Bool.eq_false_iff]
    intro hok
    obtain ⟨-, -, -, -, -, hmg, -⟩ := (pool_free_ok_iff _ _ _ _).1 hok
    rw [gmem, Mem.write_same] at hmg
    have hne : POOL_MAGIC_FREE ≠ POOL_MAGIC_ALLOC := by decide
    exact hne hmg
  obtain ⟨g1, g2⟩ := pool_free_fail_state c2 _ ptr _ hp (by rw [gmx]; exact hm) hfail
  exact ⟨hfail, g2, g1⟩

/-- Instance of `double_free_rejected`: a slot of the fresh 64-byte pool is
allocated and freed twice. -/
theorem double_free_rejected_witness :
    (pool_free quick_call (pool_malloc quick_call small_boot.pool small_boot.mem).pool
      (pool_malloc quick_call small_boot.pool small_boot.mem).out
      (pool_malloc quick_call small_boot.pool small_boot.mem).mem).ok = true ∧
    (pool_free quick_call
      (pool_free quick_call (pool_malloc quick_call small_boot.pool small_boot.mem).pool
        (pool_malloc quick_call small_boot.pool small_boot.mem).out
        (pool_malloc quick_call small_boot.pool small_boot.mem).mem).pool
      (pool_malloc quick_call small_boot.pool small_boot.mem).out
      (pool_free quick_call (pool_malloc quick_call small_boot.pool small_boot.mem).pool
        (pool_malloc quick_call small_boot.pool small_boot.mem).out
        (pool_malloc quick_call small_boot.pool small_boot.mem).mem).mem).ok = false :=
  ⟨by decide,
    (double_free_rejected quick_call quick_call
      (pool_malloc quick_call small_boot.pool small_boot.mem).pool
      (pool_malloc quick_call small_boot.pool small_boot.mem).out
      (pool_malloc quick_call small_boot.pool small_boot.mem).mem (by decide)).1⟩

/-- C6 fails as stated: after a slot of the fresh 64-byte pool has been
allocated and freed, the refused second free moves the pool's cumulative
deallocation time from 2 to 4. -/
theorem double_free_moves_latency :
    (pool_free quick_call (pool_malloc quick_call small_boot.pool small_boot.mem).pool
      (pool_malloc quick_call small_boot.pool small_boot.mem).out
      (pool_malloc quick_call small_boot.pool small_boot.mem).mem).ok = true ∧
    (pool_free quick_call (pool_malloc quick_call small_boot.pool small_boot.mem).pool
      (pool_malloc quick_call small_boot.pool small_boot.mem).out
      (pool_malloc quick_call small_boot.pool small_boot.mem).mem).pool.deallocation_time_total
      = 2 ∧
    (pool_free quick_call
      (pool_free quick_call (pool_malloc quick_call small_boot.pool small_boot.mem).pool
        (pool_malloc quick_call small_boot.pool small_boot.mem).out
        (pool_malloc quick_call small_boot.pool small_boot.mem).mem).pool
      (pool_malloc quick_call small_boot.pool small_boot.mem).out
      (pool_free quick_call (pool_malloc quick_call small_boot.pool small_boot.mem).pool
        (pool_malloc quick_call small_boot.pool small_boot.mem).out
        (pool_malloc quick_call small_boot.pool small_boot.mem).mem).mem).ok = false ∧
    (pool_free quick_call
      (pool_free quick_call (pool_malloc quick_call small_boot.pool small_boot.mem).pool
        (pool_malloc quick_call small_boot.pool small_boot.mem).out
        (pool_malloc quick_call small_boot.pool small_boot.mem).mem).pool
      (pool_malloc quick_call small_boot.pool small_boot.mem).out
      (pool_free quick_call (pool_malloc quick_call small_boot.pool small_boot.mem).pool
        (pool_malloc quick_call small_boot.pool small_boot.mem).out
        (pool_malloc quick_call small_boot.pool small_boot.mem).mem).mem).pool.deallocation_time_total
      = 4 := by
  decide

/-! ## Corrupted headers -/

/-- What `pool_malloc` does when the lock is acquired and the head slot's
header fails validation: it returns null and lights the error LED; the free
list has already advanced past the slot and nothing else has changed. -/
theorem pool_malloc_corrupt_eq (c : CallEnv) (pool : memory_pool_t) (mem : Mem)
    (hm : pool.mutex ≠ 0) (ht : c.took = true) (hf : pool.free_list ≠ 0)
    (hbad : (mem pool.free_list).magic ≠ POOL_MAGIC_FREE ∨
      (mem pool.free_list).pool_id ≠ pool.pool_id) :
    pool_malloc c pool mem =
      { out := 0, led := some LED_POOL_ERROR,
        pool := { pool with free_list := (mem pool.free_list).next }, mem := mem } := by
  simp only [pool_malloc, hm, ht, hf, if_false, if_true, ne_eq, not_false_eq_true]
  rw [if_pos hbad]

theorem corrupt_head_same (mem : Mem) (a m i : Nat) :
    corrupt_head mem a m i a = { (mem a) with magic := m, pool_id := i } :=
  Mem.write_same _ _ _

theorem corrupt_head_other (mem : Mem) (a m i b : Nat) (h : b ≠ a) :
    corrupt_head mem a m i b = mem b :=
  Mem.write_other _ _ _ _ h

/-- C7 (corruption containment): let the free list of a pool be `a :: rest`
and let the state tag and owner id of the head slot `a` be overwritten with
values that fail validation, its next link left intact.  Then the next
`pool_malloc` returns null and leaves memory as it is; every slot of `rest`
is still reachable from `free_list` exactly once; and when the call acquired
the lock, the error LED is lit, the free list is exactly `rest`, and the
following lock-acquiring allocations hand out the slots of `rest` one by
one. -/
theorem corruption_containment (c : CallEnv) (pool : memory_pool_t) (mem : Mem) (a m i : Nat)
    (rest : List Nat) (hm : pool.mutex ≠ 0) (hl : FreeListIs mem pool (a :: rest))
    (hbad : m ≠ POOL_MAGIC_FREE ∨ i ≠ pool.pool_id) :
    (pool_malloc c pool (corrupt_head mem a m i)).out = 0 ∧
    (pool_malloc c pool (corrupt_head mem a m i)).mem = corrupt_head mem a m i ∧
    (∃ l, IsFreeList (pool_malloc c pool (corrupt_head mem a m i)).mem
        (pool_malloc c pool (corrupt_head mem a m i)).pool.free_list l ∧
      ∀ b ∈ rest, l.count b = 1) ∧
    (c.took = true →
      (pool_malloc c pool (corrupt_head mem a m i)).led = some LED_POOL_ERROR ∧
      FreeListIs (pool_malloc c pool (corrupt_head mem a m i)).mem
        (pool_malloc c pool (corrupt_head mem a m i)).pool rest ∧
      ∀ cs : List CallEnv, (∀ d ∈ cs, d.took = true) → cs.length = rest.length →
        (pool_malloc_run cs (pool_malloc c pool (corrupt_head mem a m i)).pool
          (pool_malloc c pool (corrupt_head mem a m i)).mem).1
          = rest.map (fun b => (b + HDR_SIZE, none))) := by
  obtain ⟨⟨hh, ha0, hch⟩, hnd, hval⟩ := hl
  rw [List.nodup_cons] at hnd
  have hf : pool.free_list ≠ 0 := by rw [hh]; exact ha0
  have hother : ∀ b ∈ rest, corrupt_head mem a m i b = mem b :=
    fun b hb => corrupt_head_other mem a m i b (fun h => hnd.1 (h ▸ hb))
  have hnext : (corrupt_head mem a m i a).next = (mem a).next := by
    rw [corrupt_head_same]
  have hchain : IsFreeList (corrupt_head mem a m i) (mem a).next rest :=
    IsFreeList.congr hother hch
  have hbad2 : (corrupt_head mem a m i pool.free_list).magic ≠ POOL_MAGIC_FREE ∨
      (corrupt_head mem a m i pool.free_list).pool_id ≠ pool.pool_id := by
    rw [hh, corrupt_head_same]; exact hbad
  have hcount : ∀ b ∈ rest, rest.count b = 1 :=
    fun b hb => List.count_eq_one_of_mem hnd.2 hb
  by_cases ht : c.took = true
  · have hr := pool_malloc_corrupt_eq c pool (corrupt_head mem a m i) hm ht hf hbad2
    have hfl : FreeListIs (pool_malloc c pool (corrupt_head mem a m i)).mem
        (pool_malloc c pool (corrupt_head mem a m i)).pool rest := by
      rw [hr]
      refine ⟨?_, hnd.2, ?_⟩
      · show IsFreeList (corrupt_head mem a m i) (corrupt_head mem a m i pool.free_list).next rest
        rw [hh, hnext]; exact hchain
      · intro b hb
        exact ValidFree.of_eq (hother b hb) rfl (hval b (List.mem_cons_of_mem a hb))
    have hmx : (pool_malloc c pool (corrupt_head mem a m i)).pool.mutex ≠ 0 := by
      rw [hr]; exact hm
    refine ⟨by rw [hr], by rw [hr], ⟨rest, hfl.1, hcount⟩, fun _ => ⟨by rw [hr], hfl, ?_⟩⟩
    intro cs hcs hlen
    exact (pool_malloc_run_drain rest cs _ _ hmx hcs hlen hfl).1
  · have hr : pool_malloc c pool (corrupt_head mem a m i) =
        { out := 0, led := none,
          pool := { pool with allocation_time_total :=
                                pool.allocation_time_total + (c.t1 - c.t0) },
          mem := corrupt_head mem a m i } := by
      simp [pool_malloc, hm, ht]
    refine ⟨by rw [hr], by rw [hr], ⟨a :: rest, ?_, ?_⟩, fun h => absurd h ht⟩
    · rw [hr]
      exact ⟨hh, ha0, by rw [hnext]; exact hchain⟩
    · intro b hb
      have hba : b ≠ a := fun h => hnd.1 (h ▸ hb)
      rw [List.count_cons_of_ne hba]
      exact hcount b hb

/-- Instance of `corruption_containment`: the head slot of the fresh 64-byte
pool (slot 15) has its tag and owner id zeroed. -/
theorem corruption_containment_witness :
    (pool_malloc quick_call small_boot.pool
      (corrupt_head small_boot.mem (slot_addr 0x10000 88 15) 0 0)).out = 0 ∧
    (pool_malloc_run (List.replicate 15 quick_call)
      (pool_malloc quick_call small_boot.pool
        (corrupt_head small_boot.mem (slot_addr 0x10000 88 15) 0 0)).pool
      (pool_malloc quick_call small_boot.pool
        (corrupt_head small_boot.mem (slot_addr 0x10000 88 15) 0 0)).mem).1
      = (slots_desc 0x10000 88 15).map (fun b => (b + HDR_SIZE, none)) :=
  have h := corruption_containment quick_call small_boot.pool small_boot.mem
    (slot_addr 0x10000 88 15) 0 0 (slots_desc 0x10000 88 15) (by decide)
    (by
      have := try_init_pool_free_list (roomy_env 0x10000) ((cfgs false).getD 0 default) 1
        SMALL_POOL_BLOCK_COUNT blank_mem (by decide) (by decide) (by decide)
      exact this)
    (by decide)
  ⟨h.1, (h.2.2.2 rfl).2.2 (List.replicate 15 quick_call)
    (fun d hd => by rw [(List.mem_replicate.1 hd).2]; rfl) (by decide)⟩

/-- C8, as amended: when `pool_malloc`, holding the lock, finds at the head
of the free list a header whose tag is not FREE or whose owner id is not the
pool's, it returns null, lights the error LED and changes no counter: the
pool after the call is the pool before with `free_list` advanced to the
slot's next link, and memory is unchanged. -/
theorem pool_malloc_corruption_not_counted (c : CallEnv) (pool : memory_pool_t) (mem : Mem)
    (hm : pool.mutex ≠ 0) (ht : c.took = true) (hf : pool.free_list ≠ 0)
    (hbad : (mem pool.free_list).magic ≠ POOL_MAGIC_FREE ∨
      (mem pool.free_list).pool_id ≠ pool.pool_id) :
    (pool_malloc c pool mem).out = 0 ∧
    (pool_malloc c pool mem).led = some LED_POOL_ERROR ∧
    (pool_malloc c pool mem).pool = { pool with free_list := (mem pool.free_list).next } ∧
    (pool_malloc c pool mem).mem = mem := by
  rw [pool_malloc_corrupt_eq c pool mem hm ht hf hbad]
  exact ⟨rfl, rfl, rfl, rfl⟩

/-- Instance of `pool_malloc_corruption_not_counted` on the fresh 64-byte
pool with the tag and owner id of its head slot zeroed. -/
theorem pool_malloc_corruption_not_counted_witness :
    (pool_malloc quick_call small_boot.pool
      (corrupt_head small_boot.mem small_boot.pool.free_list 0 0)).out = 0 ∧
    (pool_malloc quick_call small_boot.pool
      (corrupt_head small_boot.mem small_boot.pool.free_list 0 0)).led = some LED_POOL_ERROR :=
  have h := pool_malloc_corruption_not_counted quick_call small_boot.pool
    (corrupt_head small_boot.mem small_boot.pool.free_list 0 0)
    (by decide) rfl (by decide) (by decide)
  ⟨h.1, h.2.1⟩

/-- C8 fails as stated: on the fresh 64-byte pool with the tag and owner id
of its head slot zeroed, `pool_malloc` detects the corruption (null result,
error LED) and every counter of the pool, `allocation_failures` included,
has the value it had before the call. -/
theorem corruption_leaves_counters :
    (pool_malloc quick_call small_boot.pool
      (corrupt_head small_boot.mem small_boot.pool.free_list 0 0)).out = 0 ∧
    (pool_malloc quick_call small_boot.pool
      (corrupt_head small_boot.mem small_boot.pool.free_list 0 0)).led = some LED_POOL_ERROR ∧
    (pool_malloc quick_call small_boot.pool
      (corrupt_head small_boot.mem small_boot.pool.free_list 0 0)).pool =
      { small_boot.pool with free_list := slot_addr 0x10000 88 14 } ∧
    (pool_malloc quick_call small_boot.pool
      (corrupt_head small_boot.mem small_boot.pool.free_list 0 0)).pool.allocation_failures
      = small_boot.pool.allocation_failures := by
  decide

/-! ## Degrade-and-retry initialisation -/

/-- An attempt of `try_init_pool` succeeds exactly when its three external
calls succeed. -/
theorem try_init_pool_ok_iff (e : InitEnv) (cfg : pool_config_t) (pool_id block_count : Nat)
    (mem : Mem) :
    (try_init_pool e cfg pool_id block_count mem).ok = true ↔
      e.heap_caps_malloc ((stride_of cfg.block_size 4 * block_count) % SIZE_T_MOD) cfg.caps ≠ 0 ∧
      e.heap_caps_calloc (((block_count + 7) % SIZE_T_MOD) / 8) 1 MALLOC_CAP_INTERNAL ≠ 0 ∧
      e.xSemaphoreCreateMutex ≠ 0 := by
  unfold try_init_pool
  simp only [zero_pool]
  split
  · rename_i h; simp [h]
  · rename_i h1
    split
    · rename_i h; simp [h]
    · rename_i h2
      split
      · rename_i h; simp [h]
      · rename_i h3; simp [h1, h2, h3]

theorem init_free_list_snd (mem mem2 : Mem) (p stride pool_id count : Nat) :
    (init_free_list mem p stride pool_id count).2 =
      (init_free_list mem2 p stride pool_id count).2 := by
  cases count with
  | zero => rfl
  | succ n => rw [init_free_list_succ, init_free_list_succ]; rfl

/-- Neither the outcome nor the pool record of an attempt depends on the
contents of memory. -/
theorem try_init_pool_mem_indep (e : InitEnv) (cfg : pool_config_t) (pool_id block_count : Nat)
    (mem mem2 : Mem) :
    (try_init_pool e cfg pool_id block_count mem).ok =
      (try_init_pool e cfg pool_id block_count mem2).ok ∧
    (try_init_pool e cfg pool_id block_count mem).pool =
      (try_init_pool e cfg pool_id block_count mem2).pool := by
  unfold try_init_pool
  simp only
  split
  · exact ⟨rfl, rfl⟩
  · split
    · exact ⟨rfl, rfl⟩
    · rw [init_free_list_snd mem mem2]
      split
      · exact ⟨rfl, rfl⟩
      · exact ⟨rfl, rfl⟩

theorem init_loop_zero (env : Nat → InitEnv) (cfg : pool_config_t) (pool_id k : Nat)
    (pool : memory_pool_t) (mem : Mem) :
    init_loop env cfg pool_id 0 k pool mem =
      { ok := false, pool := pool, mem := mem, attempts := [] } := by
  rw [init_loop]; simp

theorem init_loop_ok (env : Nat → InitEnv) (cfg : pool_config_t) (pool_id count k : Nat)
    (pool : memory_pool_t) (mem : Mem) (hc : 1 ≤ count)
    (h : (try_init_pool (env k) cfg pool_id count mem).ok = true) :
    init_loop env cfg pool_id count k pool mem =
      { ok := true, pool := (try_init_pool (env k) cfg pool_id count mem).pool,
        mem := (try_init_pool (env k) cfg pool_id count mem).mem, attempts := [count] } := by
  rw [init_loop]; simp [hc, h]

theorem init_loop_retry (env : Nat → InitEnv) (cfg : pool_config_t) (pool_id count k : Nat)
    (pool : memory_pool_t) (mem : Mem) (hc : 1 ≤ count)
    (h : (try_init_pool (env k) cfg pool_id count mem).ok = false) :
    init_loop env cfg pool_id count k pool mem =
      { init_loop env cfg pool_id (count / 2) (k + 1)
          (try_init_pool (env k) cfg pool_id count mem).pool
          (try_init_pool (env k) cfg pool_id count mem).mem with
        attempts := count :: (init_loop env cfg pool_id (count / 2) (k + 1)
          (try_init_pool (env k) cfg pool_id count mem).pool
          (try_init_pool (env k) cfg pool_id count mem).mem).attempts } := by
  rw [init_loop]; simp [hc, h]

theorem halving_shift (count j : Nat) : count / 2 / 2 ^ j = count / 2 ^ (j + 1) := by
  rw [Nat.div_div_eq_div_mul, Nat.pow_succ, Nat.mul_comm]

theorem halving_list_cons (count n : Nat) :
    count :: (List.range n).map (fun j => count / 2 / 2 ^ j) =
      (List.range (n + 1)).map (fun j => count / 2 ^ j) := by
  rw [List.range_succ_eq_map, List.map_cons, List.map_map]
  simp only [Nat.pow_zero, Nat.div_one]
  congr 1
  apply List.map_congr_left
  intro j _
  simp only [Function.comp, Nat.succ_eq_add_one]
  exact halving_shift count j

/-- The retry loop started at `count` with `k0` attempts behind it: the
counts tried are `count, count / 2, count / 4, ...`, each at least 1; if the
loop succeeds, it does so at the first attempt that `try_init_pool` accepts
and returns that attempt's pool. -/
theorem init_loop_spec (env : Nat → InitEnv) (cfg : pool_config_t) (pool_id : Nat) :
    ∀ (count k0 : Nat) (pool : memory_pool_t) (mem : Mem),
      (init_loop env cfg pool_id count k0 pool mem).attempts =
        (List.range (init_loop env cfg pool_id count k0 pool mem).attempts.length).map
          (fun j => count / 2 ^ j) ∧
      (∀ x ∈ (init_loop env cfg pool_id count k0 pool mem).attempts, 1 ≤ x) ∧
      ((init_loop env cfg pool_id count k0 pool mem).ok = true →
        ∃ k, (init_loop env cfg pool_id count k0 pool mem).attempts.length = k + 1 ∧
          1 ≤ count / 2 ^ k ∧
          (∀ j, j < k → ∀ m,
            (try_init_pool (env (k0 + j)) cfg pool_id (count / 2 ^ j) m).ok = false) ∧
          (∀ m, (try_init_pool (env (k0 + k)) cfg pool_id (count / 2 ^ k) m).ok = true ∧
            (try_init_pool (env (k0 + k)) cfg pool_id (count / 2 ^ k) m).pool =
              (init_loop env cfg pool_id count k0 pool mem).pool) ∧
          (init_loop env cfg pool_id count k0 pool mem).pool.block_count = count / 2 ^ k) := by
  intro count
  induction count using Nat.strong_induction_on with
  | _ count ih =>
    intro k0 pool mem
    by_cases hc : 1 ≤ count
    · by_cases hok : (try_init_pool (env k0) cfg pool_id count mem).ok = true
      · rw [init_loop_ok env cfg pool_id count k0 pool mem hc hok]
        refine ⟨by simp [List.range_succ], by simpa using hc,
          fun _ => ⟨0, rfl, by simpa using hc, ?_, ?_, ?_⟩⟩
        · intro j hj; omega
        · intro m
          have := try_init_pool_mem_indep (env k0) cfg pool_id count m mem
          simp only [Nat.pow_zero, Nat.div_one, Nat.add_zero]
          exact ⟨this.1.trans hok, this.2⟩
        · simp only [Nat.pow_zero, Nat.div_one]
          exact (try_init_pool_ok (env k0) cfg pool_id count mem hok).2.2.2.1
      · have hfalse : (try_init_pool (env k0) cfg pool_id count mem).ok = false := by
          simpa using hok
        rw [init_loop_retry env cfg pool_id count k0 pool mem hc hfalse]
        obtain ⟨i1, i2, i3⟩ := ih (count / 2) (by omega) (k0 + 1)
          (try_init_pool (env k0) cfg pool_id count mem).pool
          (try_init_pool (env k0) cfg pool_id count mem).mem
        refine ⟨?_, ?_, ?_⟩
        · simp only [List.length_cons]
          rw [← halving_list_cons]
          exact congrArg (List.cons count) i1
        · intro x hx
          rcases List.mem_cons.1 hx with h | h
          · omega
          · exact i2 x h
        · intro hr
          obtain ⟨k, a1, a2, a3, a4, a5⟩ := i3 hr
          refine ⟨k + 1, by simp [a1], ?_, ?_, ?_, ?_⟩
          · rw [← halving_shift]; exact a2
          · intro j hj m
            cases j with
            | zero =>
              have := try_init_pool_mem_indep (env k0) cfg pool_id count m mem
              simp only [Nat.pow_zero, Nat.div_one, Nat.add_zero]
              exact this.1.trans hfalse
            | succ j =>
              have := a3 j (by omega) m
              rw [halving_shift] at this
              rw [show k0 + (j + 1) = k0 + 1 + j by omega]
              exact this
          · intro m
            have := a4 m
            rw [halving_shift] at this
            rw [show k0 + (k + 1) = k0 + 1 + k by omega]
            exact this
          · rw [← halving_shift]; exact a5
    · have h0 : count = 0 := by omega
      subst h0
      rw [init_loop_zero]
      simp

theorem init_loop_attempts_desc (env : Nat → InitEnv) (cfg : pool_config_t) (pool_id : Nat) :
    ∀ (count k0 : Nat) (pool : memory_pool_t) (mem : Mem),
      (∀ x ∈ (init_loop env cfg pool_id count k0 pool mem).attempts, x ≤ count) ∧
      (init_loop env cfg pool_id count k0 pool mem).attempts.Pairwise (fun a b => b < a) := by
  intro count
  induction count using Nat.strong_induction_on with
  | _ count ih =>
    intro k0 pool mem
    by_cases hc : 1 ≤ count
    · by_cases hok : (try_init_pool (env k0) cfg pool_id count mem).ok = true
      · rw [init_loop_ok env cfg pool_id count k0 pool mem hc hok]
        simp
      · have hfalse : (try_init_pool (env k0) cfg pool_id count mem).ok = false := by
          simpa using hok
        rw [init_loop_retry env cfg pool_id count k0 pool mem hc hfalse]
        obtain ⟨i1, i2⟩ := ih (count / 2) (by omega) (k0 + 1)
          (try_init_pool (env k0) cfg pool_id count mem).pool
          (try_init_pool (env k0) cfg pool_id count mem).mem
        constructor
        · intro x hx
          rcases List.mem_cons.1 hx with h | h
          · omega
          · have := i1 x h; omega
        · rw [List.pairwise_cons]
          refine ⟨fun x hx => ?_, i2⟩
          have := i1 x hx; omega
    · have h0 : count = 0 := by omega
      subst h0
      rw [init_loop_zero]
      simp

/-- The retry loop gives up only when every halved count down to 1 has been
refused. -/
theorem init_loop_fail_all (env : Nat → InitEnv) (cfg : pool_config_t) (pool_id : Nat) :
    ∀ (count k0 : Nat) (pool : memory_pool_t) (mem : Mem),
      (init_loop env cfg pool_id count k0 pool mem).ok = false →
      ∀ j, 1 ≤ count / 2 ^ j → ∀ m,
        (try_init_pool (env (k0 + j)) cfg pool_id (count / 2 ^ j) m).ok = false := by
  intro count
  induction count using Nat.strong_induction_on with
  | _ count ih =>
    intro k0 pool mem hr j hj m
    have hc : 1 ≤ count := by
      have := Nat.div_le_self count (2 ^ j)
      omega
    by_cases hok : (try_init_pool (env k0) cfg pool_id count mem).ok = true
    · rw [init_loop_ok env cfg pool_id count k0 pool mem hc hok] at hr
      simp at hr
    · have hfalse : (try_init_pool (env k0) cfg pool_id count mem).ok = false := by
        simpa using hok
      rw [init_loop_retry env cfg pool_id count k0 pool mem hc hfalse] at hr
      cases j with
      | zero =>
        have := try_init_pool_mem_indep (env k0) cfg pool_id count m mem
        simp only [Nat.pow_zero, Nat.div_one, Nat.add_zero]
        exact this.1.trans hfalse
      | succ j =>
        rw [← halving_shift] at hj ⊢
        have := ih (count / 2) (by omega) (k0 + 1) _ _ hr j hj m
        rw [show k0 + (j + 1) = k0 + 1 + j by omega]
        exact this

theorem stride_large : stride_of LARGE_POOL_BLOCK_SIZE 4 = 1048 := by decide

/-- C9 (degrade-and-retry): `init_memory_pool_safely` tries the block counts
`d, d / 2, d / 4, ...` in that order (`d` the configured count); if it
returns true, the attempt at which it stopped is the first one that
`try_init_pool` accepts, and the pool is that attempt's pool, with that
attempt's block count; if it returns false, every count of the sequence that
is at least 1 has been refused.  In particular, for 1024-byte blocks and
`d = 4`, if the allocator grants the backing region only for requests of at
most one slot (1048 bytes) and grants the bitmap and the mutex, the counts
4, 2, 1 are tried, the result is true with `block_count = 1`, and a
lock-acquiring `pool_malloc` on the pool succeeds. -/
theorem init_degrade_and_retry (env : Nat → InitEnv) (cfg : pool_config_t) (pool_id : Nat)
    (pool : memory_pool_t) (mem : Mem) :
    (init_memory_pool_safely env cfg pool_id pool mem).attempts =
      (List.range (init_memory_pool_safely env cfg pool_id pool mem).attempts.length).map
        (fun j => cfg.block_count / 2 ^ j) ∧
    ((init_memory_pool_safely env cfg pool_id pool mem).ok = true →
      ∃ k, (init_memory_pool_safely env cfg pool_id pool mem).attempts.length = k + 1 ∧
        1 ≤ cfg.block_count / 2 ^ k ∧
        (∀ j, j < k → ∀ m,
          (try_init_pool (env j) cfg pool_id (cfg.block_count / 2 ^ j) m).ok = false) ∧
        (∀ m, (try_init_pool (env k) cfg pool_id (cfg.block_count / 2 ^ k) m).ok = true ∧
          (try_init_pool (env k) cfg pool_id (cfg.block_count / 2 ^ k) m).pool =
            (init_memory_pool_safely env cfg pool_id pool mem).pool) ∧
        (init_memory_pool_safely env cfg pool_id pool mem).pool.block_count
          = cfg.block_count / 2 ^ k) ∧
    ((init_memory_pool_safely env cfg pool_id pool mem).ok = false →
      ∀ j, 1 ≤ cfg.block_count / 2 ^ j → ∀ m,
        (try_init_pool (env j) cfg pool_id (cfg.block_count / 2 ^ j) m).ok = false) ∧
    (cfg.block_size = LARGE_POOL_BLOCK_SIZE → cfg.block_count = 4 →
      (∀ j size caps, (env j).heap_caps_malloc size caps ≠ 0 ↔
        size ≤ stride_of LARGE_POOL_BLOCK_SIZE 4) →
      (∀ j n, (env j).heap_caps_calloc n 1 MALLOC_CAP_INTERNAL ≠ 0) →
      (∀ j, (env j).xSemaphoreCreateMutex ≠ 0) →
      (init_memory_pool_safely env cfg pool_id pool mem).ok = true ∧
      (init_memory_pool_safely env cfg pool_id pool mem).attempts = [4, 2, 1] ∧
      (init_memory_pool_safely env cfg pool_id pool mem).pool.block_count = 1 ∧
      ∀ c : CallEnv, c.took = true →
        (pool_malloc c (init_memory_pool_safely env cfg pool_id pool mem).pool
          (init_memory_pool_safely env cfg pool_id pool mem).mem).out ≠ 0) := by
  obtain ⟨h1, -, h3⟩ := init_loop_spec env cfg pool_id cfg.block_count 0 pool mem
  refine ⟨h1, ?_, ?_, ?_⟩
  · intro hok
    obtain ⟨k, a1, a2, a3, a4, a5⟩ := h3 hok
    refine ⟨k, a1, a2, ?_, ?_, a5⟩
    · intro j hj m
      have := a3 j hj m
      rwa [Nat.zero_add] at this
    · intro m
      have := a4 m
      rwa [Nat.zero_add] at this
  · intro hr j hj m
    have := init_loop_fail_all env cfg pool_id cfg.block_count 0 pool mem hr j hj m
    rwa [Nat.zero_add] at this
  · intro hbs hbc hmalloc hcalloc hmutex
    have ok_iff : ∀ j n m, (try_init_pool (env j) cfg pool_id n m).ok = true ↔
        (1048 * n) % SIZE_T_MOD ≤ 1048 := by
      intro j n m
      rw [try_init_pool_ok_iff, hbs, hmalloc, stride_large]
      simp [hcalloc, hmutex]
    have f4 : (try_init_pool (env 0) cfg pool_id 4 mem).ok = false := by
      rw [Bool.eq_false_iff, Ne, ok_iff]; decide
    have f2 : (try_init_pool (env 1) cfg pool_id 2
        (try_init_pool (env 0) cfg pool_id 4 mem).mem).ok = false := by
      rw [Bool.eq_false_iff, Ne, ok_iff]; decide
    have t1 : (try_init_pool (env 2) cfg pool_id 1
        (try_init_pool (env 1) cfg pool_id 2
          (try_init_pool (env 0) cfg pool_id 4 mem).mem).mem).ok = true := by
      rw [ok_iff]; decide
    have hr : init_memory_pool_safely env cfg pool_id pool mem =
        { ok := true,
          pool := (try_init_pool (env 2) cfg pool_id 1
            (try_init_pool (env 1) cfg pool_id 2
              (try_init_pool (env 0) cfg pool_id 4 mem).mem).mem).pool,
          mem := (try_init_pool (env 2) cfg pool_id 1
            (try_init_pool (env 1) cfg pool_id 2
              (try_init_pool (env 0) cfg pool_id 4 mem).mem).mem).mem,
          attempts := [4, 2, 1] } := by
      unfold init_memory_pool_safely
      rw [hbc, init_loop_retry env cfg pool_id 4 0 pool mem (by omega) f4,
        init_loop_retry env cfg pool_id 2 1 _ _ (by omega) f2,
        init_loop_ok env cfg pool_id 1 2 _ _ (by omega) t1]
    have hfl := try_init_pool_free_list (env 2) cfg pool_id 1 _ t1
      (by rw [hbs, stride_large]; omega) (by rw [hbs, stride_large]; decide)
    obtain ⟨-, hmx, -, hcount, -⟩ := try_init_pool_ok (env 2) cfg pool_id 1 _ t1
    rw [hr]
    refine ⟨rfl, rfl, hcount, ?_⟩
    intro c hc
    rw [slots_desc_succ] at hfl
    rw [(pool_malloc_pop c _ _ _ _ hmx hc hfl).1]
    simp [HDR_SIZE]

/-- Instance of `init_degrade_and_retry`: the pool of four 1024-byte blocks
with an allocator that has room for one slot. -/
theorem init_degrade_and_retry_witness :
    (init_memory_pool_safely (fun _ => tight_env) ((cfgs false).getD 2 default) 3 zero_pool
      blank_mem).ok = true ∧
    (init_memory_pool_safely (fun _ => tight_env) ((cfgs false).getD 2 default) 3 zero_pool
      blank_mem).attempts = [4, 2, 1] ∧
    (init_memory_pool_safely (fun _ => tight_env) ((cfgs false).getD 2 default) 3 zero_pool
      blank_mem).pool.block_count = 1 :=
  have h := (init_degrade_and_retry (fun _ => tight_env) ((cfgs false).getD 2 default) 3
    zero_pool blank_mem).2.2.2 rfl rfl
    (fun _ size _ => by
      rw [stride_large]
      by_cases hs : size ≤ 1048 <;> simp [tight_env, hs])
    (fun _ _ => by simp [tight_env]) (fun _ => by simp [tight_env])
  ⟨h.1, h.2.1, h.2.2.1⟩

/-- C10 (bootstrap always finishes): `init_memory_pool_safely` is a total
function; the block counts it tries are strictly decreasing and each at
least 1; it makes no attempt and returns false for a configured count of 0,
and at most `floor(log2(count)) + 1` attempts for a configured count of at
least 1. -/
theorem init_bootstrap_finishes (env : Nat → InitEnv) (cfg : pool_config_t) (pool_id : Nat)
    (pool : memory_pool_t) (mem : Mem) :
    (init_memory_pool_safely env cfg pool_id pool mem).attempts.Pairwise (fun a b => b < a) ∧
    (∀ x ∈ (init_memory_pool_safely env cfg pool_id pool mem).attempts, 1 ≤ x) ∧
    (cfg.block_count = 0 →
      (init_memory_pool_safely env cfg pool_id pool mem).attempts = [] ∧
      (init_memory_pool_safely env cfg pool_id pool mem).ok = false) ∧
    (1 ≤ cfg.block_count →
      (init_memory_pool_safely env cfg pool_id pool mem).attempts.length
        ≤ Nat.log2 cfg.block_count + 1) := by
  obtain ⟨h1, h2, -⟩ := init_loop_spec env cfg pool_id cfg.block_count 0 pool mem
  refine ⟨(init_loop_attempts_desc env cfg pool_id cfg.block_count 0 pool mem).2, h2, ?_, ?_⟩
  · intro h0
    unfold init_memory_pool_safely
    rw [h0, init_loop_zero]
    exact ⟨rfl, rfl⟩
  · intro hd
    unfold init_memory_pool_safely at *
    generalize (init_loop env cfg pool_id cfg.block_count 0 pool mem).attempts = l at h1 h2
    cases hn : l.length with
    | zero => omega
    | succ n =>
      have hmem : cfg.block_count / 2 ^ n ∈ l := by
        rw [h1, hn]
        exact List.mem_map.2 ⟨n, List.mem_range.2 (by omega), rfl⟩
      have hge := h2 _ hmem
      have hpow : 2 ^ n ≤ cfg.block_count := by
        have := (Nat.le_div_iff_mul_le (Nat.two_pow_pos n)).1 hge
        omega
      have := (Nat.le_log2 (by omega : cfg.block_count ≠ 0)).2 hpow
      omega

/-- Instance of `init_bootstrap_finishes`: the pool of four 1024-byte blocks
with an allocator that refuses everything gives up after three attempts. -/
theorem init_bootstrap_finishes_witness :
    1 ≤ ((cfgs false).getD 2 default).block_count ∧
    (init_memory_pool_safely (fun _ => empty_env) ((cfgs false).getD 2 default) 3 zero_pool
      blank_mem).attempts.length ≤ Nat.log2 ((cfgs false).getD 2 default).block_count + 1 :=
  ⟨by decide,
    (init_bootstrap_finishes (fun _ => empty_env) ((cfgs false).getD 2 default) 3 zero_pool
      blank_mem).2.2.2 (by decide)⟩

/-! ## The usage bitmap -/

theorem set_mask_testBit : ∀ m t : Fin 8,
    ((1 <<< m.val) % 256).testBit t.val = decide (t = m) := by decide

theorem clear_mask_testBit : ∀ m t : Fin 8,
    (255 - (1 <<< m.val) % 256).testBit t.val = decide (t ≠ m) := by decide

theorem idx_split (j k : Nat) : j = k ↔ j / 8 = k / 8 ∧ j % 8 = k % 8 := by
  constructor
  · rintro rfl; exact ⟨rfl, rfl⟩
  · rintro ⟨h1, h2⟩; omega

/-- Every bit of a zero-filled bitmap is clear. -/
theorem bitmap_bit_replicate (n i : Nat) : bitmap_bit (List.replicate n 0) i = false := by
  unfold bitmap_bit
  have : (List.replicate n 0).getD (i >>> 3) 0 = 0 := by
    simp only [List.getD_eq_getElem?_getD, List.getElem?_replicate]
    split <;> rfl
  rw [this, Nat.zero_testBit]

/-- Setting bit `k` of a bitmap that has a byte for it sets that bit and
leaves every other bit as it was. -/
theorem bitmap_bit_set (bm : List Nat) (k j : Nat) (hk : k / 8 < bm.length) :
    bitmap_bit (bitmap_set bm k) j = (decide (j = k) || bitmap_bit bm j) := by
  unfold bitmap_bit bitmap_set
  have hkb : k >>> 3 = k / 8 := Nat.shiftRight_eq_div_pow k 3
  have hjb : j >>> 3 = j / 8 := Nat.shiftRight_eq_div_pow j 3
  have hk7 : k &&& 7 = k % 8 := Nat.and_pow_two_sub_one_eq_mod k 3
  have hj7 : j &&& 7 = j % 8 := Nat.and_pow_two_sub_one_eq_mod j 3
  rw [hkb, hjb, hk7, hj7]
  by_cases hb : k / 8 = j / 8
  · have hget : (bm.set (k / 8) (bm.getD (k / 8) 0 ||| (1 <<< (k % 8)) % 256)).getD (j / 8) 0
        = bm.getD (k / 8) 0 ||| (1 <<< (k % 8)) % 256 := by
      rw [← hb]
      simp [hk]
    rw [hget, Nat.testBit_or, ← hb]
    have hm := set_mask_testBit ⟨k % 8, Nat.mod_lt _ (by omega)⟩ ⟨j % 8, Nat.mod_lt _ (by omega)⟩
    simp only at hm
    rw [hm, Bool.or_comm]
    congr 1
    rw [decide_eq_decide, Fin.mk.injEq, idx_split j k]
    constructor
    · intro h; exact ⟨hb.symm, h⟩
    · intro h; exact h.2
  · have hget : (bm.set (k / 8) (bm.getD (k / 8) 0 ||| (1 <<< (k % 8)) % 256)).getD (j / 8) 0
        = bm.getD (j / 8) 0 := by
      simp [List.getElem?_set_ne hb]
    have hne : j ≠ k := fun h => hb (by rw [h])
    rw [hget]
    simp [hne]

/-- Clearing bit `k` clears that bit and leaves every other bit as it was. -/
theorem bitmap_bit_clear (bm : List Nat) (k j : Nat) :
    bitmap_bit (bitmap_clear bm k) j = (decide (j ≠ k) && bitmap_bit bm j) := by
  unfold bitmap_bit bitmap_clear
  have hkb : k >>> 3 = k / 8 := Nat.shiftRight_eq_div_pow k 3
  have hjb : j >>> 3 = j / 8 := Nat.shiftRight_eq_div_pow j 3
  have hk7 : k &&& 7 = k % 8 := Nat.and_pow_two_sub_one_eq_mod k 3
  have hj7 : j &&& 7 = j % 8 := Nat.and_pow_two_sub_one_eq_mod j 3
  rw [hkb, hjb, hk7, hj7]
  by_cases hb : k / 8 = j / 8
  · have hm := clear_mask_testBit ⟨k % 8, Nat.mod_lt _ (by omega)⟩
      ⟨j % 8, Nat.mod_lt _ (by omega)⟩
    simp only at hm
    have hdec : decide (j ≠ k) = decide ((⟨j % 8, Nat.mod_lt _ (by omega)⟩ : Fin 8)
        ≠ ⟨k % 8, Nat.mod_lt _ (by omega)⟩) := by
      rw [decide_eq_decide, Ne, Ne, Fin.mk.injEq, idx_split j k]
      constructor
      · intro h h2; exact h ⟨hb.symm, h2⟩
      · intro h h2; exact h h2.2
    by_cases hlen : k / 8 < bm.length
    · have hget : (bm.set (k / 8) (bm.getD (k / 8) 0 &&& (255 - (1 <<< (k % 8)) % 256))).getD
          (j / 8) 0 = bm.getD (k / 8) 0 &&& (255 - (1 <<< (k % 8)) % 256) := by
        rw [← hb]
        simp [hlen]
      rw [hget, Nat.testBit_and, hm, ← hb, hdec, Bool.and_comm]
    · have hz : ∀ v, (bm.set (k / 8) v).getD (j / 8) 0 = 0 := by
        intro v
        rw [← hb]
        simp [List.getElem?_set, hlen]
      have hz2 : bm.getD (j / 8) 0 = 0 := by
        rw [← hb]
        simp only [List.getD_eq_getElem?_getD]
        rw [List.getElem?_eq_none (by omega)]
        rfl
      rw [hz, hz2]
      simp
  · have hget : (bm.set (k / 8) (bm.getD (k / 8) 0 &&& (255 - (1 <<< (k % 8)) % 256))).getD
        (j / 8) 0 = bm.getD (j / 8) 0 := by
      simp [List.getElem?_set_ne hb]
    have hne : j ≠ k := fun h => hb (by rw [h])
    rw [hget]
    simp [hne]

/-- The wrapping difference of two 32-bit addresses `b ≤ a` is `a - b`. -/
theorem size_sub_of_le {a b : Nat} (hba : b ≤ a) (ha : a < SIZE_T_MOD) :
    size_sub a b = a - b := by
  unfold size_sub
  unfold SIZE_T_MOD at *
  omega

/-- A header address inside a backing region that lies within the address
space belongs to a slot of index below `block_count`. -/
theorem slot_index_lt (pool : memory_pool_t) (blk : Nat)
    (hlo : pool.pool_memory ≤ blk)
    (hhi : blk < pool.pool_memory + (pool.stride * pool.block_count) % SIZE_T_MOD)
    (hsp : pool.pool_memory + (pool.stride * pool.block_count) % SIZE_T_MOD ≤ SIZE_T_MOD) :
    size_sub blk pool.pool_memory / pool.stride < pool.block_count := by
  rw [size_sub_of_le hlo (by omega)]
  have hmod : (pool.stride * pool.block_count) % SIZE_T_MOD ≤ pool.stride * pool.block_count :=
    Nat.mod_le _ _
  have hpos : 0 < pool.stride := by
    rcases Nat.eq_zero_or_pos pool.stride with h | h
    · rw [h, Nat.zero_mul, Nat.zero_mod] at hhi; omega
    · exact h
  rw [Nat.div_lt_iff_lt_mul hpos, Nat.mul_comm]
  omega

/-! ## The three outcomes of an allocation and the successful free -/

/-- The whole result of `pool_malloc` when the lock is acquired and the head
slot is a valid free slot. -/
theorem pool_malloc_ok_eq (c : CallEnv) (pool : memory_pool_t) (mem : Mem)
    (hm : pool.mutex ≠ 0) (ht : c.took = true) (hf : pool.free_list ≠ 0)
    (hv : ValidFree mem pool pool.free_list) :
    pool_malloc c pool mem =
      { out := pool.free_list + HDR_SIZE, led := none,
        pool := { pool with
          free_list := (mem pool.free_list).next,
          allocated_blocks := pool.allocated_blocks + 1,
          peak_usage := if pool.allocated_blocks + 1 > pool.peak_usage
            then pool.allocated_blocks + 1 else pool.peak_usage,
          total_allocations := pool.total_allocations + 1,
          bitmap := if size_sub pool.free_list pool.pool_memory / pool.stride < pool.block_count
            then bitmap_set pool.bitmap (size_sub pool.free_list pool.pool_memory / pool.stride)
            else pool.bitmap,
          allocation_time_total := pool.allocation_time_total + (c.t1 - c.t0) },
        mem := mem.write pool.free_list { (mem pool.free_list) with
          magic := POOL_MAGIC_ALLOC, alloc_time := c.t_stamp, next := 0 } } := by
  obtain ⟨hv1, hv2⟩ := hv
  simp [pool_malloc, hm, ht, hf, hv1, hv2, memory_pool_t.stride]

/-- The whole result of `pool_malloc` when the lock is not acquired. -/
theorem pool_malloc_timeout_eq (c : CallEnv) (pool : memory_pool_t) (mem : Mem)
    (hm : pool.mutex ≠ 0) (ht : c.took = false) :
    pool_malloc c pool mem =
      { out := 0, led := none,
        pool := { pool with allocation_time_total :=
                              pool.allocation_time_total + (c.t1 - c.t0) },
        mem := mem } := by
  simp [pool_malloc, hm, ht]

/-- The whole result of a `pool_free` that passes every check. -/
theorem pool_free_ok_eq (c : CallEnv) (pool : memory_pool_t) (ptr : Nat) (mem : Mem)
    (h : (pool_free c pool ptr mem).ok = true) :
    pool_free c pool ptr mem =
      { ok := true, led := none,
        pool := { pool with
          bitmap := bitmap_clear pool.bitmap
            (size_sub (hdr_of_ptr ptr) pool.pool_memory / pool.stride),
          free_list := hdr_of_ptr ptr,
          allocated_blocks := if pool.allocated_blocks ≠ 0 then pool.allocated_blocks - 1
            else pool.allocated_blocks,
          total_deallocations := pool.total_deallocations + 1,
          deallocation_time_total := pool.deallocation_time_total + (c.t1 - c.t0) },
        mem := mem.write (hdr_of_ptr ptr) { (mem (hdr_of_ptr ptr)) with
          magic := POOL_MAGIC_FREE, next := pool.free_list } } := by
  obtain ⟨hp, hm, ht, h1, h2, h3, h4⟩ := (pool_free_ok_iff c pool ptr mem).1 h
  have hb : ¬ (hdr_of_ptr ptr < pool.pool_memory) := by omega
  have hb2 : ¬ (pool.pool_memory + (pool.stride * pool.block_count) % SIZE_T_MOD
      ≤ hdr_of_ptr ptr) := by omega
  simp [pool_free, hp, hm, ht, hb, hb2, h3, h4]

/-- C12 (initial state): after a successful `try_init_pool` with block count
`n` (slots of positive stride, region size within `size_t`), every counter
of the pool is 0, every bit of the bitmap is clear, and the free list holds
exactly the `n` slots at offsets `i * stride`, `i < n`, each once, each
tagged FREE with the pool's id. -/
theorem try_init_pool_initial_state (e : InitEnv) (cfg : pool_config_t) (pool_id n : Nat)
    (mem : Mem) (hok : (try_init_pool e cfg pool_id n mem).ok = true)
    (hs : 0 < stride_of cfg.block_size 4)
    (hfit : stride_of cfg.block_size 4 * n < SIZE_T_MOD) :
    (try_init_pool e cfg pool_id n mem).pool.allocated_blocks = 0 ∧
    (try_init_pool e cfg pool_id n mem).pool.peak_usage = 0 ∧
    (try_init_pool e cfg pool_id n mem).pool.total_allocations = 0 ∧
    (try_init_pool e cfg pool_id n mem).pool.total_deallocations = 0 ∧
    (try_init_pool e cfg pool_id n mem).pool.allocation_time_total = 0 ∧
    (try_init_pool e cfg pool_id n mem).pool.deallocation_time_total = 0 ∧
    (try_init_pool e cfg pool_id n mem).pool.allocation_failures = 0 ∧
    (try_init_pool e cfg pool_id n mem).pool.pool_id = pool_id ∧
    (try_init_pool e cfg pool_id n mem).pool.block_count = n ∧
    (∀ i, bitmap_bit (try_init_pool e cfg pool_id n mem).pool.bitmap i = false) ∧
    ∃ l : List Nat,
      IsFreeList (try_init_pool e cfg pool_id n mem).mem
        (try_init_pool e cfg pool_id n mem).pool.free_list l ∧
      l.Nodup ∧ l.length = n ∧
      (∀ a, a ∈ l ↔ ∃ i, i < n ∧
        a = (try_init_pool e cfg pool_id n mem).pool.pool_memory
          + i * stride_of cfg.block_size 4) ∧
      ∀ a ∈ l, ((try_init_pool e cfg pool_id n mem).mem a).magic = POOL_MAGIC_FREE ∧
        ((try_init_pool e cfg pool_id n mem).mem a).pool_id = pool_id := by
  obtain ⟨hl1, hl2, hl3⟩ := try_init_pool_free_list e cfg pool_id n mem hok hs hfit
  obtain ⟨-, -, hid, hcount, -, hfail, halloc, -, -⟩ := try_init_pool_ok e cfg pool_id n mem hok
  have hrest : (try_init_pool e cfg pool_id n mem).pool.peak_usage = 0 ∧
      (try_init_pool e cfg pool_id n mem).pool.total_allocations = 0 ∧
      (try_init_pool e cfg pool_id n mem).pool.total_deallocations = 0 ∧
      (try_init_pool e cfg pool_id n mem).pool.allocation_time_total = 0 ∧
      (try_init_pool e cfg pool_id n mem).pool.deallocation_time_total = 0 ∧
      (∀ i, bitmap_bit (try_init_pool e cfg pool_id n mem).pool.bitmap i = false) := by
    have h := hok
    unfold try_init_pool at h ⊢
    simp only at h ⊢
    split at h
    · simp at h
    · rename_i h1
      rw [if_neg h1]
      split at h
      · simp at h
      · rename_i h2
        rw [if_neg h2]
        split at h
        · simp at h
        · rename_i h3
          rw [if_neg h3]
          exact ⟨rfl, rfl, rfl, rfl, rfl, fun i => bitmap_bit_replicate _ i⟩
  obtain ⟨r1, r2, r3, r4, r5, r6⟩ := hrest
  refine ⟨halloc, r1, r2, r3, r4, r5, hfail, hid, hcount, r6, _, hl1, hl2,
    slots_desc_length _ _ _, ?_, ?_⟩
  · intro a
    rw [mem_slots_desc]
    constructor
    · rintro ⟨i, hi, rfl⟩
      exact ⟨i, hi, slot_addr_eq hfit (Nat.le_of_lt hi)⟩
    · rintro ⟨i, hi, rfl⟩
      exact ⟨i, hi, (slot_addr_eq hfit (Nat.le_of_lt hi)).symm⟩
  · intro a ha
    have := hl3 a ha
    unfold ValidFree at this
    rw [hid] at this
    exact this

/-- Instance of `try_init_pool_initial_state`: the pool of sixteen 64-byte
blocks of `app_main`. -/
theorem try_init_pool_initial_state_witness :
    small_boot.pool.allocated_blocks = 0 ∧
    (∀ i, bitmap_bit small_boot.pool.bitmap i = false) :=
  have h := try_init_pool_initial_state (roomy_env 0x10000) ((cfgs false).getD 0 default) 1
    SMALL_POOL_BLOCK_COUNT blank_mem (by decide) (by decide) (by decide)
  ⟨h.1, h.2.2.2.2.2.2.2.2.2.1⟩

/-- C17, as amended: when `pool_malloc` cannot acquire the pool's lock, it
returns null and leaves `allocation_failures` as it was; the pool after the
call is the pool before with `allocation_time_total` grown by the time the
call took, no LED is lit and memory is unchanged. -/
theorem pool_malloc_lock_timeout (c : CallEnv) (pool : memory_pool_t) (mem : Mem)
    (hm : pool.mutex ≠ 0) (ht : c.took = false) :
    (pool_malloc c pool mem).out = 0 ∧
    (pool_malloc c pool mem).pool.allocation_failures = pool.allocation_failures ∧
    (pool_malloc c pool mem).pool =
      { pool with allocation_time_total := pool.allocation_time_total + (c.t1 - c.t0) } ∧
    (pool_malloc c pool mem).led = none ∧
    (pool_malloc c pool mem).mem = mem := by
  rw [pool_malloc_timeout_eq c pool mem hm ht]
  exact ⟨rfl, rfl, rfl, rfl, rfl⟩

/-- Instance of `pool_malloc_lock_timeout` on the fresh 64-byte pool. -/
theorem pool_malloc_lock_timeout_witness :
    (pool_malloc late_call small_boot.pool small_boot.mem).out = 0 ∧
    (pool_malloc late_call small_boot.pool small_boot.mem).pool.allocation_failures
      = small_boot.pool.allocation_failures :=
  have h := pool_malloc_lock_timeout late_call small_boot.pool small_boot.mem (by decide) rfl
  ⟨h.1, h.2.1⟩

/-- C17 fails as stated: on the fresh 64-byte pool a `pool_malloc` whose lock
wait times out returns null and `allocation_failures` is still 0. -/
theorem lock_timeout_not_counted :
    small_boot.pool.mutex ≠ 0 ∧ late_call.took = false ∧
    (pool_malloc late_call small_boot.pool small_boot.mem).out = 0 ∧
    small_boot.pool.allocation_failures = 0 ∧
    (pool_malloc late_call small_boot.pool small_boot.mem).pool.allocation_failures = 0 := by
  decide

/-- C18 (exhausted allocate): when `pool_malloc` acquires the lock and the
free list is empty, it returns null, signals pool exhausted, increments
`allocation_failures` by exactly one, the counter being below the largest
value `2 ^ 32 - 1` of its type `uint32_t` so that the new value is again a
value of that type, and leaves `free_list`, the bitmap, `allocated_blocks`,
`peak_usage`, `total_allocations`, `total_deallocations` and memory
unchanged. -/
theorem pool_malloc_exhausted_outcome (c : CallEnv) (pool : memory_pool_t) (mem : Mem)
    (hm : pool.mutex ≠ 0) (ht : c.took = true) (hf : pool.free_list = 0)
    (hb : pool.allocation_failures + 1 < UINT32_MOD) :
    (pool_malloc c pool mem).out = 0 ∧
    (pool_malloc c pool mem).led = some LED_POOL_FULL ∧
    (pool_malloc c pool mem).pool.allocation_failures = pool.allocation_failures + 1 ∧
    (pool_malloc c pool mem).pool.allocation_failures < UINT32_MOD ∧
    (pool_malloc c pool mem).pool.free_list = pool.free_list ∧
    (pool_malloc c pool mem).pool.bitmap = pool.bitmap ∧
    (pool_malloc c pool mem).pool.allocated_blocks = pool.allocated_blocks ∧
    (pool_malloc c pool mem).pool.peak_usage = pool.peak_usage ∧
    (pool_malloc c pool mem).pool.total_allocations = pool.total_allocations ∧
    (pool_malloc c pool mem).pool.total_deallocations = pool.total_deallocations ∧
    (pool_malloc c pool mem).mem = mem := by
  rw [pool_malloc_exhausted c pool mem hm ht hf]
  exact ⟨rfl, rfl, rfl, hb, rfl, rfl, rfl, rfl, rfl, rfl, rfl⟩

/-- Instance of `pool_malloc_exhausted_outcome` on the one-block pool whose
slot is allocated. -/
theorem pool_malloc_exhausted_outcome_witness :
    (pool_malloc quick_call huge_full.pool huge_full.mem).out = 0 ∧
    (pool_malloc quick_call huge_full.pool huge_full.mem).pool.allocation_failures
      = huge_full.pool.allocation_failures + 1 :=
  have h := pool_malloc_exhausted_outcome quick_call huge_full.pool huge_full.mem
    (by decide) rfl (by decide) (by decide)
  ⟨h.1, h.2.2.1⟩

/-- C19 (successful allocate): when `pool_malloc` acquires the lock and the
head slot is valid (tag FREE, owner id the pool's), it returns the address
right after the slot's header; the new `free_list` is the slot's old next
link; the slot's tag becomes ALLOCATED, its next link null, its timestamp
the clock reading, and no other header changes; `allocated_blocks` and
`total_allocations` each grow by one and `peak_usage` becomes the maximum of
its old value and the new `allocated_blocks`; and, the head being a slot of
the backing region (which lies in the address space and has a bitmap byte
for every slot), the bit of that slot is set and no other bit changes. -/
theorem pool_malloc_success (c : CallEnv) (pool : memory_pool_t) (mem : Mem)
    (hm : pool.mutex ≠ 0) (ht : c.took = true) (hf : pool.free_list ≠ 0)
    (hv : ValidFree mem pool pool.free_list) :
    (pool_malloc c pool mem).out = pool.free_list + HDR_SIZE ∧
    (pool_malloc c pool mem).pool.free_list = (mem pool.free_list).next ∧
    ((pool_malloc c pool mem).mem pool.free_list).magic = POOL_MAGIC_ALLOC ∧
    ((pool_malloc c pool mem).mem pool.free_list).next = 0 ∧
    ((pool_malloc c pool mem).mem pool.free_list).alloc_time = c.t_stamp ∧
    ((pool_malloc c pool mem).mem pool.free_list).pool_id = pool.pool_id ∧
    (∀ x, x ≠ pool.free_list → (pool_malloc c pool mem).mem x = mem x) ∧
    (pool_malloc c pool mem).pool.allocated_blocks = pool.allocated_blocks + 1 ∧
    (pool_malloc c pool mem).pool.total_allocations = pool.total_allocations + 1 ∧
    (pool_malloc c pool mem).pool.peak_usage
      = max pool.peak_usage (pool.allocated_blocks + 1) ∧
    (pool_malloc c pool mem).pool.total_deallocations = pool.total_deallocations ∧
    (pool_malloc c pool mem).pool.allocation_failures = pool.allocation_failures ∧
    (pool_malloc c pool mem).pool.allocation_time_total
      = pool.allocation_time_total + (c.t1 - c.t0) ∧
    (pool.pool_memory ≤ pool.free_list →
      pool.free_list < pool.pool_memory + (pool.stride * pool.block_count) % SIZE_T_MOD →
      pool.pool_memory + (pool.stride * pool.block_count) % SIZE_T_MOD ≤ SIZE_T_MOD →
      pool.block_count ≤ 8 * pool.bitmap.length →
      bitmap_bit (pool_malloc c pool mem).pool.bitmap
        ((pool.free_list - pool.pool_memory) / pool.stride) = true ∧
      ∀ j, j ≠ (pool.free_list - pool.pool_memory) / pool.stride →
        bitmap_bit (pool_malloc c pool mem).pool.bitmap j = bitmap_bit pool.bitmap j) := by
  rw [pool_malloc_ok_eq c pool mem hm ht hf hv]
  refine ⟨rfl, rfl, ?_, ?_, ?_, ?_, ?_, rfl, rfl, ?_, rfl, rfl, rfl, ?_⟩
  · simp only []; rw [Mem.write_same]
  · simp only []; rw [Mem.write_same]
  · simp only []; rw [Mem.write_same]
  · simp only []; rw [Mem.write_same]; exact hv.2
  · intro x hx
    exact Mem.write_other _ _ _ _ hx
  · simp only []
    split
    · rename_i h; rw [Nat.max_eq_right (by omega)]
    · rename_i h; rw [Nat.max_eq_left (by omega)]
  · intro hlo hhi hsp hbm
    have hidx := slot_index_lt pool pool.free_list hlo hhi hsp
    have hsub : size_sub pool.free_list pool.pool_memory = pool.free_list - pool.pool_memory :=
      size_sub_of_le hlo (by omega)
    simp only []
    rw [if_pos hidx, hsub]
    rw [hsub] at hidx
    have hbyte : (pool.free_list - pool.pool_memory) / pool.stride / 8 < pool.bitmap.length := by
      omega
    constructor
    · rw [bitmap_bit_set _ _ _ hbyte]; simp
    · intro j hj
      rw [bitmap_bit_set _ _ _ hbyte]; simp [hj]

/-- Instance of `pool_malloc_success` on the fresh 64-byte pool: slot 15 is
handed out and bit 15 is set. -/
theorem pool_malloc_success_witness :
    (pool_malloc quick_call small_boot.pool small_boot.mem).out
      = small_boot.pool.free_list + HDR_SIZE ∧
    bitmap_bit (pool_malloc quick_call small_boot.pool small_boot.mem).pool.bitmap
      ((small_boot.pool.free_list - small_boot.pool.pool_memory) / small_boot.pool.stride)
      = true :=
  have h := pool_malloc_success quick_call small_boot.pool small_boot.mem
    (by decide) rfl (by decide) (by decide)
  ⟨h.1, (h.2.2.2.2.2.2.2.2.2.2.2.2.2 (by decide) (by decide) (by decide) (by decide)).1⟩

/-- C20, as amended: when `pool_free` acquires the lock for a non-null
pointer and the header at pointer minus header size lies in the backing
region with tag ALLOCATED and the pool's id, it returns true; the tag becomes
FREE, the slot becomes the head of `free_list` with its next link equal to
the old head, and no other header changes; `allocated_blocks` drops by one
when it is non-zero and stays zero otherwise; `total_deallocations` grows by
one; `total_allocations`, `peak_usage` and `allocation_failures` are
unchanged; and, the region lying in the address space, the bit of the slot
that holds the header is cleared and no other bit changes. -/
theorem pool_free_success (c : CallEnv) (pool : memory_pool_t) (ptr : Nat) (mem : Mem)
    (hp : ptr ≠ 0) (hm : pool.mutex ≠ 0) (ht : c.took = true)
    (hlo : pool.pool_memory ≤ hdr_of_ptr ptr)
    (hhi : hdr_of_ptr ptr < pool.pool_memory + (pool.stride * pool.block_count) % SIZE_T_MOD)
    (hmg : (mem (hdr_of_ptr ptr)).magic = POOL_MAGIC_ALLOC)
    (hid : (mem (hdr_of_ptr ptr)).pool_id = pool.pool_id) :
    (pool_free c pool ptr mem).ok = true ∧
    (pool_free c pool ptr mem).pool.free_list = hdr_of_ptr ptr ∧
    ((pool_free c pool ptr mem).mem (hdr_of_ptr ptr)).magic = POOL_MAGIC_FREE ∧
    ((pool_free c pool ptr mem).mem (hdr_of_ptr ptr)).next = pool.free_list ∧
    ((pool_free c pool ptr mem).mem (hdr_of_ptr ptr)).pool_id = pool.pool_id ∧
    (∀ x, x ≠ hdr_of_ptr ptr → (pool_free c pool ptr mem).mem x = mem x) ∧
    (pool.allocated_blocks ≠ 0 →
      (pool_free c pool ptr mem).pool.allocated_blocks + 1 = pool.allocated_blocks) ∧
    (pool.allocated_blocks = 0 → (pool_free c pool ptr mem).pool.allocated_blocks = 0) ∧
    (pool_free c pool ptr mem).pool.total_deallocations = pool.total_deallocations + 1 ∧
    (pool_free c pool ptr mem).pool.total_allocations = pool.total_allocations ∧
    (pool_free c pool ptr mem).pool.peak_usage = pool.peak_usage ∧
    (pool_free c pool ptr mem).pool.allocation_failures = pool.allocation_failures ∧
    (pool.pool_memory + (pool.stride * pool.block_count) % SIZE_T_MOD ≤ SIZE_T_MOD →
      (hdr_of_ptr ptr - pool.pool_memory) / pool.stride < pool.block_count ∧
      bitmap_bit (pool_free c pool ptr mem).pool.bitmap
        ((hdr_of_ptr ptr - pool.pool_memory) / pool.stride) = false ∧
      ∀ j, j ≠ (hdr_of_ptr ptr - pool.pool_memory) / pool.stride →
        bitmap_bit (pool_free c pool ptr mem).pool.bitmap j = bitmap_bit pool.bitmap j) := by
  have hok : (pool_free c pool ptr mem).ok = true :=
    (pool_free_ok_iff c pool ptr mem).2 ⟨hp, hm, ht, hlo, hhi, hmg, hid⟩
  rw [pool_free_ok_eq c pool ptr mem hok]
  refine ⟨rfl, rfl, ?_, ?_, ?_, ?_, ?_, ?_, rfl, rfl, rfl, rfl, ?_⟩
  · simp only []; rw [Mem.write_same]
  · simp only []; rw [Mem.write_same]
  · simp only []; rw [Mem.write_same]; exact hid
  · intro x hx
    exact Mem.write_other _ _ _ _ hx
  · intro h
    simp only []
    rw [if_pos h]; omega
  · intro h
    simp only []
    rw [if_neg (by simpa using h)]; exact h
  · intro hsp
    have hidx := slot_index_lt pool (hdr_of_ptr ptr) hlo hhi hsp
    have hsub : size_sub (hdr_of_ptr ptr) pool.pool_memory
        = hdr_of_ptr ptr - pool.pool_memory := size_sub_of_le hlo (by omega)
    rw [hsub] at hidx
    simp only []
    rw [hsub]
    refine ⟨hidx, ?_, ?_⟩
    · rw [bitmap_bit_clear]; simp
    · intro j hj
      rw [bitmap_bit_clear]; simp [hj]

/-- Instance of `pool_free_success`: the slot allocated from the one-block
pool is freed. -/
theorem pool_free_success_witness :
    (pool_free quick_call huge_full.pool huge_full.out huge_full.mem).ok = true ∧
    (pool_free quick_call huge_full.pool huge_full.out huge_full.mem).pool.allocated_blocks + 1
      = huge_full.pool.allocated_blocks ∧
    bitmap_bit (pool_free quick_call huge_full.pool huge_full.out huge_full.mem).pool.bitmap
      ((hdr_of_ptr huge_full.out - huge_full.pool.pool_memory) / huge_full.pool.stride)
      = false :=
  have h := pool_free_success quick_call huge_full.pool huge_full.out huge_full.mem
    (by decide) (by decide) rfl (by decide) (by decide) (by decide) (by decide)
  ⟨h.1, h.2.2.2.2.2.2.1 (by decide), (h.2.2.2.2.2.2.2.2.2.2.2.2 (by decide)).2.1⟩

/-- C20 fails as stated: the caller of the one-block pool writes bytes into
its payload that read as an ALLOCATED header of the pool and frees the slot,
so that `allocated_blocks` is 0; a `pool_free` of the pointer 24 bytes past
the payload start then finds a header inside the backing region with tag
ALLOCATED and the pool's id, returns true, and `allocated_blocks` is still 0
instead of one less. -/
theorem pool_free_keeps_zero_count :
    forged_freed.ok = true ∧
    forged_freed.pool.allocated_blocks = 0 ∧
    forged_freed.pool.pool_memory ≤ hdr_of_ptr (huge_full.out + HDR_SIZE) ∧
    hdr_of_ptr (huge_full.out + HDR_SIZE) < forged_freed.pool.pool_memory
      + (forged_freed.pool.stride * forged_freed.pool.block_count) % SIZE_T_MOD ∧
    (forged_freed.mem (hdr_of_ptr (huge_full.out + HDR_SIZE))).magic = POOL_MAGIC_ALLOC ∧
    (forged_freed.mem (hdr_of_ptr (huge_full.out + HDR_SIZE))).pool_id
      = forged_freed.pool.pool_id ∧
    (pool_free quick_call forged_freed.pool (huge_full.out + HDR_SIZE) forged_freed.mem).ok
      = true ∧
    (pool_free quick_call forged_freed.pool (huge_full.out + HDR_SIZE)
      forged_freed.mem).pool.allocated_blocks = 0 ∧
    (pool_free quick_call forged_freed.pool (huge_full.out + HDR_SIZE)
      forged_freed.mem).pool.total_deallocations = 2 := by
  decide

/-! ## The router loop -/

/-- A `pool_malloc` that returns null leaves memory as it is. -/
theorem pool_malloc_fail_mem (c : CallEnv) (pool : memory_pool_t) (mem : Mem)
    (h : (pool_malloc c pool mem).out = 0) : (pool_malloc c pool mem).mem = mem := by
  by_cases hm : pool.mutex = 0
  · simp [pool_malloc, hm]
  · by_cases ht : c.took = true
    · by_cases hf : pool.free_list = 0
      · rw [pool_malloc_exhausted c pool mem hm ht hf]
      · by_cases hv : ValidFree mem pool pool.free_list
        · rw [(pool_malloc_ok c pool mem hm ht hf hv).1] at h
          simp [HDR_SIZE] at h
        · have hbad : (mem pool.free_list).magic ≠ POOL_MAGIC_FREE ∨
              (mem pool.free_list).pool_id ≠ pool.pool_id := by
            unfold ValidFree at hv
            by_cases h1 : (mem pool.free_list).magic = POOL_MAGIC_FREE
            · exact Or.inr (fun h2 => hv ⟨h1, h2⟩)
            · exact Or.inl h1
          rw [pool_malloc_corrupt_eq c pool mem hm ht hf hbad]
    · rw [pool_malloc_timeout_eq c pool mem hm (by simpa using ht)]

/-- On a pool without a mutex `pool_malloc` does nothing. -/
theorem pool_malloc_no_mutex (c : CallEnv) (pool : memory_pool_t) (mem : Mem)
    (hm : pool.mutex = 0) :
    pool_malloc c pool mem = { out := 0, led := none, pool := pool, mem := mem } := by
  simp [pool_malloc, hm]

/-- On a pool without a mutex `pool_free` does nothing. -/
theorem pool_free_no_mutex (c : CallEnv) (pool : memory_pool_t) (ptr : Nat) (mem : Mem)
    (hm : pool.mutex = 0) :
    pool_free c pool ptr mem = { ok := false, led := none, pool := pool, mem := mem } := by
  simp [pool_free, hm]

theorem getD_set_pool_ne (pools : List memory_pool_t) (i j : Nat) (x : memory_pool_t)
    (h : i ≠ j) : (pools.set i x).getD j zero_pool = pools.getD j zero_pool := by
  simp [List.getElem?_set_ne h]

/-- After `pools[i] = (result of pool_malloc on pools[i])`, entry `i` reads as
that result, also for an index outside the list, where both are the zero
pool. -/
theorem getD_set_pool_malloc (c : CallEnv) (pools : List memory_pool_t) (i : Nat) (mem : Mem) :
    (pools.set i (pool_malloc c (pools.getD i zero_pool) mem).pool).getD i zero_pool
      = (pool_malloc c (pools.getD i zero_pool) mem).pool := by
  by_cases hi : i < pools.length
  · simp [hi]
  · have hz : pools.getD i zero_pool = zero_pool := by
      simp only [List.getD_eq_getElem?_getD]
      rw [List.getElem?_eq_none (by omega)]
      rfl
    have hz2 : (pools.set i (pool_malloc c (pools.getD i zero_pool) mem).pool).getD i zero_pool
        = zero_pool := by
      simp only [List.getD_eq_getElem?_getD]
      rw [List.getElem?_eq_none (by simp; omega)]
      rfl
    rw [hz2, hz, pool_malloc_no_mutex c zero_pool mem rfl]

theorem fitting_succ (need : Nat) (pools : List memory_pool_t) (i0 n : Nat) :
    fitting need pools i0 (n + 1) =
      if need ≤ (pools.getD i0 zero_pool).block_size
      then i0 :: fitting need pools (i0 + 1) n else fitting need pools (i0 + 1) n := by
  unfold fitting
  rw [List.range'_succ, List.filter_cons]
  by_cases h : need ≤ (pools.getD i0 zero_pool).block_size <;> simp [h]

theorem mem_fitting {need : Nat} {pools : List memory_pool_t} {i0 n i : Nat} :
    i ∈ fitting need pools i0 n ↔
      i0 ≤ i ∧ i < i0 + n ∧ need ≤ (pools.getD i zero_pool).block_size := by
  unfold fitting
  simp only [List.mem_filter, List.mem_range'_1, decide_eq_true_eq]
  tauto

theorem fitting_congr (need : Nat) (pools pools2 : List memory_pool_t) (i0 n : Nat)
    (h : ∀ i, i0 ≤ i → pools2.getD i zero_pool = pools.getD i zero_pool) :
    fitting need pools2 i0 n = fitting need pools i0 n := by
  unfold fitting
  apply List.filter_congr
  intro i hi
  rw [h i (List.mem_range'_1.1 hi).1]

theorem takeWhile_congr_mem {p q : Nat → Bool} : ∀ {l : List Nat},
    (∀ x ∈ l, p x = q x) → l.takeWhile p = l.takeWhile q
  | [], _ => rfl
  | a :: l, h => by
    rw [List.takeWhile_cons, List.takeWhile_cons, h a (List.mem_cons_self a l),
      takeWhile_congr_mem (fun x hx => h x (List.mem_cons_of_mem a hx))]

theorem dropWhile_congr_mem {p q : Nat → Bool} : ∀ {l : List Nat},
    (∀ x ∈ l, p x = q x) → l.dropWhile p = l.dropWhile q
  | [], _ => rfl
  | a :: l, h => by
    rw [List.dropWhile_cons, List.dropWhile_cons, h a (List.mem_cons_self a l),
      dropWhile_congr_mem (fun x hx => h x (List.mem_cons_of_mem a hx))]

theorem first_served_mem {e : SmartEnv} {need : Nat} {pools : List memory_pool_t} {mem : Mem}
    {i0 n w : Nat} (h : first_served e need pools mem i0 n = some w) :
    w ∈ fitting need pools i0 n ∧ serves e pools mem w = true := by
  unfold first_served at h
  obtain ⟨ys, hys⟩ := List.head?_eq_some_iff.1 h
  have hmem : w ∈ (fitting need pools i0 n).dropWhile (fun i => !serves e pools mem i) := by
    rw [hys]; exact List.mem_cons_self _ _
  refine ⟨(List.dropWhile_sublist _).subset hmem, ?_⟩
  have := List.head?_dropWhile_not (fun i => !serves e pools mem i) (fitting need pools i0 n)
  rw [h] at this
  simpa using this

/-- The router loop from index `i0` with `n` pools left: it calls
`pool_malloc` on the fitting pools in order up to and including the first
that serves the request; it returns that pool's slot, or the external heap's
answer when no fitting pool serves; a pool that was called is left in the
state its own `pool_malloc` produced, every other pool is untouched. -/
theorem smart_malloc_loop_spec (e : SmartEnv) (size need : Nat) :
    ∀ (n i0 : Nat) (pools : List memory_pool_t) (mem : Mem),
      (smart_malloc_loop e size need n i0 pools mem).called =
        (fitting need pools i0 n).takeWhile (fun i => !serves e pools mem i) ++
          (first_served e need pools mem i0 n).toList ∧
      (first_served e need pools mem i0 n = none →
        (smart_malloc_loop e size need n i0 pools mem).heap = some size ∧
        (smart_malloc_loop e size need n i0 pools mem).out
          = e.heap_caps_malloc size MALLOC_CAP_DEFAULT ∧
        (smart_malloc_loop e size need n i0 pools mem).mem = mem) ∧
      (∀ w, first_served e need pools mem i0 n = some w →
        (smart_malloc_loop e size need n i0 pools mem).heap = none ∧
        (smart_malloc_loop e size need n i0 pools mem).out
          = (pool_malloc (e.call w) (pools.getD w zero_pool) mem).out ∧
        (smart_malloc_loop e size need n i0 pools mem).mem
          = (pool_malloc (e.call w) (pools.getD w zero_pool) mem).mem) ∧
      (∀ j, j ∈ (smart_malloc_loop e size need n i0 pools mem).called →
        j ∈ fitting need pools i0 n) ∧
      (∀ j, (smart_malloc_loop e size need n i0 pools mem).pools.getD j zero_pool =
        if j ∈ (smart_malloc_loop e size need n i0 pools mem).called
        then (pool_malloc (e.call j) (pools.getD j zero_pool) mem).pool
        else pools.getD j zero_pool) := by
  intro n
  induction n with
  | zero =>
    intro i0 pools mem
    simp [smart_malloc_loop, fitting, first_served]
  | succ n ih =>
    intro i0 pools mem
    by_cases hfit : need ≤ (pools.getD i0 zero_pool).block_size
    · have hF : fitting need pools i0 (n + 1) = i0 :: fitting need pools (i0 + 1) n := by
        rw [fitting_succ, if_pos hfit]
      by_cases hsv : serves e pools mem i0 = true
      · have hout : (pool_malloc (e.call i0) (pools.getD i0 zero_pool) mem).out ≠ 0 := by
          simpa [serves] using hsv
        have hloop : smart_malloc_loop e size need (n + 1) i0 pools mem =
            { out := (pool_malloc (e.call i0) (pools.getD i0 zero_pool) mem).out,
              pools := pools.set i0 (pool_malloc (e.call i0) (pools.getD i0 zero_pool) mem).pool,
              mem := (pool_malloc (e.call i0) (pools.getD i0 zero_pool) mem).mem,
              called := [i0], heap := none } := by
          simp only [smart_malloc_loop]
          rw [if_pos hfit, if_pos hout]
        have hW : first_served e need pools mem i0 (n + 1) = some i0 := by
          unfold first_served
          rw [hF, List.dropWhile_cons]
          simp [hsv]
        have hT : (fitting need pools i0 (n + 1)).takeWhile (fun i => !serves e pools mem i)
            = [] := by
          rw [hF, List.takeWhile_cons]
          simp [hsv]
        rw [hloop, hW, hT]
        refine ⟨rfl, fun h => by simp at h, ?_, ?_, ?_⟩
        · intro w hw
          have : i0 = w := by simpa using hw
          subst this
          exact ⟨rfl, rfl, rfl⟩
        · intro j hj
          have : j = i0 := by simpa using hj
          rw [this, hF]
          exact List.mem_cons_self _ _
        · intro j
          by_cases hj : j = i0
          · subst hj
            simp only [List.mem_singleton, if_true]
            exact getD_set_pool_malloc _ _ _ _
          · simp only [List.mem_singleton, hj, if_false]
            exact getD_set_pool_ne _ _ _ _ (fun h => hj h.symm)
      · have hsv' : serves e pools mem i0 = false := by simpa using hsv
        have hout : (pool_malloc (e.call i0) (pools.getD i0 zero_pool) mem).out = 0 := by
          simpa [serves] using hsv'
        have hmem := pool_malloc_fail_mem _ _ _ hout
        have hloop : smart_malloc_loop e size need (n + 1) i0 pools mem =
            { smart_malloc_loop e size need n (i0 + 1)
                (pools.set i0 (pool_malloc (e.call i0) (pools.getD i0 zero_pool) mem).pool) mem
              with called := i0 :: (smart_malloc_loop e size need n (i0 + 1)
                (pools.set i0 (pool_malloc (e.call i0) (pools.getD i0 zero_pool) mem).pool)
                mem).called } := by
          simp only [smart_malloc_loop]
          rw [if_pos hfit, if_neg (by rw [hout]; simp), hmem]
        have hget : ∀ i, i0 + 1 ≤ i →
            (pools.set i0 (pool_malloc (e.call i0) (pools.getD i0 zero_pool) mem).pool).getD i
              zero_pool = pools.getD i zero_pool :=
          fun i hi => getD_set_pool_ne _ _ _ _ (by omega)
        have hF2 := fitting_congr need pools
          (pools.set i0 (pool_malloc (e.call i0) (pools.getD i0 zero_pool) mem).pool)
          (i0 + 1) n hget
        have hsvc : ∀ x ∈ fitting need pools (i0 + 1) n,
            (fun i => !serves e (pools.set i0
              (pool_malloc (e.call i0) (pools.getD i0 zero_pool) mem).pool) mem i) x
            = (fun i => !serves e pools mem i) x := by
          intro x hx
          simp only [serves]
          rw [hget x (mem_fitting.1 hx).1]
        have hW2 : first_served e need
            (pools.set i0 (pool_malloc (e.call i0) (pools.getD i0 zero_pool) mem).pool) mem
            (i0 + 1) n = first_served e need pools mem (i0 + 1) n := by
          unfold first_served
          rw [hF2, dropWhile_congr_mem hsvc]
        have hW : first_served e need pools mem i0 (n + 1)
            = first_served e need pools mem (i0 + 1) n := by
          unfold first_served
          rw [hF, List.dropWhile_cons]
          simp [hsv']
        have hT : (fitting need pools i0 (n + 1)).takeWhile (fun i => !serves e pools mem i)
            = i0 :: (fitting need pools (i0 + 1) n).takeWhile
                (fun i => !serves e pools mem i) := by
          rw [hF, List.takeWhile_cons]
          simp [hsv']
        obtain ⟨c1, c2, c3, c4, c5⟩ := ih (i0 + 1)
          (pools.set i0 (pool_malloc (e.call i0) (pools.getD i0 zero_pool) mem).pool) mem
        rw [hF2, takeWhile_congr_mem hsvc, hW2] at c1
        rw [hW2] at c2 c3
        rw [hF2] at c4
        rw [hloop, hW, hT]
        refine ⟨by simp only []; rw [c1]; rfl, c2, ?_, ?_, ?_⟩
        · intro w hw
          obtain ⟨d1, d2, d3⟩ := c3 w hw
          have hwge := (mem_fitting.1 (first_served_mem hw).1).1
          rw [hget w hwge] at d2 d3
          exact ⟨d1, d2, d3⟩
        · intro j hj
          rw [hF]
          rcases List.mem_cons.1 hj with h | h
          · rw [h]; exact List.mem_cons_self _ _
          · exact List.mem_cons_of_mem _ (c4 j h)
        · intro j
          have c5j := c5 j
          simp only [] at c5j ⊢
          by_cases hj : j = i0
          · subst hj
            have hnot : j ∉ (smart_malloc_loop e size need n (j + 1)
                (pools.set j (pool_malloc (e.call j) (pools.getD j zero_pool) mem).pool)
                mem).called := by
              intro hin
              have := (mem_fitting.1 (c4 j hin)).1
              omega
            rw [c5j, if_neg hnot, if_pos (List.mem_cons_self _ _)]
            exact getD_set_pool_malloc _ _ _ _
          · rw [c5j, getD_set_pool_ne _ _ _ _ (fun h => hj h.symm)]
            by_cases hin : j ∈ (smart_malloc_loop e size need n (i0 + 1)
                (pools.set i0 (pool_malloc (e.call i0) (pools.getD i0 zero_pool) mem).pool)
                mem).called
            · rw [if_pos hin, if_pos (List.mem_cons_of_mem _ hin)]
            · rw [if_neg hin, if_neg (by
                intro h
                rcases List.mem_cons.1 h with h | h
                · exact hj h
                · exact hin h)]
    · have hF : fitting need pools i0 (n + 1) = fitting need pools (i0 + 1) n := by
        rw [fitting_succ, if_neg hfit]
      have hloop : smart_malloc_loop e size need (n + 1) i0 pools mem =
          smart_malloc_loop e size need n (i0 + 1) pools mem := by
        simp only [smart_malloc_loop]
        rw [if_neg hfit]
      have hW : first_served e need pools mem i0 (n + 1)
          = first_served e need pools mem (i0 + 1) n := by
        unfold first_served
        rw [hF]
      rw [hloop, hW, hF]
      exact ih (i0 + 1) pools mem

/-- The router on the registry: `smart_malloc_loop_spec` for the whole loop. -/
theorem smart_pool_malloc_spec (e : SmartEnv) (size : Nat) (pools : List memory_pool_t)
    (mem : Mem) :
    (smart_pool_malloc e size pools mem).called =
      (fitting ((size + 16) % SIZE_T_MOD) pools 0 POOL_COUNT).takeWhile
          (fun i => !serves e pools mem i) ++
        (first_served e ((size + 16) % SIZE_T_MOD) pools mem 0 POOL_COUNT).toList ∧
    (first_served e ((size + 16) % SIZE_T_MOD) pools mem 0 POOL_COUNT = none →
      (smart_pool_malloc e size pools mem).heap = some size ∧
      (smart_pool_malloc e size pools mem).out = e.heap_caps_malloc size MALLOC_CAP_DEFAULT ∧
      (smart_pool_malloc e size pools mem).mem = mem) ∧
    (∀ w, first_served e ((size + 16) % SIZE_T_MOD) pools mem 0 POOL_COUNT = some w →
      (smart_pool_malloc e size pools mem).heap = none ∧
      (smart_pool_malloc e size pools mem).out
        = (pool_malloc (e.call w) (pools.getD w zero_pool) mem).out ∧
      (smart_pool_malloc e size pools mem).mem
        = (pool_malloc (e.call w) (pools.getD w zero_pool) mem).mem) ∧
    (∀ j, j ∈ (smart_pool_malloc e size pools mem).called →
      j ∈ fitting ((size + 16) % SIZE_T_MOD) pools 0 POOL_COUNT) ∧
    (∀ j, (smart_pool_malloc e size pools mem).pools.getD j zero_pool =
      if j ∈ (smart_pool_malloc e size pools mem).called
      then (pool_malloc (e.call j) (pools.getD j zero_pool) mem).pool
      else pools.getD j zero_pool) :=
  smart_malloc_loop_spec e size ((size + 16) % SIZE_T_MOD) POOL_COUNT 0 pools mem

/-- When none of the pools left fits, the loop calls no pool and the external
heap answers. -/
theorem smart_malloc_loop_no_fit (e : SmartEnv) (size need : Nat) :
    ∀ (n i0 : Nat) (pools : List memory_pool_t) (mem : Mem),
      (∀ i, i0 ≤ i → i < i0 + n → ¬ need ≤ (pools.getD i zero_pool).block_size) →
      smart_malloc_loop e size need n i0 pools mem =
        { out := e.heap_caps_malloc size MALLOC_CAP_DEFAULT, pools := pools, mem := mem,
          called := [], heap := some size }
  | 0, _, _, _, _ => rfl
  | n + 1, i0, pools, mem, h => by
    simp only [smart_malloc_loop]
    rw [if_neg (h i0 (Nat.le_refl _) (by omega))]
    exact smart_malloc_loop_no_fit e size need n (i0 + 1) pools mem
      (fun i h1 h2 => h i (by omega) (by omega))

theorem getD_pool_mem_or_zero (pools : List memory_pool_t) (i : Nat) :
    pools.getD i zero_pool ∈ pools ∨ pools.getD i zero_pool = zero_pool := by
  by_cases hi : i < pools.length
  · left
    rw [List.getD_eq_getElem _ _ hi]
    exact List.getElem_mem hi
  · right
    simp only [List.getD_eq_getElem?_getD]
    rw [List.getElem?_eq_none (by omega)]
    rfl

/-- C16 (no structural fit): when `size + 16` does not wrap and exceeds the
block size of every pool of the registry, `smart_pool_malloc` calls
`pool_malloc` on no pool, leaves the registry and memory unchanged, and
returns exactly what the external heap allocator answers for `size` bytes. -/
theorem smart_pool_malloc_no_structural_fit (e : SmartEnv) (size : Nat)
    (pools : List memory_pool_t) (mem : Mem) (hw : size + 16 < SIZE_T_MOD)
    (hbig : ∀ p ∈ pools, p.block_size < size + 16) :
    (smart_pool_malloc e size pools mem).called = [] ∧
    (smart_pool_malloc e size pools mem).pools = pools ∧
    (smart_pool_malloc e size pools mem).mem = mem ∧
    (smart_pool_malloc e size pools mem).heap = some size ∧
    (smart_pool_malloc e size pools mem).out = e.heap_caps_malloc size MALLOC_CAP_DEFAULT := by
  have hno : ∀ i, 0 ≤ i → i < 0 + POOL_COUNT →
      ¬ (size + 16) % SIZE_T_MOD ≤ (pools.getD i zero_pool).block_size := by
    intro i _ _
    rw [Nat.mod_eq_of_lt hw]
    rcases getD_pool_mem_or_zero pools i with h | h
    · have := hbig _ h; omega
    · rw [h]; simp [zero_pool]
  unfold smart_pool_malloc
  rw [smart_malloc_loop_no_fit e size _ POOL_COUNT 0 pools mem hno]
  exact ⟨rfl, rfl, rfl, rfl, rfl⟩

/-- Instance of `smart_pool_malloc_no_structural_fit`: 5000 bytes on the
pools of `booted`. -/
theorem smart_pool_malloc_no_structural_fit_witness :
    (smart_pool_malloc quick_env 5000 booted.1 booted.2).called = [] ∧
    (smart_pool_malloc quick_env 5000 booted.1 booted.2).pools = booted.1 ∧
    (smart_pool_malloc quick_env 5000 booted.1 booted.2).out
      = quick_env.heap_caps_malloc 5000 MALLOC_CAP_DEFAULT :=
  have h := smart_pool_malloc_no_structural_fit quick_env 5000 booted.1 booted.2
    (by decide) (by decide)
  ⟨h.1, h.2.1, h.2.2.2.2⟩

/-! ## Disabled pools -/

/-- A failed attempt leaves the pool record without region, bitmap and
mutex. -/
theorem try_init_pool_fail_fields (e : InitEnv) (cfg : pool_config_t) (pool_id n : Nat)
    (mem : Mem) (h : (try_init_pool e cfg pool_id n mem).ok = false) :
    (try_init_pool e cfg pool_id n mem).pool.pool_memory = 0 ∧
    (try_init_pool e cfg pool_id n mem).pool.usage_bitmap = 0 ∧
    (try_init_pool e cfg pool_id n mem).pool.mutex = 0 := by
  unfold try_init_pool at h ⊢
  simp only at h ⊢
  split
  · exact ⟨rfl, rfl, rfl⟩
  · rename_i h1
    rw [if_neg h1] at h
    split
    · exact ⟨rfl, rfl, rfl⟩
    · rename_i h2
      rw [if_neg h2] at h
      split
      · exact ⟨rfl, rfl, rfl⟩
      · rename_i h3
        rw [if_neg h3] at h
        simp at h

/-- When the retry loop gives up, the pool record has no region, no bitmap
and no mutex, provided the record it started from had none. -/
theorem init_loop_fail_fields (env : Nat → InitEnv) (cfg : pool_config_t) (pool_id : Nat) :
    ∀ (count k0 : Nat) (pool : memory_pool_t) (mem : Mem),
      pool.pool_memory = 0 ∧ pool.usage_bitmap = 0 ∧ pool.mutex = 0 →
      (init_loop env cfg pool_id count k0 pool mem).ok = false →
      (init_loop env cfg pool_id count k0 pool mem).pool.pool_memory = 0 ∧
      (init_loop env cfg pool_id count k0 pool mem).pool.usage_bitmap = 0 ∧
      (init_loop env cfg pool_id count k0 pool mem).pool.mutex = 0 := by
  intro count
  induction count using Nat.strong_induction_on with
  | _ count ih =>
    intro k0 pool mem hprior hr
    by_cases hc : 1 ≤ count
    · by_cases hok : (try_init_pool (env k0) cfg pool_id count mem).ok = true
      · rw [init_loop_ok env cfg pool_id count k0 pool mem hc hok] at hr
        simp at hr
      · have hfalse : (try_init_pool (env k0) cfg pool_id count mem).ok = false := by
          simpa using hok
        rw [init_loop_retry env cfg pool_id count k0 pool mem hc hfalse] at hr ⊢
        exact ih (count / 2) (by omega) (k0 + 1) _ _
          (try_init_pool_fail_fields (env k0) cfg pool_id count mem hfalse) hr
    · have h0 : count = 0 := by omega
      subst h0
      rw [init_loop_zero]
      exact hprior

theorem getLast?_append_toList_some (l : List Nat) (w : Nat) :
    (l ++ (some w).toList).getLast? = some w := by
  simp [Option.toList]

/-- C11 (disabled pool): when `init_memory_pool_safely`, started on a
registry entry that has no region, bitmap or mutex (the zeroed static entry),
returns false, the entry still has `pool_memory`, `usage_bitmap` and `mutex`
null; every `pool_malloc` on it returns null and every `pool_free` on it
returns false, neither changing the pool or memory; and `smart_pool_malloc`
on a registry holding that entry leaves the entry as it is and returns
either the external heap's answer or the slot of another pool. -/
theorem disabled_pool_inert (env : Nat → InitEnv) (cfg : pool_config_t) (pool_id : Nat)
    (pool : memory_pool_t) (mem : Mem)
    (hprior : pool.pool_memory = 0 ∧ pool.usage_bitmap = 0 ∧ pool.mutex = 0)
    (hfail : (init_memory_pool_safely env cfg pool_id pool mem).ok = false) :
    (init_memory_pool_safely env cfg pool_id pool mem).pool.pool_memory = 0 ∧
    (init_memory_pool_safely env cfg pool_id pool mem).pool.usage_bitmap = 0 ∧
    (init_memory_pool_safely env cfg pool_id pool mem).pool.mutex = 0 ∧
    (∀ (c : CallEnv) (m : Mem),
      pool_malloc c (init_memory_pool_safely env cfg pool_id pool mem).pool m =
        { out := 0, led := none,
          pool := (init_memory_pool_safely env cfg pool_id pool mem).pool, mem := m }) ∧
    (∀ (c : CallEnv) (ptr : Nat) (m : Mem),
      pool_free c (init_memory_pool_safely env cfg pool_id pool mem).pool ptr m =
        { ok := false, led := none,
          pool := (init_memory_pool_safely env cfg pool_id pool mem).pool, mem := m }) ∧
    (∀ (e : SmartEnv) (size : Nat) (pools : List memory_pool_t) (m : Mem) (d : Nat),
      pools.getD d zero_pool = (init_memory_pool_safely env cfg pool_id pool mem).pool →
      (smart_pool_malloc e size pools m).pools.getD d zero_pool
        = (init_memory_pool_safely env cfg pool_id pool mem).pool ∧
      ((smart_pool_malloc e size pools m).heap = some size ∨
        ∃ w, w ≠ d ∧ (smart_pool_malloc e size pools m).called.getLast? = some w ∧
          (smart_pool_malloc e size pools m).heap = none ∧
          (smart_pool_malloc e size pools m).out
            = (pool_malloc (e.call w) (pools.getD w zero_pool) m).out)) := by
  have hfields : (init_memory_pool_safely env cfg pool_id pool mem).pool.pool_memory = 0 ∧
      (init_memory_pool_safely env cfg pool_id pool mem).pool.usage_bitmap = 0 ∧
      (init_memory_pool_safely env cfg pool_id pool mem).pool.mutex = 0 :=
    init_loop_fail_fields env cfg pool_id cfg.block_count 0 pool mem hprior hfail
  obtain ⟨f1, f2, f3⟩ := hfields
  refine ⟨f1, f2, f3, fun c m => pool_malloc_no_mutex c _ m f3,
    fun c ptr m => pool_free_no_mutex c _ ptr m f3, ?_⟩
  intro e size pools m d hd
  obtain ⟨s1, s2, s3, -, s5⟩ := smart_pool_malloc_spec e size pools m
  constructor
  · rw [s5 d]
    split
    · rw [hd, pool_malloc_no_mutex _ _ _ f3]
    · exact hd
  · cases hW : first_served e ((size + 16) % SIZE_T_MOD) pools m 0 POOL_COUNT with
    | none => exact Or.inl (s2 hW).1
    | some w =>
      right
      obtain ⟨t1, t2, -⟩ := s3 w hW
      refine ⟨w, ?_, ?_, t1, t2⟩
      · intro hwd
        have hsv := (first_served_mem hW).2
        rw [hwd] at hsv
        simp only [serves, hd, pool_malloc_no_mutex _ _ _ f3] at hsv
        simp at hsv
      · rw [s1, hW]
        exact getLast?_append_toList_some _ w

/-- Instance of `disabled_pool_inert`: the pool of four 1024-byte blocks
when the allocator refuses everything. -/
theorem disabled_pool_inert_witness :
    (init_memory_pool_safely (fun _ => empty_env) ((cfgs false).getD 2 default) 3 zero_pool
      blank_mem).pool.pool_memory = 0 ∧
    (init_memory_pool_safely (fun _ => empty_env) ((cfgs false).getD 2 default) 3 zero_pool
      blank_mem).pool.usage_bitmap = 0 ∧
    (init_memory_pool_safely (fun _ => empty_env) ((cfgs false).getD 2 default) 3 zero_pool
      blank_mem).pool.mutex = 0 :=
  have hfail : (init_memory_pool_safely (fun _ => empty_env) ((cfgs false).getD 2 default) 3
      zero_pool blank_mem).ok = false := by
    rw [Bool.eq_false_iff]
    intro hok
    obtain ⟨k, -, -, -, a4, -⟩ := (init_loop_spec (fun _ => empty_env)
      ((cfgs false).getD 2 default) 3 ((cfgs false).getD 2 default).block_count 0 zero_pool
      blank_mem).2.2 hok
    exact ((try_init_pool_ok_iff _ _ _ _ _).1 (a4 blank_mem).1).1 rfl
  have h := disabled_pool_inert (fun _ => empty_env) ((cfgs false).getD 2 default) 3 zero_pool
    blank_mem (by decide) hfail
  ⟨h.1, h.2.1, h.2.2.1⟩

/-! ## Escalation to the next fitting pool -/

theorem dropWhile_skip_failed {p : Nat → Bool} : ∀ (pre : List Nat) (w : Nat) (post : List Nat),
    (∀ j ∈ pre, p j = true) → p w = false →
    (pre ++ w :: post).dropWhile p = w :: post
  | [], w, post, _, hw => by simp [List.dropWhile_cons, hw]
  | a :: pre, w, post, h, hw => by
    rw [List.cons_append, List.dropWhile_cons, h a (List.mem_cons_self a pre)]
    exact dropWhile_skip_failed pre w post (fun j hj => h j (List.mem_cons_of_mem a hj)) hw

theorem takeWhile_skip_failed {p : Nat → Bool} : ∀ (pre : List Nat) (w : Nat) (post : List Nat),
    (∀ j ∈ pre, p j = true) → p w = false →
    (pre ++ w :: post).takeWhile p = pre
  | [], w, post, _, hw => by simp [List.takeWhile_cons, hw]
  | a :: pre, w, post, h, hw => by
    rw [List.cons_append, List.takeWhile_cons, h a (List.mem_cons_self a pre)]
    simp only [if_true]
    rw [takeWhile_skip_failed pre w post (fun j hj => h j (List.mem_cons_of_mem a hj)) hw]

theorem takeWhile_all {p : Nat → Bool} : ∀ (l : List Nat), (∀ j ∈ l, p j = true) →
    l.takeWhile p = l
  | [], _ => rfl
  | a :: l, h => by
    rw [List.takeWhile_cons, h a (List.mem_cons_self a l)]
    simp only [if_true]
    rw [takeWhile_all l (fun j hj => h j (List.mem_cons_of_mem a hj))]

/-- A pool whose lock times out or whose free list is empty does not serve. -/
theorem serves_false_of_timeout_or_empty (e : SmartEnv) (pools : List memory_pool_t) (mem : Mem)
    (i : Nat) (h : (e.call i).took = false ∨ (pools.getD i zero_pool).free_list = 0) :
    serves e pools mem i = false := by
  unfold serves
  rw [decide_eq_false_iff_not, not_not]
  by_contra hne
  obtain ⟨-, ht, hf, -⟩ := (pool_malloc_out_ne_zero_iff _ _ _).1 hne
  rcases h with h | h
  · rw [h] at ht; exact absurd ht (by decide)
  · exact hf h

/-- The request is served by the fitting pool `w` when every fitting pool
before it fails and `w` serves. -/
theorem smart_pool_malloc_served_by (e : SmartEnv) (size : Nat) (pools : List memory_pool_t)
    (mem : Mem) (pre : List Nat) (w : Nat) (post : List Nat)
    (hF : fitting ((size + 16) % SIZE_T_MOD) pools 0 POOL_COUNT = pre ++ w :: post)
    (hpre : ∀ j ∈ pre, serves e pools mem j = false) (hw : serves e pools mem w = true) :
    (smart_pool_malloc e size pools mem).called = pre ++ [w] ∧
    (smart_pool_malloc e size pools mem).heap = none ∧
    (smart_pool_malloc e size pools mem).out
      = (pool_malloc (e.call w) (pools.getD w zero_pool) mem).out ∧
    (smart_pool_malloc e size pools mem).out ≠ 0 ∧
    (smart_pool_malloc e size pools mem).mem
      = (pool_malloc (e.call w) (pools.getD w zero_pool) mem).mem := by
  obtain ⟨s1, -, s3, -, -⟩ := smart_pool_malloc_spec e size pools mem
  have hp1 : ∀ j ∈ pre, (fun i => !serves e pools mem i) j = true := by
    intro j hj; simp [hpre j hj]
  have hp2 : (fun i => !serves e pools mem i) w = false := by simp [hw]
  have hW : first_served e ((size + 16) % SIZE_T_MOD) pools mem 0 POOL_COUNT = some w := by
    unfold first_served
    rw [hF, dropWhile_skip_failed pre w post hp1 hp2]
    rfl
  obtain ⟨t1, t2, t3⟩ := s3 w hW
  refine ⟨?_, t1, t2, ?_, t3⟩
  · rw [s1, hW, hF, takeWhile_skip_failed pre w post hp1 hp2]
    rfl
  · rw [t2]
    simpa [serves] using hw

/-- The request goes to the external heap when every fitting pool fails, and
every fitting pool has then been called. -/
theorem smart_pool_malloc_all_fail (e : SmartEnv) (size : Nat) (pools : List memory_pool_t)
    (mem : Mem)
    (hall : ∀ j ∈ fitting ((size + 16) % SIZE_T_MOD) pools 0 POOL_COUNT,
      serves e pools mem j = false) :
    (smart_pool_malloc e size pools mem).called
      = fitting ((size + 16) % SIZE_T_MOD) pools 0 POOL_COUNT ∧
    (smart_pool_malloc e size pools mem).heap = some size ∧
    (smart_pool_malloc e size pools mem).out = e.heap_caps_malloc size MALLOC_CAP_DEFAULT ∧
    (smart_pool_malloc e size pools mem).mem = mem := by
  obtain ⟨s1, s2, -, -, -⟩ := smart_pool_malloc_spec e size pools mem
  have hp : ∀ j ∈ fitting ((size + 16) % SIZE_T_MOD) pools 0 POOL_COUNT,
      (fun i => !serves e pools mem i) j = true := by
    intro j hj; simp [hall j hj]
  have hW : first_served e ((size + 16) % SIZE_T_MOD) pools mem 0 POOL_COUNT = none := by
    unfold first_served
    rw [List.head?_eq_none_iff, List.dropWhile_eq_nil_iff]
    exact hp
  obtain ⟨t1, t2, t3⟩ := s2 hW
  refine ⟨?_, t1, t2, t3⟩
  rw [s1, hW, takeWhile_all _ hp]
  simp [Option.toList]

/-- C13, as amended: when the first pool in registry order with
`size + 16 <= block_size` fails to allocate, `smart_pool_malloc` offers the
request to the later fitting pools in registry order: it returns the slot of
the first of them that serves it, and it returns the external heap
allocator's result only when every one of them fails as well; it never calls
a pool whose block size does not fit. -/
theorem smart_pool_malloc_first_fit_fails (e : SmartEnv) (size : Nat)
    (pools : List memory_pool_t) (mem : Mem) (i : Nat) (rest : List Nat)
    (hF : fitting ((size + 16) % SIZE_T_MOD) pools 0 POOL_COUNT = i :: rest)
    (hfail : serves e pools mem i = false) :
    ((∀ j ∈ rest, serves e pools mem j = false) →
      (smart_pool_malloc e size pools mem).heap = some size ∧
      (smart_pool_malloc e size pools mem).out = e.heap_caps_malloc size MALLOC_CAP_DEFAULT ∧
      (smart_pool_malloc e size pools mem).called = i :: rest) ∧
    (∀ pre w post, rest = pre ++ w :: post →
      (∀ j ∈ pre, serves e pools mem j = false) → serves e pools mem w = true →
      (smart_pool_malloc e size pools mem).heap = none ∧
      (smart_pool_malloc e size pools mem).out
        = (pool_malloc (e.call w) (pools.getD w zero_pool) mem).out ∧
      (smart_pool_malloc e size pools mem).out ≠ 0 ∧
      (smart_pool_malloc e size pools mem).called = i :: pre ++ [w]) ∧
    (∀ j ∈ (smart_pool_malloc e size pools mem).called,
      (size + 16) % SIZE_T_MOD ≤ (pools.getD j zero_pool).block_size) := by
  refine ⟨?_, ?_, ?_⟩
  · intro hall
    have hall2 : ∀ j ∈ fitting ((size + 16) % SIZE_T_MOD) pools 0 POOL_COUNT,
        serves e pools mem j = false := by
      intro j hj
      rw [hF] at hj
      rcases List.mem_cons.1 hj with h | h
      · rw [h]; exact hfail
      · exact hall j h
    obtain ⟨a1, a2, a3, -⟩ := smart_pool_malloc_all_fail e size pools mem hall2
    exact ⟨a2, a3, by rw [a1, hF]⟩
  · intro pre w post hrest hpre hw
    have hF2 : fitting ((size + 16) % SIZE_T_MOD) pools 0 POOL_COUNT
        = (i :: pre) ++ w :: post := by
      rw [hF, hrest]; rfl
    have hpre2 : ∀ j ∈ i :: pre, serves e pools mem j = false := by
      intro j hj
      rcases List.mem_cons.1 hj with h | h
      · rw [h]; exact hfail
      · exact hpre j h
    obtain ⟨a1, a2, a3, a4, -⟩ :=
      smart_pool_malloc_served_by e size pools mem (i :: pre) w post hF2 hpre2 hw
    exact ⟨a2, a3, a4, a1⟩
  · intro j hj
    exact (mem_fitting.1 ((smart_pool_malloc_spec e size pools mem).2.2.2.1 j hj)).2.2

/-- Instance of `smart_pool_malloc_first_fit_fails`: 1000 bytes when the pool
of 1024-byte blocks is used up. -/
theorem smart_pool_malloc_first_fit_fails_witness :
    (smart_pool_malloc quick_env 1000 drained.1 drained.2).heap = none ∧
    (smart_pool_malloc quick_env 1000 drained.1 drained.2).out ≠ 0 ∧
    (smart_pool_malloc quick_env 1000 drained.1 drained.2).called = 2 :: [] ++ [3] :=
  have h := (smart_pool_malloc_first_fit_fails quick_env 1000 drained.1 drained.2 2 [3]
    (by decide) (by decide)).2.1 [] 3 [] rfl (by decide) (by decide)
  ⟨h.1, h.2.2.1, h.2.2.2⟩

/-- C13 fails as stated: with the pool of 1024-byte blocks used up, a request
for 1000 bytes, whose first fitting pool is that pool, is not answered by the
external heap: the 4096-byte pool is called next and its slot is returned. -/
theorem first_fit_exhausted_takes_larger_pool :
    fitting ((1000 + 16) % SIZE_T_MOD) drained.1 0 POOL_COUNT = [2, 3] ∧
    (drained.1.getD 2 zero_pool).free_list = 0 ∧
    (pool_malloc (quick_env.call 2) (drained.1.getD 2 zero_pool) drained.2).out = 0 ∧
    (smart_pool_malloc quick_env 1000 drained.1 drained.2).called = [2, 3] ∧
    (smart_pool_malloc quick_env 1000 drained.1 drained.2).heap = none ∧
    (smart_pool_malloc quick_env 1000 drained.1 drained.2).out
      = (drained.1.getD 3 zero_pool).free_list + HDR_SIZE ∧
    ((smart_pool_malloc quick_env 1000 drained.1 drained.2).pools.getD 3
      zero_pool).allocated_blocks = 1 := by
  decide

/-- A fitting pool is called whenever every fitting pool before it in the
registry fails. -/
theorem smart_pool_malloc_calls_after_failures (e : SmartEnv) (size : Nat)
    (pools : List memory_pool_t) (mem : Mem) (j : Nat)
    (hj : j ∈ fitting ((size + 16) % SIZE_T_MOD) pools 0 POOL_COUNT)
    (hbefore : ∀ x ∈ fitting ((size + 16) % SIZE_T_MOD) pools 0 POOL_COUNT,
      x < j → serves e pools mem x = false) :
    j ∈ (smart_pool_malloc e size pools mem).called := by
  obtain ⟨s1, -, -, -, -⟩ := smart_pool_malloc_spec e size pools mem
  have hsorted : (fitting ((size + 16) % SIZE_T_MOD) pools 0 POOL_COUNT).Pairwise
      (fun a b => a < b) := by
    unfold fitting
    exact List.Pairwise.filter _ (List.pairwise_lt_range' 0 POOL_COUNT)
  have hsplit := List.takeWhile_append_dropWhile (fun i => !serves e pools mem i)
    (fitting ((size + 16) % SIZE_T_MOD) pools 0 POOL_COUNT)
  rw [s1, List.mem_append]
  rw [← hsplit, List.mem_append] at hj
  rcases hj with h | h
  · exact Or.inl h
  · right
    unfold first_served
    cases hD : (fitting ((size + 16) % SIZE_T_MOD) pools 0 POOL_COUNT).dropWhile
        (fun i => !serves e pools mem i) with
    | nil => rw [hD] at h; simp at h
    | cons w D =>
      rw [hD] at h
      have hw : serves e pools mem w = true := by
        have := List.head?_dropWhile_not (fun i => !serves e pools mem i)
          (fitting ((size + 16) % SIZE_T_MOD) pools 0 POOL_COUNT)
        rw [hD] at this
        simpa using this
      rcases List.mem_cons.1 h with h2 | h2
      · rw [h2]; simp [Option.toList]
      · exfalso
        rw [← hsplit, hD, List.pairwise_append] at hsorted
        have hwj : w < j := (List.pairwise_cons.1 hsorted.2.1).1 j h2
        have hwF : w ∈ fitting ((size + 16) % SIZE_T_MOD) pools 0 POOL_COUNT := by
          rw [← hsplit, hD]
          exact List.mem_append_right _ (List.mem_cons_self _ _)
        rw [hbefore w hwF hwj] at hw
        exact absurd hw (by decide)

/-- C14 (exhaustion escalation): a pool whose lock times out or whose free
list is empty does not serve the request; when the first fitting pool does
not serve it, `smart_pool_malloc` calls the next fitting pool in registry
order, and so on: a fitting pool is called whenever every fitting pool before
it has failed; and the external heap is asked exactly when every fitting
pool has failed, all of them having been called, in registry order. -/
theorem smart_pool_malloc_escalates (e : SmartEnv) (size : Nat) (pools : List memory_pool_t)
    (mem : Mem) :
    (∀ i, ((e.call i).took = false ∨ (pools.getD i zero_pool).free_list = 0) →
      serves e pools mem i = false) ∧
    (∀ i j rest, fitting ((size + 16) % SIZE_T_MOD) pools 0 POOL_COUNT = i :: j :: rest →
      serves e pools mem i = false →
      ∃ t, (smart_pool_malloc e size pools mem).called = i :: j :: t) ∧
    (∀ j ∈ fitting ((size + 16) % SIZE_T_MOD) pools 0 POOL_COUNT,
      (∀ x ∈ fitting ((size + 16) % SIZE_T_MOD) pools 0 POOL_COUNT,
        x < j → serves e pools mem x = false) →
      j ∈ (smart_pool_malloc e size pools mem).called) ∧
    ((smart_pool_malloc e size pools mem).heap = some size ↔
      ∀ i ∈ fitting ((size + 16) % SIZE_T_MOD) pools 0 POOL_COUNT,
        serves e pools mem i = false) ∧
    ((smart_pool_malloc e size pools mem).heap = some size →
      (smart_pool_malloc e size pools mem).called
        = fitting ((size + 16) % SIZE_T_MOD) pools 0 POOL_COUNT ∧
      (smart_pool_malloc e size pools mem).out
        = e.heap_caps_malloc size MALLOC_CAP_DEFAULT) := by
  obtain ⟨s1, s2, s3, -, -⟩ := smart_pool_malloc_spec e size pools mem
  have hiff : (smart_pool_malloc e size pools mem).heap = some size ↔
      ∀ i ∈ fitting ((size + 16) % SIZE_T_MOD) pools 0 POOL_COUNT,
        serves e pools mem i = false := by
    constructor
    · intro hheap i hi
      cases hW : first_served e ((size + 16) % SIZE_T_MOD) pools mem 0 POOL_COUNT with
      | none =>
        unfold first_served at hW
        rw [List.head?_eq_none_iff, List.dropWhile_eq_nil_iff] at hW
        simpa using hW i hi
      | some w =>
        rw [(s3 w hW).1] at hheap
        exact absurd hheap (by simp)
    · intro hall
      exact (smart_pool_malloc_all_fail e size pools mem hall).2.1
  refine ⟨serves_false_of_timeout_or_empty e pools mem, ?_,
    fun j hj hb => smart_pool_malloc_calls_after_failures e size pools mem j hj hb, hiff, ?_⟩
  · intro i j rest hF hi
    by_cases hj : serves e pools mem j = true
    · have hF2 : fitting ((size + 16) % SIZE_T_MOD) pools 0 POOL_COUNT = [i] ++ j :: rest := by
        rw [hF]; rfl
      have := (smart_pool_malloc_served_by e size pools mem [i] j rest hF2
        (fun x hx => by rw [List.mem_singleton.1 hx]; exact hi) hj).1
      exact ⟨[], this⟩
    · have hj' : serves e pools mem j = false := by simpa using hj
      refine ⟨rest.takeWhile (fun i => !serves e pools mem i) ++
        (first_served e ((size + 16) % SIZE_T_MOD) pools mem 0 POOL_COUNT).toList, ?_⟩
      rw [s1, hF, List.takeWhile_cons, List.takeWhile_cons]
      simp [hi, hj']
  · intro hheap
    have hall := hiff.1 hheap
    obtain ⟨a1, -, a3, -⟩ := smart_pool_malloc_all_fail e size pools mem hall
    exact ⟨a1, a3⟩

/-- Instance of `smart_pool_malloc_escalates`: 1000 bytes when the pool of
1024-byte blocks is used up; the 4096-byte pool is called next. -/
theorem smart_pool_malloc_escalates_witness :
    ∃ t, (smart_pool_malloc quick_env 1000 drained.1 drained.2).called = 2 :: 3 :: t :=
  (smart_pool_malloc_escalates quick_env 1000 drained.1 drained.2).2.1 2 3 []
    (by decide) (by decide)

/-! ## Best fit among the configured size classes -/

/-- The first fitting pool is the first pool called; when it serves, its
slot is returned, and when its head is slot `k` of a region whose stride
covers header and block, the payload lies inside the backing region. -/
theorem smart_pool_malloc_first_fit (e : SmartEnv) (size : Nat) (pools : List memory_pool_t)
    (mem : Mem) (i : Nat) (rest : List Nat)
    (hF : fitting ((size + 16) % SIZE_T_MOD) pools 0 POOL_COUNT = i :: rest)
    (hstr : (pools.getD i zero_pool).block_size + HDR_SIZE
      ≤ stride_of (pools.getD i zero_pool).block_size 4) :
    (smart_pool_malloc e size pools mem).called.head? = some i ∧
    (∀ k, (pools.getD i zero_pool).mutex ≠ 0 → (e.call i).took = true →
      (pools.getD i zero_pool).alignment = 4 → k < (pools.getD i zero_pool).block_count →
      (pools.getD i zero_pool).free_list ≠ 0 →
      (pools.getD i zero_pool).free_list
        = (pools.getD i zero_pool).pool_memory + k * (pools.getD i zero_pool).stride →
      ValidFree mem (pools.getD i zero_pool) (pools.getD i zero_pool).free_list →
      (smart_pool_malloc e size pools mem).out
        = (pools.getD i zero_pool).free_list + HDR_SIZE ∧
      (smart_pool_malloc e size pools mem).heap = none ∧
      (smart_pool_malloc e size pools mem).called = [i] ∧
      (pools.getD i zero_pool).pool_memory + HDR_SIZE
        ≤ (smart_pool_malloc e size pools mem).out ∧
      (smart_pool_malloc e size pools mem).out + (pools.getD i zero_pool).block_size
        ≤ (pools.getD i zero_pool).pool_memory
          + (pools.getD i zero_pool).stride * (pools.getD i zero_pool).block_count) := by
  constructor
  · obtain ⟨s1, -, -, -, -⟩ := smart_pool_malloc_spec e size pools mem
    by_cases hsv : serves e pools mem i = true
    · rw [(smart_pool_malloc_served_by e size pools mem [] i rest (by rw [hF]; rfl)
        (fun j hj => by simp at hj) hsv).1]
      rfl
    · have hsv' : serves e pools mem i = false := by simpa using hsv
      rw [s1, hF, List.takeWhile_cons]
      simp [hsv']
  · intro k hm ht hal hk hfl hslot hv
    have hout := (pool_malloc_ok (e.call i) _ mem hm ht hfl hv).1
    have hsv : serves e pools mem i = true := by
      unfold serves
      rw [decide_eq_true_iff, hout]
      simp [HDR_SIZE]
    obtain ⟨a1, a2, a3, -, -⟩ := smart_pool_malloc_served_by e size pools mem [] i rest
      (by rw [hF]; rfl) (fun j hj => by simp at hj) hsv
    rw [a3, hout]
    have hstride : (pools.getD i zero_pool).stride
        = stride_of (pools.getD i zero_pool).block_size 4 := by
      unfold memory_pool_t.stride; rw [hal]
    have hmul : (k + 1) * (pools.getD i zero_pool).stride
        ≤ (pools.getD i zero_pool).block_count * (pools.getD i zero_pool).stride :=
      Nat.mul_le_mul_right _ (by omega)
    rw [Nat.add_mul, Nat.one_mul] at hmul
    rw [Nat.mul_comm (pools.getD i zero_pool).stride]
    refine ⟨rfl, a2, a1, ?_, ?_⟩
    · rw [hslot]; omega
    · rw [hslot]
      rw [← hstride] at hstr
      omega

/-- C15 (best fit): with the configured block sizes 64, 256, 1024 and 4096
and a request with `size + 16 <= 4096`, the first pool on which
`smart_pool_malloc` calls `pool_malloc` is a pool that fits and whose block
size is smallest among the fitting pools; and when that pool is initialised,
its lock is acquired and the head of its free list is a valid free slot `k`
of its region, the returned pointer is that slot's payload address and the
payload lies inside the pool's backing region. -/
theorem smart_pool_malloc_best_fit (e : SmartEnv) (size : Nat) (p0 p1 p2 p3 : memory_pool_t)
    (mem : Mem)
    (h0 : p0.block_size = SMALL_POOL_BLOCK_SIZE) (h1 : p1.block_size = MEDIUM_POOL_BLOCK_SIZE)
    (h2 : p2.block_size = LARGE_POOL_BLOCK_SIZE) (h3 : p3.block_size = HUGE_POOL_BLOCK_SIZE)
    (hsz : size + 16 ≤ HUGE_POOL_BLOCK_SIZE) :
    ∃ i, i < POOL_COUNT ∧
      (smart_pool_malloc e size [p0, p1, p2, p3] mem).called.head? = some i ∧
      size + 16 ≤ ([p0, p1, p2, p3].getD i zero_pool).block_size ∧
      (∀ j, j < POOL_COUNT → size + 16 ≤ ([p0, p1, p2, p3].getD j zero_pool).block_size →
        ([p0, p1, p2, p3].getD i zero_pool).block_size
          ≤ ([p0, p1, p2, p3].getD j zero_pool).block_size) ∧
      (∀ k, ([p0, p1, p2, p3].getD i zero_pool).mutex ≠ 0 → (e.call i).took = true →
        ([p0, p1, p2, p3].getD i zero_pool).alignment = 4 →
        k < ([p0, p1, p2, p3].getD i zero_pool).block_count →
        ([p0, p1, p2, p3].getD i zero_pool).free_list ≠ 0 →
        ([p0, p1, p2, p3].getD i zero_pool).free_list
          = ([p0, p1, p2, p3].getD i zero_pool).pool_memory
            + k * ([p0, p1, p2, p3].getD i zero_pool).stride →
        ValidFree mem ([p0, p1, p2, p3].getD i zero_pool)
          ([p0, p1, p2, p3].getD i zero_pool).free_list →
        (smart_pool_malloc e size [p0, p1, p2, p3] mem).out
          = ([p0, p1, p2, p3].getD i zero_pool).free_list + HDR_SIZE ∧
        (smart_pool_malloc e size [p0, p1, p2, p3] mem).heap = none ∧
        (smart_pool_malloc e size [p0, p1, p2, p3] mem).called = [i] ∧
        ([p0, p1, p2, p3].getD i zero_pool).pool_memory + HDR_SIZE
          ≤ (smart_pool_malloc e size [p0, p1, p2, p3] mem).out ∧
        (smart_pool_malloc e size [p0, p1, p2, p3] mem).out
            + ([p0, p1, p2, p3].getD i zero_pool).block_size
          ≤ ([p0, p1, p2, p3].getD i zero_pool).pool_memory
            + ([p0, p1, p2, p3].getD i zero_pool).stride
              * ([p0, p1, p2, p3].getD i zero_pool).block_count) := by
  simp only [SMALL_POOL_BLOCK_SIZE, MEDIUM_POOL_BLOCK_SIZE, LARGE_POOL_BLOCK_SIZE,
    HUGE_POOL_BLOCK_SIZE] at h0 h1 h2 h3 hsz
  have hmod : (size + 16) % SIZE_T_MOD = size + 16 :=
    Nat.mod_eq_of_lt (by unfold SIZE_T_MOD; omega)
  have g0 : [p0, p1, p2, p3].getD 0 zero_pool = p0 := rfl
  have g1 : [p0, p1, p2, p3].getD 1 zero_pool = p1 := rfl
  have g2 : [p0, p1, p2, p3].getD 2 zero_pool = p2 := rfl
  have g3 : [p0, p1, p2, p3].getD 3 zero_pool = p3 := rfl
  have hFall : fitting ((size + 16) % SIZE_T_MOD) [p0, p1, p2, p3] 0 POOL_COUNT =
      (if size + 16 ≤ 64 then [0] else []) ++ ((if size + 16 ≤ 256 then [1] else []) ++
        ((if size + 16 ≤ 1024 then [2] else []) ++ [3])) := by
    rw [hmod]
    show fitting (size + 16) [p0, p1, p2, p3] 0 (0 + 1 + 1 + 1 + 1) = _
    rw [fitting_succ, fitting_succ, fitting_succ, fitting_succ, g0, g1, g2, g3, h0, h1, h2, h3,
      if_pos hsz]
    have hnil : fitting (size + 16) [p0, p1, p2, p3] (0 + 1 + 1 + 1 + 1) 0 = [] := rfl
    rw [hnil]
    by_cases c0 : size + 16 ≤ 64 <;> by_cases c1 : size + 16 ≤ 256 <;>
      by_cases c2 : size + 16 ≤ 1024 <;> simp [c0, c1, c2]
  have hmin : ∀ (i : Nat), i < POOL_COUNT →
      (∀ j, j < i → ¬ size + 16 ≤ ([p0, p1, p2, p3].getD j zero_pool).block_size) →
      ∀ j, j < POOL_COUNT → size + 16 ≤ ([p0, p1, p2, p3].getD j zero_pool).block_size →
        ([p0, p1, p2, p3].getD i zero_pool).block_size
          ≤ ([p0, p1, p2, p3].getD j zero_pool).block_size := by
    intro i hi hlow j hj hfit
    have hij : i ≤ j := by
      by_contra hlt
      exact hlow j (by omega) hfit
    unfold POOL_COUNT at hi hj
    interval_cases i <;> interval_cases j <;>
      simp only [g0, g1, g2, g3, h0, h1, h2, h3] <;> omega
  by_cases c0 : size + 16 ≤ 64
  · have hF : fitting ((size + 16) % SIZE_T_MOD) [p0, p1, p2, p3] 0 POOL_COUNT
        = 0 :: [1, 2, 3] := by
      rw [hFall]; simp [c0, (by omega : size + 16 ≤ 256), (by omega : size + 16 ≤ 1024)]
    obtain ⟨a1, a2⟩ := smart_pool_malloc_first_fit e size [p0, p1, p2, p3] mem 0 _ hF
      (by rw [g0, h0]; decide)
    refine ⟨0, by decide, a1, by rw [g0, h0]; exact c0, hmin 0 (by decide) ?_, a2⟩
    intro j hj; omega
  · by_cases c1 : size + 16 ≤ 256
    · have hF : fitting ((size + 16) % SIZE_T_MOD) [p0, p1, p2, p3] 0 POOL_COUNT
          = 1 :: [2, 3] := by
        rw [hFall]; simp [c0, c1, (by omega : size + 16 ≤ 1024)]
      obtain ⟨a1, a2⟩ := smart_pool_malloc_first_fit e size [p0, p1, p2, p3] mem 1 _ hF
        (by rw [g1, h1]; decide)
      refine ⟨1, by decide, a1, by rw [g1, h1]; exact c1, hmin 1 (by decide) ?_, a2⟩
      intro j hj
      have : j = 0 := by omega
      subst this
      rw [g0, h0]; exact c0
    · by_cases c2 : size + 16 ≤ 1024
      · have hF : fitting ((size + 16) % SIZE_T_MOD) [p0, p1, p2, p3] 0 POOL_COUNT
            = 2 :: [3] := by
          rw [hFall]; simp [c0, c1, c2]
        obtain ⟨a1, a2⟩ := smart_pool_malloc_first_fit e size [p0, p1, p2, p3] mem 2 _ hF
          (by rw [g2, h2]; decide)
        refine ⟨2, by decide, a1, by rw [g2, h2]; exact c2, hmin 2 (by decide) ?_, a2⟩
        intro j hj
        have : j = 0 ∨ j = 1 := by omega
        rcases this with h | h <;> subst h
        · rw [g0, h0]; exact c0
        · rw [g1, h1]; exact c1
      · have hF : fitting ((size + 16) % SIZE_T_MOD) [p0, p1, p2, p3] 0 POOL_COUNT
            = 3 :: [] := by
          rw [hFall]; simp [c0, c1, c2]
        obtain ⟨a1, a2⟩ := smart_pool_malloc_first_fit e size [p0, p1, p2, p3] mem 3 _ hF
          (by rw [g3, h3]; decide)
        refine ⟨3, by decide, a1, by rw [g3, h3]; exact hsz, hmin 3 (by decide) ?_, a2⟩
        intro j hj
        have : j = 0 ∨ j = 1 ∨ j = 2 := by omega
        rcases this with h | h | h <;> subst h
        · rw [g0, h0]; exact c0
        · rw [g1, h1]; exact c1
        · rw [g2, h2]; exact c2

/-- Instance of `smart_pool_malloc_best_fit`: 100 bytes on the pools of
`booted`. -/
theorem smart_pool_malloc_best_fit_witness :
    ∃ i, i < POOL_COUNT ∧
      (smart_pool_malloc quick_env 100
        [booted.1.getD 0 zero_pool, booted.1.getD 1 zero_pool, booted.1.getD 2 zero_pool,
          booted.1.getD 3 zero_pool] booted.2).called.head? = some i ∧
      100 + 16 ≤ ([booted.1.getD 0 zero_pool, booted.1.getD 1 zero_pool,
        booted.1.getD 2 zero_pool, booted.1.getD 3 zero_pool].getD i zero_pool).block_size :=
  (smart_pool_malloc_best_fit quick_env 100 (booted.1.getD 0 zero_pool)
    (booted.1.getD 1 zero_pool) (booted.1.getD 2 zero_pool) (booted.1.getD 3 zero_pool)
    booted.2 (by decide) (by decide) (by decide) (by decide) (by decide)).imp
    (fun _ h => ⟨h.1, h.2.1, h.2.2.1⟩)

/-! ## Stride arithmetic -/

/-- Masking off the low `k` bits of a 32-bit value rounds it down to a
multiple of `2 ^ k`. -/
theorem and_clear_low_bits (x k : Nat) (hx : x < 2 ^ 32) (hk : k ≤ 32) :
    x &&& (2 ^ 32 - 1 - (2 ^ k - 1)) = 2 ^ k * (x / 2 ^ k) := by
  have hpos : 0 < 2 ^ k := Nat.two_pow_pos k
  have hle : 2 ^ k ≤ 2 ^ 32 := Nat.pow_le_pow_right (by decide) hk
  have hm : 2 ^ 32 - 1 - (2 ^ k - 1) = 2 ^ 32 - ((2 ^ k - 1) + 1) := by
    generalize 2 ^ k = a at hpos hle
    omega
  have hlt : 2 ^ k - 1 < 2 ^ 32 := by
    generalize 2 ^ k = a at hpos hle
    omega
  apply Nat.eq_of_testBit_eq
  intro i
  rw [Nat.testBit_and, hm, Nat.testBit_two_pow_sub_succ hlt, Nat.testBit_two_pow_sub_one,
    Nat.testBit_mul_pow_two, ← Nat.shiftRight_eq_div_pow, Nat.testBit_shiftRight]
  by_cases h1 : i < k
  · have h2 : ¬ i ≥ k := by omega
    simp [h1, h2]
  · have h2 : i ≥ k := by omega
    have h3 : k + (i - k) = i := by omega
    rw [h3]
    by_cases h4 : i < 32
    · simp [h1, h2, h4]
    · have hxi : x.testBit i = false :=
        Nat.testBit_lt_two_pow (Nat.lt_of_lt_of_le hx
          (Nat.pow_le_pow_right (by decide) (by omega)))
      simp [hxi]

/-- For a power-of-two alignment and no overflow of `size + align - 1`,
`aligned_size` is `align * ((size + align - 1) / align)`. -/
theorem aligned_size_eq (size k : Nat) (hk : k < 32) (hno : size + 2 ^ k - 1 < SIZE_T_MOD) :
    aligned_size size (2 ^ k) = 2 ^ k * ((size + 2 ^ k - 1) / 2 ^ k) := by
  have hpos : 0 < 2 ^ k := Nat.two_pow_pos k
  have hle : 2 ^ k < 2 ^ 32 := Nat.pow_lt_pow_right (by decide) hk
  have h1 : size_sub ((size + 2 ^ k) % SIZE_T_MOD) 1 = size + 2 ^ k - 1 := by
    unfold size_sub
    unfold SIZE_T_MOD at *
    generalize 2 ^ k = a at hpos hle hno
    omega
  have h2 : size_sub (2 ^ k) 1 = 2 ^ k - 1 := by
    unfold size_sub
    unfold SIZE_T_MOD at *
    generalize 2 ^ k = a at hpos hle hno
    omega
  unfold aligned_size
  rw [h1, h2]
  exact and_clear_low_bits _ k hno (by omega)

/-- The value `a * ((size + a - 1) / a)` is the least multiple of `a` that is
at least `size`. -/
theorem round_up_least (size a : Nat) (ha : 0 < a) :
    a ∣ a * ((size + a - 1) / a) ∧ size ≤ a * ((size + a - 1) / a) ∧
    a * ((size + a - 1) / a) < size + a ∧
    ∀ m, a ∣ m → size ≤ m → a * ((size + a - 1) / a) ≤ m := by
  have hdm := Nat.div_add_mod (size + a - 1) a
  have hmod := Nat.mod_lt (size + a - 1) ha
  refine ⟨Nat.dvd_mul_right _ _, by omega, by omega, ?_⟩
  rintro m ⟨q, rfl⟩ hsz
  apply Nat.mul_le_mul_left
  have : (size + a - 1) / a < q + 1 := by
    rw [Nat.div_lt_iff_lt_mul ha, Nat.add_mul, Nat.one_mul, Nat.mul_comm q a]
    omega
  omega

/-- With alignment 4 and a block size that leaves room for the header, the
stride is the header size plus the block size rounded up to a multiple of
4. -/
theorem stride_of_four (bs : Nat) (hbs : bs + 3 + HDR_SIZE < SIZE_T_MOD) :
    stride_of bs 4 = HDR_SIZE + 4 * ((bs + 4 - 1) / 4) ∧
    HDR_SIZE + bs ≤ stride_of bs 4 ∧ stride_of bs 4 < HDR_SIZE + bs + 4 := by
  have ha : aligned_size bs (2 ^ 2) = 2 ^ 2 * ((bs + 2 ^ 2 - 1) / 2 ^ 2) :=
    aligned_size_eq bs 2 (by decide) (by unfold SIZE_T_MOD HDR_SIZE at *; omega)
  have ha' : aligned_size bs 4 = 4 * ((bs + 4 - 1) / 4) := ha
  obtain ⟨-, r2, r3, -⟩ := round_up_least bs 4 (by decide)
  have hs : stride_of bs 4 = HDR_SIZE + 4 * ((bs + 4 - 1) / 4) := by
    unfold stride_of
    rw [ha']
    apply Nat.mod_eq_of_lt
    unfold SIZE_T_MOD HDR_SIZE at *
    omega
  rw [hs]
  exact ⟨rfl, by omega, by omega⟩

/-- C24 (stride arithmetic): for a power-of-two `align` with
`size + align - 1` not overflowing `size_t`, `aligned_size(size, align)` is
the least multiple of `align` that is at least `size`; hence the stride of a
pool with alignment 4 is the header size plus the block size rounded up to a
multiple of 4; slot `i` of a region whose size fits `size_t` starts at
`region_start + i * stride`, and the header and block of a slot end at or
before the start of every later slot. -/
theorem stride_arithmetic :
    (∀ size k, k < 32 → size + 2 ^ k - 1 < SIZE_T_MOD →
      2 ^ k ∣ aligned_size size (2 ^ k) ∧ size ≤ aligned_size size (2 ^ k) ∧
      ∀ m, 2 ^ k ∣ m → size ≤ m → aligned_size size (2 ^ k) ≤ m) ∧
    (∀ pool : memory_pool_t, pool.alignment = 4 →
      pool.block_size + 3 + HDR_SIZE < SIZE_T_MOD →
      pool.stride = HDR_SIZE + aligned_size pool.block_size 4 ∧
      4 ∣ aligned_size pool.block_size 4 ∧ pool.block_size ≤ aligned_size pool.block_size 4 ∧
      ∀ m, 4 ∣ m → pool.block_size ≤ m → aligned_size pool.block_size 4 ≤ m) ∧
    (∀ p stride n i, stride * n < SIZE_T_MOD → i < n →
      slot_addr p stride i = p + i * stride) ∧
    (∀ bs p n i j, bs + 3 + HDR_SIZE < SIZE_T_MOD → stride_of bs 4 * n < SIZE_T_MOD →
      i < j → j < n →
      slot_addr p (stride_of bs 4) i + HDR_SIZE + bs ≤ slot_addr p (stride_of bs 4) j) := by
  have hleast : ∀ size k, k < 32 → size + 2 ^ k - 1 < SIZE_T_MOD →
      2 ^ k ∣ aligned_size size (2 ^ k) ∧ size ≤ aligned_size size (2 ^ k) ∧
      ∀ m, 2 ^ k ∣ m → size ≤ m → aligned_size size (2 ^ k) ≤ m := by
    intro size k hk hno
    rw [aligned_size_eq size k hk hno]
    obtain ⟨r1, r2, -, r4⟩ := round_up_least size (2 ^ k) (Nat.two_pow_pos k)
    exact ⟨r1, r2, r4⟩
  refine ⟨hleast, ?_, ?_, ?_⟩
  · intro pool hal hbs
    obtain ⟨l1, l2, l3⟩ := hleast pool.block_size 2 (by decide)
      (by unfold SIZE_T_MOD HDR_SIZE at *; omega)
    have l1' : 4 ∣ aligned_size pool.block_size 4 := l1
    have l2' : pool.block_size ≤ aligned_size pool.block_size 4 := l2
    have l3' : ∀ m, 4 ∣ m → pool.block_size ≤ m → aligned_size pool.block_size 4 ≤ m := l3
    refine ⟨?_, l1', l2', l3'⟩
    have ha : aligned_size pool.block_size 4 = 4 * ((pool.block_size + 4 - 1) / 4) :=
      aligned_size_eq pool.block_size 2 (by decide)
        (by unfold SIZE_T_MOD HDR_SIZE at *; omega)
    unfold memory_pool_t.stride
    rw [hal, (stride_of_four pool.block_size hbs).1, ha]
  · intro p stride n i hfit hi
    exact slot_addr_eq hfit (Nat.le_of_lt hi)
  · intro bs p n i j hbs hfit hij hj
    obtain ⟨-, s2, -⟩ := stride_of_four bs hbs
    rw [slot_addr_eq hfit (by omega : i ≤ n), slot_addr_eq hfit (Nat.le_of_lt hj)]
    have hmul : (i + 1) * stride_of bs 4 ≤ j * stride_of bs 4 :=
      Nat.mul_le_mul_right _ (by omega)
    rw [Nat.add_mul, Nat.one_mul] at hmul
    omega

/-- Instance of `stride_arithmetic`: 65 bytes aligned to 4. -/
theorem stride_arithmetic_witness :
    2 ^ 2 ∣ aligned_size 65 (2 ^ 2) ∧ 65 ≤ aligned_size 65 (2 ^ 2) ∧
    ∀ m, 2 ^ 2 ∣ m → 65 ≤ m → aligned_size 65 (2 ^ 2) ≤ m :=
  stride_arithmetic.1 65 2 (by decide) (by decide)

/-! ## The free router -/

/-- A `pool_free` that returns false leaves memory as it is. -/
theorem pool_free_fail_mem (c : CallEnv) (pool : memory_pool_t) (ptr : Nat) (mem : Mem)
    (h : (pool_free c pool ptr mem).ok = false) : (pool_free c pool ptr mem).mem = mem := by
  by_cases hp : ptr = 0
  · simp [pool_free, hp]
  · by_cases hm : pool.mutex = 0
    · rw [pool_free_no_mutex c pool ptr mem hm]
    · exact (pool_free_fail_state c pool ptr mem hp hm h).2

theorem getD_set_pool_free (c : CallEnv) (pools : List memory_pool_t) (i ptr : Nat)
    (mem : Mem) :
    (pools.set i (pool_free c (pools.getD i zero_pool) ptr mem).pool).getD i zero_pool
      = (pool_free c (pools.getD i zero_pool) ptr mem).pool := by
  by_cases hi : i < pools.length
  · simp [hi]
  · have hz : pools.getD i zero_pool = zero_pool := by
      simp only [List.getD_eq_getElem?_getD]
      rw [List.getElem?_eq_none (by omega)]
      rfl
    have hz2 : (pools.set i (pool_free c (pools.getD i zero_pool) ptr mem).pool).getD i
        zero_pool = zero_pool := by
      simp only [List.getD_eq_getElem?_getD]
      rw [List.getElem?_eq_none (by simp; omega)]
      rfl
    rw [hz2, hz, pool_free_no_mutex c zero_pool ptr mem rfl]

/-- Replacing the entry of another pool does not change what pool `i` answers. -/
theorem accepts_set_ne (e : SmartEnv) (pools : List memory_pool_t) (ptr : Nat) (mem : Mem)
    (i0 i : Nat) (x : memory_pool_t) (h : i0 ≠ i) :
    accepts e (pools.set i0 x) ptr mem i = accepts e pools ptr mem i := by
  unfold accepts
  rw [getD_set_pool_ne _ _ _ _ h]

/-- One step of the free loop on a pool that accepts. -/
theorem smart_free_loop_accept (e : SmartEnv) (ptr n i0 : Nat) (pools : List memory_pool_t)
    (mem : Mem) (h : accepts e pools ptr mem i0 = true) :
    smart_free_loop e ptr (n + 1) i0 pools mem =
      { ok := true,
        pools := pools.set i0 (pool_free (e.call i0) (pools.getD i0 zero_pool) ptr mem).pool,
        mem := (pool_free (e.call i0) (pools.getD i0 zero_pool) ptr mem).mem,
        called := [i0], heap := none } := by
  unfold accepts at h
  simp only [smart_free_loop]
  rw [if_pos h]

/-- One step of the free loop on a pool that rejects. -/
theorem smart_free_loop_reject (e : SmartEnv) (ptr n i0 : Nat) (pools : List memory_pool_t)
    (mem : Mem) (h : accepts e pools ptr mem i0 = false) :
    smart_free_loop e ptr (n + 1) i0 pools mem =
      { smart_free_loop e ptr n (i0 + 1)
          (pools.set i0 (pool_free (e.call i0) (pools.getD i0 zero_pool) ptr mem).pool) mem
        with called := i0 :: (smart_free_loop e ptr n (i0 + 1)
          (pools.set i0 (pool_free (e.call i0) (pools.getD i0 zero_pool) ptr mem).pool)
          mem).called } := by
  unfold accepts at h
  have hmem := pool_free_fail_mem _ _ _ _ h
  simp only [smart_free_loop]
  rw [if_neg (by rw [h]; simp), hmem]

/-- The free loop when every pool left rejects the pointer: every pool is
asked, the pointer goes to the external heap, and each pool is left in the
state its own `pool_free` produced. -/
theorem smart_free_loop_all_reject (e : SmartEnv) (ptr : Nat) :
    ∀ (n i0 : Nat) (pools : List memory_pool_t) (mem : Mem),
      (∀ i, i0 ≤ i → i < i0 + n → accepts e pools ptr mem i = false) →
      (smart_free_loop e ptr n i0 pools mem).ok = true ∧
      (smart_free_loop e ptr n i0 pools mem).heap = some ptr ∧
      (smart_free_loop e ptr n i0 pools mem).called = List.range' i0 n ∧
      (smart_free_loop e ptr n i0 pools mem).mem = mem ∧
      ∀ j, (smart_free_loop e ptr n i0 pools mem).pools.getD j zero_pool =
        if i0 ≤ j ∧ j < i0 + n
        then (pool_free (e.call j) (pools.getD j zero_pool) ptr mem).pool
        else pools.getD j zero_pool := by
  intro n
  induction n with
  | zero =>
    intro i0 pools mem _
    refine ⟨rfl, rfl, rfl, rfl, ?_⟩
    intro j
    rw [if_neg (by omega)]
    rfl
  | succ n ih =>
    intro i0 pools mem hall
    have h0 := hall i0 (Nat.le_refl _) (by omega)
    obtain ⟨c1, c2, c3, c4, c5⟩ := ih (i0 + 1)
      (pools.set i0 (pool_free (e.call i0) (pools.getD i0 zero_pool) ptr mem).pool) mem
      (fun i hi1 hi2 => by
        rw [accepts_set_ne e pools ptr mem i0 i _ (by omega)]
        exact hall i (by omega) (by omega))
    rw [smart_free_loop_reject e ptr n i0 pools mem h0]
    refine ⟨c1, c2, ?_, c4, ?_⟩
    · show i0 :: _ = _
      rw [c3, List.range'_succ]
    · intro j
      have c5j := c5 j
      simp only [] at c5j ⊢
      rw [c5j]
      by_cases hj : j = i0
      · subst hj
        rw [if_neg (by omega), if_pos (by omega)]
        exact getD_set_pool_free _ _ _ _ _
      · rw [getD_set_pool_ne _ _ _ _ (fun h => hj h.symm)]
        by_cases hr : i0 + 1 ≤ j ∧ j < i0 + 1 + n
        · rw [if_pos hr, if_pos (by omega)]
        · rw [if_neg hr, if_neg (by omega)]

/-- The free loop when pool `w` is the first to accept the pointer: the pools
up to `w` are asked in order, the scan stops there, the external heap is not
called, and the pools after `w` are untouched. -/
theorem smart_free_loop_owner (e : SmartEnv) (ptr : Nat) :
    ∀ (n i0 : Nat) (pools : List memory_pool_t) (mem : Mem) (w : Nat),
      i0 ≤ w → w < i0 + n →
      (∀ i, i0 ≤ i → i < w → accepts e pools ptr mem i = false) →
      accepts e pools ptr mem w = true →
      (smart_free_loop e ptr n i0 pools mem).ok = true ∧
      (smart_free_loop e ptr n i0 pools mem).heap = none ∧
      (smart_free_loop e ptr n i0 pools mem).called = List.range' i0 (w + 1 - i0) ∧
      (smart_free_loop e ptr n i0 pools mem).mem
        = (pool_free (e.call w) (pools.getD w zero_pool) ptr mem).mem ∧
      ∀ j, (smart_free_loop e ptr n i0 pools mem).pools.getD j zero_pool =
        if i0 ≤ j ∧ j ≤ w
        then (pool_free (e.call j) (pools.getD j zero_pool) ptr mem).pool
        else pools.getD j zero_pool := by
  intro n
  induction n with
  | zero =>
    intro i0 pools mem w h1 h2
    omega
  | succ n ih =>
    intro i0 pools mem w h1 h2 hrej hacc
    by_cases hw : w = i0
    · subst hw
      rw [smart_free_loop_accept e ptr n w pools mem hacc]
      refine ⟨rfl, rfl, ?_, rfl, ?_⟩
      · have : w + 1 - w = 1 := by omega
        rw [this]
        rfl
      · intro j
        simp only []
        by_cases hj : j = w
        · subst hj
          rw [if_pos (by omega)]
          exact getD_set_pool_free _ _ _ _ _
        · rw [if_neg (by omega)]
          exact getD_set_pool_ne _ _ _ _ (fun h => hj h.symm)
    · have h0 := hrej i0 (Nat.le_refl _) (by omega)
      have hacc2 : accepts e
          (pools.set i0 (pool_free (e.call i0) (pools.getD i0 zero_pool) ptr mem).pool)
          ptr mem w = true := by
        rw [accepts_set_ne e pools ptr mem i0 w _ (fun h => hw h.symm)]
        exact hacc
      obtain ⟨c1, c2, c3, c4, c5⟩ := ih (i0 + 1)
        (pools.set i0 (pool_free (e.call i0) (pools.getD i0 zero_pool) ptr mem).pool) mem w
        (by omega) (by omega)
        (fun i hi1 hi2 => by
          rw [accepts_set_ne e pools ptr mem i0 i _ (by omega)]
          exact hrej i (by omega) hi2)
        hacc2
      rw [getD_set_pool_ne _ _ _ _ (fun h => hw h.symm)] at c4
      rw [smart_free_loop_reject e ptr n i0 pools mem h0]
      refine ⟨c1, c2, ?_, c4, ?_⟩
      · show i0 :: _ = _
        rw [c3]
        have : w + 1 - i0 = (w + 1 - (i0 + 1)) + 1 := by omega
        rw [this, List.range'_succ]
      · intro j
        have c5j := c5 j
        simp only [] at c5j ⊢
        rw [c5j]
        by_cases hj : j = i0
        · subst hj
          rw [if_neg (by omega), if_pos (by omega)]
          exact getD_set_pool_free _ _ _ _ _
        · rw [getD_set_pool_ne _ _ _ _ (fun h => hj h.symm)]
          by_cases hr : i0 + 1 ≤ j ∧ j ≤ w
          · rw [if_pos hr, if_pos (by omega)]
          · rw [if_neg hr, if_neg (by omega)]

/-- Among the pools `i0, ..., i0 + n - 1`, either all reject the pointer or
there is a first one that accepts it. -/
theorem first_accepting_cases (e : SmartEnv) (pools : List memory_pool_t) (ptr : Nat)
    (mem : Mem) (i0 : Nat) : ∀ n : Nat,
      (∀ i, i0 ≤ i → i < i0 + n → accepts e pools ptr mem i = false) ∨
      ∃ w, i0 ≤ w ∧ w < i0 + n ∧ accepts e pools ptr mem w = true ∧
        ∀ i, i0 ≤ i → i < w → accepts e pools ptr mem i = false
  | 0 => Or.inl (fun i h1 h2 => by omega)
  | n + 1 => by
    rcases first_accepting_cases e pools ptr mem i0 n with h | ⟨w, h1, h2, h3, h4⟩
    · by_cases ha : accepts e pools ptr mem (i0 + n) = true
      · exact Or.inr ⟨i0 + n, by omega, by omega, ha, fun i hi1 hi2 => h i hi1 hi2⟩
      · refine Or.inl (fun i hi1 hi2 => ?_)
        by_cases hi : i = i0 + n
        · rw [hi]
          simpa using ha
        · exact h i hi1 (by omega)
    · exact Or.inr ⟨w, h1, by omega, h3, h4⟩

/-- A `pool_free` whose header address is readable runs as `pool_free`. -/
theorem pool_free_checked_readable (readable : Nat → Bool) (c : CallEnv)
    (pool : memory_pool_t) (ptr : Nat) (mem : Mem) (h : readable (hdr_of_ptr ptr) = true) :
    pool_free_checked readable c pool ptr mem = some (pool_free c pool ptr mem) := by
  unfold pool_free_checked
  rw [if_pos h]
  split_ifs <;> rfl

/-- A `pool_free` that returns at the guard or does not get the lock loads
no header. -/
theorem pool_free_checked_no_load (readable : Nat → Bool) (c : CallEnv)
    (pool : memory_pool_t) (ptr : Nat) (mem : Mem)
    (h : pool.mutex = 0 ∨ c.took = false) :
    pool_free_checked readable c pool ptr mem = some (pool_free c pool ptr mem) ∧
    (pool_free c pool ptr mem).ok = false := by
  have hok : (pool_free c pool ptr mem).ok = false := by
    cases hv : (pool_free c pool ptr mem).ok with
    | false => rfl
    | true =>
      obtain ⟨-, h2, h3, -⟩ := (pool_free_ok_iff c pool ptr mem).1 hv
      rcases h with h | h
      · exact absurd h h2
      · rw [h] at h3
        exact absurd h3 (by decide)
  refine ⟨?_, hok⟩
  unfold pool_free_checked
  rcases h with h | h
  · rw [if_pos (Or.inr h)]
  · by_cases hg : ptr = 0 ∨ pool.mutex = 0
    · rw [if_pos hg]
    · rw [if_neg hg, if_neg (by rw [h]; decide)]

/-- A `pool_free` past the guard that holds the lock stops the program when
the header address is not readable. -/
theorem pool_free_checked_fault (readable : Nat → Bool) (c : CallEnv)
    (pool : memory_pool_t) (ptr : Nat) (mem : Mem) (hp : ptr ≠ 0) (hm : pool.mutex ≠ 0)
    (ht : c.took = true) (hu : readable (hdr_of_ptr ptr) = false) :
    pool_free_checked readable c pool ptr mem = none := by
  unfold pool_free_checked
  rw [if_neg (by rintro (h | h); exact hp h; exact hm h), if_pos ht,
    if_neg (by rw [hu]; decide)]

/-- With a readable header address the free loop runs as `smart_free_loop`. -/
theorem smart_free_loop_checked_readable (readable : Nat → Bool) (e : SmartEnv) (ptr : Nat)
    (h : readable (hdr_of_ptr ptr) = true) :
    ∀ (n i : Nat) (pools : List memory_pool_t) (mem : Mem),
      smart_free_loop_checked readable e ptr n i pools mem
        = some (smart_free_loop e ptr n i pools mem)
  | 0, _, _, _ => rfl
  | n + 1, i, pools, mem => by
    simp only [smart_free_loop_checked, smart_free_loop]
    rw [pool_free_checked_readable readable _ _ _ _ h]
    simp only []
    by_cases hok : (pool_free (e.call i) (pools.getD i zero_pool) ptr mem).ok = true
    · rw [if_pos hok, if_pos hok]
    · rw [if_neg hok, if_neg hok, smart_free_loop_checked_readable readable e ptr h n]

/-- When every pool left returns at the guard or does not get its lock, the
free loop loads no header and runs as `smart_free_loop`. -/
theorem smart_free_loop_checked_no_load (readable : Nat → Bool) (e : SmartEnv) (ptr : Nat) :
    ∀ (n i0 : Nat) (pools : List memory_pool_t) (mem : Mem),
      (∀ i, i0 ≤ i → i < i0 + n →
        (pools.getD i zero_pool).mutex = 0 ∨ (e.call i).took = false) →
      smart_free_loop_checked readable e ptr n i0 pools mem
        = some (smart_free_loop e ptr n i0 pools mem)
  | 0, _, _, _, _ => rfl
  | n + 1, i0, pools, mem, h => by
    obtain ⟨h1, h2⟩ := pool_free_checked_no_load readable (e.call i0)
      (pools.getD i0 zero_pool) ptr mem (h i0 (Nat.le_refl _) (by omega))
    simp only [smart_free_loop_checked, smart_free_loop]
    rw [h1]
    simp only []
    rw [if_neg (by rw [h2]; decide), if_neg (by rw [h2]; decide),
      smart_free_loop_checked_no_load readable e ptr n (i0 + 1) _ _
        (fun i hi1 hi2 => by
          rw [getD_set_pool_ne _ _ _ _ (by omega)]
          exact h i (by omega) (by omega))]

/-- With a non-null pointer whose header address is not readable, the free
loop stops the program as soon as a pool with a mutex gets its lock. -/
theorem smart_free_loop_checked_fault (readable : Nat → Bool) (e : SmartEnv) (ptr : Nat)
    (hp : ptr ≠ 0) (hu : readable (hdr_of_ptr ptr) = false) :
    ∀ (n i0 : Nat) (pools : List memory_pool_t) (mem : Mem),
      (∃ i, i0 ≤ i ∧ i < i0 + n ∧
        (pools.getD i zero_pool).mutex ≠ 0 ∧ (e.call i).took = true) →
      smart_free_loop_checked readable e ptr n i0 pools mem = none
  | 0, _, _, _, h => by
    obtain ⟨i, h1, h2, -⟩ := h
    omega
  | n + 1, i0, pools, mem, h => by
    by_cases hlock : (pools.getD i0 zero_pool).mutex ≠ 0 ∧ (e.call i0).took = true
    · simp only [smart_free_loop_checked]
      rw [pool_free_checked_fault readable _ _ _ _ hp hlock.1 hlock.2 hu]
    · have hno : (pools.getD i0 zero_pool).mutex = 0 ∨ (e.call i0).took = false := by
        by_cases hm : (pools.getD i0 zero_pool).mutex = 0
        · exact Or.inl hm
        · right
          cases ht : (e.call i0).took with
          | false => rfl
          | true => exact absurd ⟨hm, ht⟩ hlock
      obtain ⟨h1, h2⟩ := pool_free_checked_no_load readable (e.call i0)
        (pools.getD i0 zero_pool) ptr mem hno
      obtain ⟨i, g1, g2, g3, g4⟩ := h
      have hne : i ≠ i0 := by
        intro he
        rw [he] at g3 g4
        exact hlock ⟨g3, g4⟩
      have hrest := smart_free_loop_checked_fault readable e ptr hp hu n (i0 + 1)
        (pools.set i0 (pool_free (e.call i0) (pools.getD i0 zero_pool) ptr mem).pool)
        (pool_free (e.call i0) (pools.getD i0 zero_pool) ptr mem).mem
        ⟨i, by omega, by omega, by
          rw [getD_set_pool_ne _ _ _ _ (fun he => hne he.symm)]
          exact g3, g4⟩
      simp only [smart_free_loop_checked]
      rw [h1]
      simp only []
      rw [if_neg (by rw [h2]; decide), hrest]

/-- C21 (route_free always succeeds) as the code has it: for every non-null
pointer whose header address is readable memory `smart_pool_free` returns
true, without calling the external heap when some pool accepts the pointer
and after forwarding it to the external heap's free operation when every
pool rejects it. For a non-null pointer whose header address is not
readable, the call stops at the load of the header as soon as a pool with a
mutex gets its lock, and returns true after the heap's free operation when
no pool does. For the null pointer it returns false, and no pool and no heap
operation is called. -/
theorem smart_pool_free_result (readable : Nat → Bool) (e : SmartEnv) (ptr : Nat)
    (pools : List memory_pool_t) (mem : Mem) :
    (ptr ≠ 0 → readable (hdr_of_ptr ptr) = true →
      smart_pool_free_checked readable e ptr pools mem
        = some (smart_pool_free e ptr pools mem) ∧
      (smart_pool_free e ptr pools mem).ok = true ∧
      ((∃ i, i < POOL_COUNT ∧
          (pool_free (e.call i) (pools.getD i zero_pool) ptr mem).ok = true) →
        (smart_pool_free e ptr pools mem).heap = none) ∧
      ((∀ i, i < POOL_COUNT →
          (pool_free (e.call i) (pools.getD i zero_pool) ptr mem).ok = false) →
        (smart_pool_free e ptr pools mem).heap = some ptr)) ∧
    (ptr ≠ 0 → readable (hdr_of_ptr ptr) = false →
      ((∃ i, i < POOL_COUNT ∧
          (pools.getD i zero_pool).mutex ≠ 0 ∧ (e.call i).took = true) →
        smart_pool_free_checked readable e ptr pools mem = none) ∧
      ((∀ i, i < POOL_COUNT →
          (pools.getD i zero_pool).mutex = 0 ∨ (e.call i).took = false) →
        smart_pool_free_checked readable e ptr pools mem
          = some (smart_pool_free e ptr pools mem) ∧
        (smart_pool_free e ptr pools mem).ok = true ∧
        (smart_pool_free e ptr pools mem).heap = some ptr)) ∧
    (ptr = 0 →
      smart_pool_free_checked readable e ptr pools mem
        = some { ok := false, pools := pools, mem := mem, called := [], heap := none } ∧
      smart_pool_free e ptr pools mem
        = { ok := false, pools := pools, mem := mem, called := [], heap := none }) := by
  have hplain : ptr ≠ 0 →
      (smart_pool_free e ptr pools mem).ok = true ∧
      ((∃ i, i < POOL_COUNT ∧
          (pool_free (e.call i) (pools.getD i zero_pool) ptr mem).ok = true) →
        (smart_pool_free e ptr pools mem).heap = none) ∧
      ((∀ i, i < POOL_COUNT →
          (pool_free (e.call i) (pools.getD i zero_pool) ptr mem).ok = false) →
        (smart_pool_free e ptr pools mem).heap = some ptr) := by
    intro hp
    have hloop : smart_pool_free e ptr pools mem
        = smart_free_loop e ptr POOL_COUNT 0 pools mem := by
      unfold smart_pool_free
      rw [if_neg hp]
    rw [hloop]
    rcases first_accepting_cases e pools ptr mem 0 POOL_COUNT with hall | ⟨w, h1, h2, h3, h4⟩
    · obtain ⟨c1, c2, -, -, -⟩ := smart_free_loop_all_reject e ptr POOL_COUNT 0 pools mem hall
      refine ⟨c1, ?_, fun _ => c2⟩
      rintro ⟨i, hi, hok⟩
      have := hall i (Nat.zero_le _) (by omega)
      unfold accepts at this
      rw [this] at hok
      exact absurd hok (by decide)
    · obtain ⟨c1, c2, -, -, -⟩ :=
        smart_free_loop_owner e ptr POOL_COUNT 0 pools mem w h1 h2 h4 h3
      refine ⟨c1, fun _ => c2, ?_⟩
      intro hall
      have := hall w (by omega)
      unfold accepts at h3
      rw [this] at h3
      exact absurd h3 (by decide)
  have hchk : ptr ≠ 0 → smart_pool_free_checked readable e ptr pools mem
      = smart_free_loop_checked readable e ptr POOL_COUNT 0 pools mem := by
    intro hp
    unfold smart_pool_free_checked
    rw [if_neg hp]
  have hloop2 : ptr ≠ 0 → smart_pool_free e ptr pools mem
      = smart_free_loop e ptr POOL_COUNT 0 pools mem := by
    intro hp
    unfold smart_pool_free
    rw [if_neg hp]
  refine ⟨?_, ?_, ?_⟩
  · intro hp hr
    refine ⟨?_, hplain hp⟩
    rw [hchk hp, hloop2 hp]
    exact smart_free_loop_checked_readable readable e ptr hr POOL_COUNT 0 pools mem
  · intro hp hu
    constructor
    · rintro ⟨i, hi, hm, ht⟩
      rw [hchk hp]
      exact smart_free_loop_checked_fault readable e ptr hp hu POOL_COUNT 0 pools mem
        ⟨i, Nat.zero_le _, by omega, hm, ht⟩
    · intro hall
      have hsame : smart_pool_free_checked readable e ptr pools mem
          = some (smart_pool_free e ptr pools mem) := by
        rw [hchk hp, hloop2 hp]
        exact smart_free_loop_checked_no_load readable e ptr POOL_COUNT 0 pools mem
          (fun i _ hi2 => hall i (by omega))
      refine ⟨hsame, (hplain hp).1, (hplain hp).2.2 ?_⟩
      intro i hi
      exact (pool_free_checked_no_load readable (e.call i) (pools.getD i zero_pool) ptr mem
        (hall i hi)).2
  · intro hp
    unfold smart_pool_free_checked smart_pool_free
    rw [if_pos hp, if_pos hp]
    exact ⟨rfl, rfl⟩

/-- Instance of `smart_pool_free_result`: a pointer of the external heap
freed on the freshly booted registry, with the internal RAM readable. -/
theorem smart_pool_free_result_witness :
    smart_pool_free_checked sram quick_env 0x3FFE0000 booted.1 booted.2
      = some (smart_pool_free quick_env 0x3FFE0000 booted.1 booted.2) ∧
    (smart_pool_free quick_env 0x3FFE0000 booted.1 booted.2).ok = true ∧
    (smart_pool_free quick_env 0x3FFE0000 booted.1 booted.2).heap = some 0x3FFE0000 :=
  have h := (smart_pool_free_result sram quick_env 0x3FFE0000 booted.1 booted.2).1
    (by decide) (by decide)
  ⟨h.1, h.2.1, h.2.2.2 (by decide)⟩

/-- C21 fails as stated: `smart_pool_free(NULL)` returns false. -/
theorem smart_pool_free_null_is_false :
    (smart_pool_free quick_env 0 booted.1 booted.2).ok = false ∧
    (smart_pool_free quick_env 0 booted.1 booted.2).called = [] ∧
    (smart_pool_free quick_env 0 booted.1 booted.2).heap = none := by
  decide

/-- C22 (free scan stops at the owner): let `ptr` be a pointer whose header
lies in the region of pool `i` and carries the ALLOCATED tag and the id of
pool `i`, with pool `i` initialised, counting at least one allocated block
and its lock acquired, and with the pools before `i` carrying other ids. Then
`smart_pool_free(ptr)` returns true after asking the pools `0, ..., i` in
order, pool `i` accepts the pointer and its `allocated_blocks` decreases by
one, no pool after `i` is called or changed, and the external heap's free
operation is not invoked. -/
theorem smart_pool_free_stops_at_owner (e : SmartEnv) (ptr : Nat)
    (pools : List memory_pool_t) (mem : Mem) (i : Nat)
    (hi : i < POOL_COUNT) (hp : ptr ≠ 0)
    (hm : (pools.getD i zero_pool).mutex ≠ 0)
    (ht : (e.call i).took = true)
    (hlo : (pools.getD i zero_pool).pool_memory ≤ hdr_of_ptr ptr)
    (hhi : hdr_of_ptr ptr < (pools.getD i zero_pool).pool_memory +
      ((pools.getD i zero_pool).stride * (pools.getD i zero_pool).block_count) % SIZE_T_MOD)
    (hmg : (mem (hdr_of_ptr ptr)).magic = POOL_MAGIC_ALLOC)
    (hid : (mem (hdr_of_ptr ptr)).pool_id = (pools.getD i zero_pool).pool_id)
    (hcnt : 0 < (pools.getD i zero_pool).allocated_blocks)
    (hids : ∀ j, j < i →
      (pools.getD j zero_pool).pool_id ≠ (pools.getD i zero_pool).pool_id) :
    (smart_pool_free e ptr pools mem).ok = true ∧
    (pool_free (e.call i) (pools.getD i zero_pool) ptr mem).ok = true ∧
    (smart_pool_free e ptr pools mem).called = List.range (i + 1) ∧
    (smart_pool_free e ptr pools mem).heap = none ∧
    ((smart_pool_free e ptr pools mem).pools.getD i zero_pool).allocated_blocks + 1
      = (pools.getD i zero_pool).allocated_blocks ∧
    (∀ j, i < j →
      j ∉ (smart_pool_free e ptr pools mem).called ∧
      (smart_pool_free e ptr pools mem).pools.getD j zero_pool = pools.getD j zero_pool) := by
  have hacc : (pool_free (e.call i) (pools.getD i zero_pool) ptr mem).ok = true :=
    (pool_free_ok_iff _ _ _ _).2 ⟨hp, hm, ht, hlo, hhi, hmg, hid⟩
  have hrej : ∀ j, 0 ≤ j → j < i → accepts e pools ptr mem j = false := by
    intro j _ hj
    unfold accepts
    cases hok : (pool_free (e.call j) (pools.getD j zero_pool) ptr mem).ok with
    | false => rfl
    | true =>
      have h7 := ((pool_free_ok_iff _ _ _ _).1 hok).2.2.2.2.2.2
      rw [hid] at h7
      exact absurd h7.symm (hids j hj)
  have hloop : smart_pool_free e ptr pools mem
      = smart_free_loop e ptr POOL_COUNT 0 pools mem := by
    unfold smart_pool_free
    rw [if_neg hp]
  obtain ⟨c1, c2, c3, -, c5⟩ :=
    smart_free_loop_owner e ptr POOL_COUNT 0 pools mem i (Nat.zero_le _) (by omega) hrej hacc
  rw [hloop]
  have hcalled : (smart_free_loop e ptr POOL_COUNT 0 pools mem).called = List.range (i + 1) := by
    rw [c3, List.range_eq_range']
    rfl
  refine ⟨c1, hacc, hcalled, c2, ?_, ?_⟩
  · rw [c5 i, if_pos ⟨Nat.zero_le _, Nat.le_refl _⟩, pool_free_ok_eq _ _ _ _ hacc]
    show (if (pools.getD i zero_pool).allocated_blocks ≠ 0
      then (pools.getD i zero_pool).allocated_blocks - 1
      else (pools.getD i zero_pool).allocated_blocks) + 1 = _
    rw [if_pos (by omega)]
    omega
  · intro j hj
    constructor
    · rw [hcalled, List.mem_range]
      omega
    · rw [c5 j, if_neg (by omega)]

/-- Instance of `smart_pool_free_stops_at_owner`: the pointer that
`smart_pool_malloc(100)` took from the pool of 256-byte blocks. -/
theorem smart_pool_free_stops_at_owner_witness :
    (smart_pool_free quick_env routed_medium.out routed_medium.pools routed_medium.mem).ok
      = true ∧
    (smart_pool_free quick_env routed_medium.out routed_medium.pools
      routed_medium.mem).called = [0, 1] ∧
    (smart_pool_free quick_env routed_medium.out routed_medium.pools
      routed_medium.mem).heap = none :=
  have h := smart_pool_free_stops_at_owner quick_env routed_medium.out routed_medium.pools
    routed_medium.mem 1 (by decide) (by decide) (by decide) (by decide) (by decide)
    (by decide) (by decide) (by decide) (by decide) (by decide)
  ⟨h.1, h.2.2.1, h.2.2.2.1⟩

/-- C28 (heap free is never given a pool address) does not hold of the code:
on the booted registry, the pointer that `smart_pool_malloc(10)` took from
the pool of 64-byte blocks is freed once through `smart_pool_free`, which the
pool accepts; a second `smart_pool_free` of the same pointer is rejected by
all four pools and the pointer is passed to the external heap's free
operation, although its header lies inside the backing region of the pool of
64-byte blocks. The same happens at the first free when the locks time
out. -/
theorem double_free_reaches_heap :
    routed_small.called = [0] ∧ routed_small.out ≠ 0 ∧
    freed_once.ok = true ∧ freed_once.called = [0] ∧ freed_once.heap = none ∧
    (smart_pool_free quick_env routed_small.out freed_once.pools freed_once.mem).ok = true ∧
    (smart_pool_free quick_env routed_small.out freed_once.pools freed_once.mem).called
      = [0, 1, 2, 3] ∧
    (smart_pool_free quick_env routed_small.out freed_once.pools freed_once.mem).heap
      = some routed_small.out ∧
    (freed_once.pools.getD 0 zero_pool).mutex ≠ 0 ∧
    (freed_once.pools.getD 0 zero_pool).pool_memory ≤ hdr_of_ptr routed_small.out ∧
    hdr_of_ptr routed_small.out < (freed_once.pools.getD 0 zero_pool).pool_memory +
      ((freed_once.pools.getD 0 zero_pool).stride *
        (freed_once.pools.getD 0 zero_pool).block_count) % SIZE_T_MOD ∧
    (smart_pool_free late_env routed_small.out routed_small.pools routed_small.mem).heap
      = some routed_small.out := by
  decide

/-- C27 (returned pool slots are large enough) does not hold of the code:
for the request size `2 ^ 32 - 16` the sum `size + 16` wraps to 0, the pool
of 64-byte blocks fits the need, and `smart_pool_malloc` returns one of its
slots, whose block size is far below the requested size. -/
theorem smart_pool_malloc_need_wraps :
    (4294967280 + 16) % SIZE_T_MOD = 0 ∧
    4294967280 < SIZE_T_MOD ∧
    (smart_pool_malloc quick_env 4294967280 booted.1 booted.2).out ≠ 0 ∧
    (smart_pool_malloc quick_env 4294967280 booted.1 booted.2).called = [0] ∧
    (smart_pool_malloc quick_env 4294967280 booted.1 booted.2).heap = none ∧
    (smart_pool_malloc quick_env 4294967280 booted.1 booted.2).out
      = (pool_malloc quick_call (booted.1.getD 0 zero_pool) booted.2).out ∧
    (booted.1.getD 0 zero_pool).block_size = 64 ∧
    (booted.1.getD 0 zero_pool).block_size < 4294967280 := by
  decide

/-! ## The state invariant of a pool -/

theorem PoolInv.slot_lt {pool : memory_pool_t} {mem : Mem} {l : List Nat}
    (h : PoolInv pool mem l) {i : Nat} (hi : i < pool.block_count) :
    pool.pool_memory + i * pool.stride < pool.pool_memory + pool.stride * pool.block_count := by
  have h1 : (i + 1) * pool.stride ≤ pool.block_count * pool.stride :=
    Nat.mul_le_mul_right _ hi
  have h2 := h.pos
  rw [Nat.add_mul, Nat.one_mul, Nat.mul_comm pool.block_count] at h1
  omega

theorem PoolInv.region_mod {pool : memory_pool_t} {mem : Mem} {l : List Nat}
    (h : PoolInv pool mem l) :
    (pool.stride * pool.block_count) % SIZE_T_MOD = pool.stride * pool.block_count := by
  apply Nat.mod_eq_of_lt
  have h1 := h.fits
  have h2 : 0 < pool.pool_memory := Nat.pos_of_ne_zero h.base
  omega

theorem PoolInv.slot_index {pool : memory_pool_t} {mem : Mem} {l : List Nat}
    (h : PoolInv pool mem l) {i : Nat} (hi : i < pool.block_count) :
    size_sub (pool.pool_memory + i * pool.stride) pool.pool_memory / pool.stride = i := by
  have h1 := h.slot_lt hi
  have h2 := h.fits
  rw [size_sub_of_le (Nat.le_add_right _ _) (by omega), Nat.add_sub_cancel_left,
    Nat.mul_div_cancel _ h.pos]

theorem PoolInv.slot_inj {pool : memory_pool_t} {mem : Mem} {l : List Nat}
    (h : PoolInv pool mem l) {i j : Nat}
    (hij : pool.pool_memory + i * pool.stride = pool.pool_memory + j * pool.stride) :
    i = j :=
  Nat.eq_of_mul_eq_mul_right h.pos (Nat.add_left_cancel hij)

theorem PoolInv.byte_index {pool : memory_pool_t} {mem : Mem} {l : List Nat}
    (h : PoolInv pool mem l) {i : Nat} (hi : i < pool.block_count) :
    i / 8 < pool.bitmap.length := by
  have := h.bmlen
  rw [Nat.div_lt_iff_lt_mul (by decide)]
  omega

theorem getD_byte_lt (bm : List Nat) (hb : ∀ b ∈ bm, b < 256) (k : Nat) :
    bm.getD k 0 < 256 := by
  by_cases hk : k < bm.length
  · rw [List.getD_eq_getElem _ _ hk]
    exact hb _ (List.getElem_mem _)
  · rw [List.getD_eq_default _ _ (by omega)]
    decide

theorem bitmap_set_length (bm : List Nat) (i : Nat) : (bitmap_set bm i).length = bm.length := by
  simp [bitmap_set]

theorem bitmap_clear_length (bm : List Nat) (i : Nat) :
    (bitmap_clear bm i).length = bm.length := by
  simp [bitmap_clear]

theorem bitmap_set_bytes (bm : List Nat) (hb : ∀ b ∈ bm, b < 256) (i : Nat) :
    ∀ b ∈ bitmap_set bm i, b < 256 := by
  intro b hmem
  unfold bitmap_set at hmem
  rcases List.mem_or_eq_of_mem_set hmem with h | h
  · exact hb b h
  · rw [h]
    exact Nat.or_lt_two_pow (n := 8) (getD_byte_lt bm hb _) (Nat.mod_lt _ (by decide))

theorem bitmap_clear_bytes (bm : List Nat) (hb : ∀ b ∈ bm, b < 256) (i : Nat) :
    ∀ b ∈ bitmap_clear bm i, b < 256 := by
  intro b hmem
  unfold bitmap_clear at hmem
  rcases List.mem_or_eq_of_mem_set hmem with h | h
  · exact hb b h
  · rw [h]
    exact Nat.lt_of_le_of_lt Nat.and_le_left (getD_byte_lt bm hb _)

/-- A pool that differs only in fields the invariant does not read satisfies
the same invariant. -/
theorem PoolInv.of_fields {pool pool2 : memory_pool_t} {mem : Mem} {l : List Nat}
    (h : PoolInv pool mem l)
    (h1 : pool2.pool_memory = pool.pool_memory) (h2 : pool2.block_size = pool.block_size)
    (h3 : pool2.alignment = pool.alignment) (h4 : pool2.block_count = pool.block_count)
    (h5 : pool2.bitmap = pool.bitmap) (h6 : pool2.free_list = pool.free_list)
    (h7 : pool2.pool_id = pool.pool_id) (h8 : pool2.allocated_blocks = pool.allocated_blocks)
    (h9 : pool2.peak_usage = pool.peak_usage) : PoolInv pool2 mem l := by
  have hs : pool2.stride = pool.stride := by
    unfold memory_pool_t.stride
    rw [h2, h3]
  constructor
  · rw [h1]; exact h.base
  · rw [hs]; exact h.pos
  · rw [h1, hs, h4]; exact h.fits
  · rw [h4, h5]; exact h.bmlen
  · rw [h5]; exact h.bytes
  · rw [h6]; exact h.chain
  · exact h.nodup
  · rw [h1, hs, h4]; exact h.slots
  · rw [h1, hs, h4, h5, h7]; exact h.tags
  · rw [h8, h4]; exact h.count
  · rw [h8, h9, h4]; exact h.peak

/-- The invariant is kept by `pool_malloc`: either the call returns null and
the free list is as before, or it returns the payload of the head of the
free list, which leaves the list. -/
theorem PoolInv.malloc {pool : memory_pool_t} {mem : Mem} {l : List Nat}
    (h : PoolInv pool mem l) (c : CallEnv) :
    ((pool_malloc c pool mem).out = 0 ∧
      PoolInv (pool_malloc c pool mem).pool (pool_malloc c pool mem).mem l) ∨
    (∃ a l2, l = a :: l2 ∧ pool.free_list = a ∧ (pool_malloc c pool mem).out = a + HDR_SIZE ∧
      PoolInv (pool_malloc c pool mem).pool (pool_malloc c pool mem).mem l2) := by
  by_cases hm : pool.mutex = 0
  · rw [pool_malloc_no_mutex c pool mem hm]
    exact Or.inl ⟨rfl, h⟩
  by_cases ht : c.took = true
  swap
  · rw [pool_malloc_timeout_eq c pool mem hm (by simpa using ht)]
    exact Or.inl ⟨rfl, h.of_fields rfl rfl rfl rfl rfl rfl rfl rfl rfl⟩
  cases l with
  | nil =>
    have hf : pool.free_list = 0 := h.chain
    rw [pool_malloc_exhausted c pool mem hm ht hf]
    exact Or.inl ⟨rfl, h.of_fields rfl rfl rfl rfl rfl rfl rfl rfl rfl⟩
  | cons a l2 =>
    obtain ⟨hfa, ha0, hch⟩ := h.chain
    obtain ⟨i, hi, hai⟩ := h.slots a (List.mem_cons_self _ _)
    have hnd := List.nodup_cons.1 h.nodup
    have htag := h.tags i hi
    rw [← hai] at htag
    obtain ⟨hid, hcase⟩ := htag
    have hfree : a ∈ a :: l2 ∧ (mem a).magic = POOL_MAGIC_FREE ∧ bitmap_bit pool.bitmap i = false := by
      rcases hcase with hc | hc
      · exact hc
      · exact absurd (List.mem_cons_self _ _) hc.1
    have hv : ValidFree mem pool pool.free_list := by
      rw [hfa]
      exact ⟨hfree.2.1, hid⟩
    have hidx : size_sub pool.free_list pool.pool_memory / pool.stride = i := by
      rw [hfa, hai]
      exact h.slot_index hi
    right
    refine ⟨a, l2, rfl, hfa, ?_, ?_⟩
    · rw [pool_malloc_ok_eq c pool mem hm ht (by rw [hfa]; exact ha0) hv, hfa]
    rw [pool_malloc_ok_eq c pool mem hm ht (by rw [hfa]; exact ha0) hv, hidx, if_pos hi, hfa]
    have hlen := h.count
    have hpk := h.peak
    simp only [List.length_cons] at hlen
    constructor
    · exact h.base
    · exact h.pos
    · exact h.fits
    · show pool.block_count ≤ 8 * (bitmap_set pool.bitmap i).length
      rw [bitmap_set_length]
      exact h.bmlen
    · exact bitmap_set_bytes _ h.bytes i
    · show IsFreeList _ (mem a).next l2
      refine IsFreeList.congr ?_ hch
      intro b hb
      exact Mem.write_other _ _ _ _ (fun hba => hnd.1 (hba ▸ hb))
    · exact hnd.2
    · intro b hb
      exact h.slots b (List.mem_cons_of_mem _ hb)
    · intro j hj
      show ((mem.write a _) (pool.pool_memory + j * pool.stride)).pool_id = pool.pool_id ∧
        ((pool.pool_memory + j * pool.stride ∈ l2 ∧
          ((mem.write a _) (pool.pool_memory + j * pool.stride)).magic = POOL_MAGIC_FREE ∧
          bitmap_bit (bitmap_set pool.bitmap i) j = false) ∨
         (pool.pool_memory + j * pool.stride ∉ l2 ∧
          ((mem.write a _) (pool.pool_memory + j * pool.stride)).magic = POOL_MAGIC_ALLOC ∧
          bitmap_bit (bitmap_set pool.bitmap i) j = true))
      rw [bitmap_bit_set _ _ _ (h.byte_index hi)]
      by_cases hji : j = i
      · subst hji
        rw [← hai, Mem.write_same]
        refine ⟨hid, Or.inr ⟨hnd.1, rfl, by simp⟩⟩
      · have hne : pool.pool_memory + j * pool.stride ≠ a := by
          rw [hai]
          exact fun he => hji (h.slot_inj he)
        rw [Mem.write_other _ _ _ _ hne]
        obtain ⟨t1, t2⟩ := h.tags j hj
        refine ⟨t1, ?_⟩
        rcases t2 with ⟨u1, u2, u3⟩ | ⟨u1, u2, u3⟩
        · left
          refine ⟨?_, u2, by simp [hji, u3]⟩
          rcases List.mem_cons.1 u1 with u | u
          · exact absurd u hne
          · exact u
        · right
          exact ⟨fun hin => u1 (List.mem_cons_of_mem _ hin), u2, by simp [u3]⟩
    · show pool.allocated_blocks + 1 + l2.length = pool.block_count
      omega
    · show pool.allocated_blocks + 1 ≤
          (if pool.allocated_blocks + 1 > pool.peak_usage then pool.allocated_blocks + 1
            else pool.peak_usage) ∧
        (if pool.allocated_blocks + 1 > pool.peak_usage then pool.allocated_blocks + 1
            else pool.peak_usage) ≤ pool.block_count
      split <;> omega

/-- A slot that is not on the free list leaves the list shorter than the
number of slots. -/
theorem PoolInv.length_lt {pool : memory_pool_t} {mem : Mem} {l : List Nat}
    (h : PoolInv pool mem l) {i : Nat} (hi : i < pool.block_count)
    (hni : pool.pool_memory + i * pool.stride ∉ l) : l.length < pool.block_count := by
  have hsub : l ⊆ ((List.range pool.block_count).erase i).map
      (fun j => pool.pool_memory + j * pool.stride) := by
    intro a ha
    obtain ⟨j, hj, haj⟩ := h.slots a ha
    have hji : j ≠ i := by
      intro he
      rw [he] at haj
      exact hni (haj ▸ ha)
    exact List.mem_map.2 ⟨j, (List.mem_erase_of_ne hji).2 (List.mem_range.2 hj), haj.symm⟩
  have hle := (List.subperm_of_subset h.nodup hsub).length_le
  rw [List.length_map, List.length_erase_of_mem (List.mem_range.2 hi), List.length_range] at hle
  omega

/-- A `slot_pointer` whose header address lies in the region points at the
payload of a slot. -/
theorem slot_pointer_slot {p stride count ptr : Nat}
    (h : slot_pointer p stride count ptr = true) (hp : ptr ≠ 0) (hlo : p ≤ hdr_of_ptr ptr)
    (hhi : hdr_of_ptr ptr < p + stride * count) :
    ∃ i, i < count ∧ hdr_of_ptr ptr = p + i * stride := by
  unfold slot_pointer at h
  simp only [Bool.or_eq_true, decide_eq_true_eq] at h
  rcases h with ((h | h) | h) | h
  · exact absurd h hp
  · omega
  · omega
  · have hdm := Nat.div_add_mod (hdr_of_ptr ptr - p) stride
    rw [h, Nat.add_zero] at hdm
    refine ⟨(hdr_of_ptr ptr - p) / stride, ?_, ?_⟩
    · have hlt : stride * ((hdr_of_ptr ptr - p) / stride) < stride * count := by omega
      exact Nat.lt_of_mul_lt_mul_left hlt
    · rw [Nat.mul_comm]
      omega

/-- The invariant is kept by a `pool_free` of a `slot_pointer`: either the
call returns false and the free list is as before, or it returns true, the
header of the pointer is a slot start that was off the free list, and it
becomes the head of the list. -/
theorem PoolInv.free {pool : memory_pool_t} {mem : Mem} {l : List Nat}
    (h : PoolInv pool mem l) (c : CallEnv) (ptr : Nat)
    (hptr : slot_pointer pool.pool_memory pool.stride pool.block_count ptr = true) :
    ((pool_free c pool ptr mem).ok = false ∧
      PoolInv (pool_free c pool ptr mem).pool (pool_free c pool ptr mem).mem l) ∨
    ((pool_free c pool ptr mem).ok = true ∧ hdr_of_ptr ptr ∉ l ∧
      (∃ i, i < pool.block_count ∧ hdr_of_ptr ptr = pool.pool_memory + i * pool.stride) ∧
      0 < pool.allocated_blocks ∧
      PoolInv (pool_free c pool ptr mem).pool (pool_free c pool ptr mem).mem
        (hdr_of_ptr ptr :: l)) := by
  cases hok : (pool_free c pool ptr mem).ok with
  | false =>
    left
    refine ⟨rfl, ?_⟩
    by_cases hp : ptr = 0
    · have : pool_free c pool ptr mem = { ok := false, led := none, pool := pool, mem := mem } := by
        simp [pool_free, hp]
      rw [this]
      exact h
    by_cases hm : pool.mutex = 0
    · rw [pool_free_no_mutex c pool ptr mem hm]
      exact h
    obtain ⟨e1, e2⟩ := pool_free_fail_state c pool ptr mem hp hm hok
    rw [e1, e2]
    exact h.of_fields rfl rfl rfl rfl rfl rfl rfl rfl rfl
  | true =>
    right
    obtain ⟨hp, hm, ht, hlo, hhi, hmg, hid⟩ := (pool_free_ok_iff c pool ptr mem).1 hok
    rw [h.region_mod] at hhi
    obtain ⟨i, hi, hai⟩ := slot_pointer_slot hptr hp hlo hhi
    have htag := (h.tags i hi).2
    rw [← hai] at htag
    have hfree : POOL_MAGIC_FREE ≠ POOL_MAGIC_ALLOC := by decide
    have hnot : hdr_of_ptr ptr ∉ l := by
      rcases htag with ⟨-, u2, -⟩ | ⟨u1, -, -⟩
      · rw [hmg] at u2
        exact absurd u2.symm hfree
      · exact u1
    have hlen : l.length < pool.block_count := h.length_lt hi (hai ▸ hnot)
    have hcount := h.count
    have hpk := h.peak
    have hpos : 0 < pool.allocated_blocks := by omega
    have hidx : size_sub (hdr_of_ptr ptr) pool.pool_memory / pool.stride = i := by
      rw [hai]
      exact h.slot_index hi
    have ha0 : hdr_of_ptr ptr ≠ 0 := by
      have := Nat.pos_of_ne_zero h.base
      omega
    refine ⟨rfl, hnot, ⟨i, hi, hai⟩, hpos, ?_⟩
    rw [pool_free_ok_eq c pool ptr mem hok, hidx, if_pos (by omega)]
    constructor
    · exact h.base
    · exact h.pos
    · exact h.fits
    · show pool.block_count ≤ 8 * (bitmap_clear pool.bitmap i).length
      rw [bitmap_clear_length]
      exact h.bmlen
    · exact bitmap_clear_bytes _ h.bytes i
    · show IsFreeList (mem.write (hdr_of_ptr ptr) _) (hdr_of_ptr ptr) (hdr_of_ptr ptr :: l)
      refine ⟨rfl, ha0, ?_⟩
      rw [Mem.write_same]
      refine IsFreeList.congr ?_ h.chain
      intro b hb
      exact Mem.write_other _ _ _ _ (fun hba => hnot (hba ▸ hb))
    · exact List.nodup_cons.2 ⟨hnot, h.nodup⟩
    · intro b hb
      rcases List.mem_cons.1 hb with hb | hb
      · exact ⟨i, hi, hb.trans hai⟩
      · exact h.slots b hb
    · intro j hj
      show ((mem.write (hdr_of_ptr ptr) _) (pool.pool_memory + j * pool.stride)).pool_id
          = pool.pool_id ∧
        ((pool.pool_memory + j * pool.stride ∈ hdr_of_ptr ptr :: l ∧
          ((mem.write (hdr_of_ptr ptr) _) (pool.pool_memory + j * pool.stride)).magic
            = POOL_MAGIC_FREE ∧
          bitmap_bit (bitmap_clear pool.bitmap i) j = false) ∨
         (pool.pool_memory + j * pool.stride ∉ hdr_of_ptr ptr :: l ∧
          ((mem.write (hdr_of_ptr ptr) _) (pool.pool_memory + j * pool.stride)).magic
            = POOL_MAGIC_ALLOC ∧
          bitmap_bit (bitmap_clear pool.bitmap i) j = true))
      rw [bitmap_bit_clear]
      by_cases hji : j = i
      · subst hji
        rw [← hai, Mem.write_same]
        exact ⟨hid, Or.inl ⟨List.mem_cons_self _ _, rfl, by simp⟩⟩
      · have hne : pool.pool_memory + j * pool.stride ≠ hdr_of_ptr ptr := by
          rw [hai]
          exact fun he => hji (h.slot_inj he)
        rw [Mem.write_other _ _ _ _ hne]
        obtain ⟨t1, t2⟩ := h.tags j hj
        refine ⟨t1, ?_⟩
        rcases t2 with ⟨u1, u2, u3⟩ | ⟨u1, u2, u3⟩
        · left
          exact ⟨List.mem_cons_of_mem _ u1, u2, by simp [u3]⟩
        · right
          refine ⟨?_, u2, by simp [hji, u3]⟩
          intro hin
          rcases List.mem_cons.1 hin with u | u
          · exact hne u
          · exact u1 u
    · show pool.allocated_blocks - 1 + (l.length + 1) = pool.block_count
      omega
    · show pool.allocated_blocks - 1 ≤ pool.peak_usage ∧ pool.peak_usage ≤ pool.block_count
      omega

/-- Under the invariant the number of set bits among the first `block_count`
bits of the bitmap is `allocated_blocks`. -/
theorem PoolInv.set_bits {pool : memory_pool_t} {mem : Mem} {l : List Nat}
    (h : PoolInv pool mem l) :
    (List.range pool.block_count).countP (fun i => bitmap_bit pool.bitmap i)
      = pool.allocated_blocks := by
  have hsplit := List.length_eq_countP_add_countP
    (fun i => decide (pool.pool_memory + i * pool.stride ∈ l)) (List.range pool.block_count)
  have hbits : (List.range pool.block_count).countP (fun i => bitmap_bit pool.bitmap i)
      = (List.range pool.block_count).countP
          (fun i => decide ¬ (decide (pool.pool_memory + i * pool.stride ∈ l) = true)) := by
    apply List.countP_congr
    intro i hi
    rcases (h.tags i (List.mem_range.1 hi)).2 with ⟨u1, -, u3⟩ | ⟨u1, -, u3⟩
    · simp [u1, u3]
    · simp [u1, u3]
  have hfree : (List.range pool.block_count).countP
      (fun i => decide (pool.pool_memory + i * pool.stride ∈ l)) = l.length := by
    rw [List.countP_eq_length_filter, ← List.length_map _
      (fun j => pool.pool_memory + j * pool.stride)]
    apply List.Perm.length_eq
    rw [List.perm_ext_iff_of_nodup _ h.nodup]
    · intro a
      constructor
      · intro ha
        obtain ⟨j, hj, rfl⟩ := List.mem_map.1 ha
        simpa using (List.mem_filter.1 hj).2
      · intro ha
        obtain ⟨j, hj, haj⟩ := h.slots a ha
        refine List.mem_map.2 ⟨j, List.mem_filter.2 ⟨List.mem_range.2 hj, ?_⟩, haj.symm⟩
        rw [← haj]
        simpa using ha
    · refine List.Nodup.map_on ?_ ((List.nodup_range _).filter _)
      intro x _ y _ hxy
      exact h.slot_inj hxy
  have hcount := h.count
  rw [List.length_range] at hsplit
  rw [hbits]
  omega

/-- The threading loop of `try_init_pool` writes slot starts only. -/
theorem init_free_list_frame (mem : Mem) (p stride pool_id : Nat) (a : Nat) :
    ∀ count : Nat, (∀ i, i < count → a ≠ slot_addr p stride i) →
      (init_free_list mem p stride pool_id count).1 a = mem a
  | 0, _ => rfl
  | count + 1, h => by
    rw [init_free_list_succ]
    unfold init_step
    show (Mem.write _ (p + (count * stride) % SIZE_T_MOD) _) a = mem a
    have hne : a ≠ p + (count * stride) % SIZE_T_MOD := h count (Nat.lt_succ_self _)
    rw [Mem.write_other _ _ _ _ hne]
    exact init_free_list_frame mem p stride pool_id a count
      (fun i hi => h i (Nat.lt_succ_of_lt hi))

/-- Further fields of the pool that a successful `try_init_pool` leaves. -/
theorem try_init_pool_ok_fields (e : InitEnv) (cfg : pool_config_t) (pool_id block_count : Nat)
    (mem : Mem) (h : (try_init_pool e cfg pool_id block_count mem).ok = true) :
    (try_init_pool e cfg pool_id block_count mem).pool.peak_usage = 0 ∧
    (try_init_pool e cfg pool_id block_count mem).pool.bitmap
      = List.replicate (((block_count + 7) % SIZE_T_MOD) / 8) 0 ∧
    (try_init_pool e cfg pool_id block_count mem).pool.block_size = cfg.block_size ∧
    (try_init_pool e cfg pool_id block_count mem).pool.alignment = 4 := by
  unfold try_init_pool at h ⊢
  simp only at h ⊢
  split at h
  · simp at h
  · rename_i h1
    rw [if_neg h1]
    split at h
    · simp at h
    · rename_i h2
      rw [if_neg h2]
      split at h
      · simp at h
      · rename_i h3
        rw [if_neg h3]
        exact ⟨rfl, rfl, rfl, rfl⟩

/-- A freshly initialised pool satisfies the invariant, with every slot on
the free list. -/
theorem FreshPool.inv {e : InitEnv} {cfg : pool_config_t} {pool_id block_count : Nat}
    {mem : Mem} (hf : FreshPool e cfg pool_id block_count mem) :
    PoolInv (fresh_state e cfg pool_id block_count mem).1
      (fresh_state e cfg pool_id block_count mem).2
      (slots_desc (try_init_pool e cfg pool_id block_count mem).pool.pool_memory
        (stride_of cfg.block_size 4) block_count) := by
  obtain ⟨hok, hbs, hreg⟩ := hf
  obtain ⟨hpm, -, hid, hcount, hstr, -, halloc, hfl, hmem⟩ :=
    try_init_pool_ok e cfg pool_id block_count mem hok
  obtain ⟨hpeak, hbm, -, -⟩ := try_init_pool_ok_fields e cfg pool_id block_count mem hok
  obtain ⟨-, s2, -⟩ := stride_of_four cfg.block_size hbs
  have hs : 0 < stride_of cfg.block_size 4 := by
    unfold HDR_SIZE at s2
    omega
  have hpos := Nat.pos_of_ne_zero hpm
  have hfit : stride_of cfg.block_size 4 * block_count < SIZE_T_MOD := by omega
  obtain ⟨l1, l2, l3⟩ := try_init_pool_free_list e cfg pool_id block_count mem hok hs hfit
  have hn : block_count + 7 < SIZE_T_MOD := by
    have h24 : 24 * block_count ≤ stride_of cfg.block_size 4 * block_count :=
      Nat.mul_le_mul_right _ (by unfold HDR_SIZE at s2; omega)
    unfold SIZE_T_MOD at *
    omega
  show PoolInv (try_init_pool e cfg pool_id block_count mem).pool
    (try_init_pool e cfg pool_id block_count mem).mem _
  constructor
  · exact hpm
  · rw [hstr]; exact hs
  · rw [hstr, hcount]; exact hreg
  · rw [hcount, hbm, List.length_replicate, Nat.mod_eq_of_lt hn]
    omega
  · rw [hbm]
    intro b hb
    rw [List.eq_of_mem_replicate hb]
    decide
  · exact l1
  · exact l2
  · intro a ha
    obtain ⟨i, hi, hai⟩ := mem_slots_desc.1 ha
    rw [hstr, hcount]
    exact ⟨i, hi, by rw [hai, slot_addr_eq hfit (Nat.le_of_lt hi)]⟩
  · intro i hi
    rw [hcount] at hi
    rw [hstr, hbm]
    have hin : (try_init_pool e cfg pool_id block_count mem).pool.pool_memory
        + i * stride_of cfg.block_size 4 ∈
        slots_desc (try_init_pool e cfg pool_id block_count mem).pool.pool_memory
          (stride_of cfg.block_size 4) block_count :=
      mem_slots_desc.2 ⟨i, hi, by rw [slot_addr_eq hfit (Nat.le_of_lt hi)]⟩
    obtain ⟨v1, v2⟩ := l3 _ hin
    exact ⟨v2, Or.inl ⟨hin, v1, bitmap_bit_replicate _ _⟩⟩
  · rw [halloc, hcount, slots_desc_length]
    omega
  · rw [halloc, hpeak]
    exact ⟨Nat.le_refl _, Nat.zero_le _⟩

/-- No call changes the geometry, the id or the mutex of a pool. -/
theorem pool_step_frame (op : PoolOp) (s : memory_pool_t × Mem) :
    (pool_step op s).1.block_count = s.1.block_count ∧
    (pool_step op s).1.pool_memory = s.1.pool_memory ∧
    (pool_step op s).1.block_size = s.1.block_size ∧
    (pool_step op s).1.alignment = s.1.alignment ∧
    (pool_step op s).1.pool_id = s.1.pool_id ∧
    (pool_step op s).1.mutex = s.1.mutex := by
  cases op with
  | malloc c =>
    simp only [pool_step, pool_malloc]
    split_ifs <;> exact ⟨rfl, rfl, rfl, rfl, rfl, rfl⟩
  | free c ptr =>
    simp only [pool_step, pool_free]
    split_ifs <;> exact ⟨rfl, rfl, rfl, rfl, rfl, rfl⟩

theorem pool_run_frame : ∀ (ops : List PoolOp) (s : memory_pool_t × Mem),
    (pool_run ops s).1.block_count = s.1.block_count ∧
    (pool_run ops s).1.pool_memory = s.1.pool_memory ∧
    (pool_run ops s).1.block_size = s.1.block_size ∧
    (pool_run ops s).1.alignment = s.1.alignment ∧
    (pool_run ops s).1.pool_id = s.1.pool_id ∧
    (pool_run ops s).1.mutex = s.1.mutex
  | [], _ => ⟨rfl, rfl, rfl, rfl, rfl, rfl⟩
  | op :: ops, s => by
    obtain ⟨a1, a2, a3, a4, a5, a6⟩ := pool_run_frame ops (pool_step op s)
    obtain ⟨b1, b2, b3, b4, b5, b6⟩ := pool_step_frame op s
    exact ⟨a1.trans b1, a2.trans b2, a3.trans b3, a4.trans b4, a5.trans b5, a6.trans b6⟩

theorem pool_step_stride (op : PoolOp) (s : memory_pool_t × Mem) :
    (pool_step op s).1.stride = s.1.stride := by
  obtain ⟨-, -, a3, a4, -, -⟩ := pool_step_frame op s
  unfold memory_pool_t.stride
  rw [a3, a4]

/-- The invariant is kept by every sequence of `pool_malloc` calls and of
`pool_free` calls on slot pointers. -/
theorem PoolInv.run : ∀ (ops : List PoolOp) {s : memory_pool_t × Mem} {l : List Nat},
    PoolInv s.1 s.2 l →
    slot_ops s.1.pool_memory s.1.stride s.1.block_count ops = true →
    ∃ l2, PoolInv (pool_run ops s).1 (pool_run ops s).2 l2
  | [], _, l, h, _ => ⟨l, h⟩
  | PoolOp.malloc c :: ops, s, l, h, hops => by
    have hrest : slot_ops s.1.pool_memory s.1.stride s.1.block_count ops = true := hops
    obtain ⟨a1, a2, -, -, -, -⟩ := pool_step_frame (PoolOp.malloc c) s
    have a3 := pool_step_stride (PoolOp.malloc c) s
    rw [← a1, ← a2, ← a3] at hrest
    rcases h.malloc c with ⟨-, h2⟩ | ⟨a, l2, -, -, -, h2⟩
    · exact PoolInv.run ops (s := pool_step (PoolOp.malloc c) s) h2 hrest
    · exact PoolInv.run ops (s := pool_step (PoolOp.malloc c) s) h2 hrest
  | PoolOp.free c ptr :: ops, s, l, h, hops => by
    have hboth : (slot_pointer s.1.pool_memory s.1.stride s.1.block_count ptr
        && slot_ops s.1.pool_memory s.1.stride s.1.block_count ops) = true := hops
    rw [Bool.and_eq_true] at hboth
    obtain ⟨hptr, hrest⟩ := hboth
    obtain ⟨a1, a2, -, -, -, -⟩ := pool_step_frame (PoolOp.free c ptr) s
    have a3 := pool_step_stride (PoolOp.free c ptr) s
    rw [← a1, ← a2, ← a3] at hrest
    rcases h.free c ptr hptr with ⟨-, h2⟩ | ⟨-, -, -, -, h2⟩
    · exact PoolInv.run ops (s := pool_step (PoolOp.free c ptr) s) h2 hrest
    · exact PoolInv.run ops (s := pool_step (PoolOp.free c ptr) s) h2 hrest

/-- Setting and then clearing a bit that was clear gives the byte back. -/
theorem byte_clear_set (b t : Nat) (hb : b < 256) (ht : t < 8) (hbit : b.testBit t = false) :
    (b ||| (1 <<< t) % 256) &&& (255 - (1 <<< t) % 256) = b := by
  apply Nat.eq_of_testBit_eq
  intro j
  rw [Nat.testBit_and, Nat.testBit_or]
  by_cases hj : j < 8
  · have h1 := set_mask_testBit ⟨t, ht⟩ ⟨j, hj⟩
    have h2 := clear_mask_testBit ⟨t, ht⟩ ⟨j, hj⟩
    simp only [Fin.mk.injEq, ne_eq] at h1 h2
    rw [h1, h2]
    by_cases hjt : j = t
    · subst hjt
      simp [hbit]
    · simp [hjt]
  · have hb2 : b.testBit j = false :=
      Nat.testBit_lt_two_pow (Nat.lt_of_lt_of_le (show b < 2 ^ 8 from hb)
        (Nat.pow_le_pow_right (n := 2) (by decide) (by omega : 8 ≤ j)))
    have hc : (255 - (1 <<< t) % 256).testBit j = false :=
      Nat.testBit_lt_two_pow (Nat.lt_of_lt_of_le
        (show 255 - (1 <<< t) % 256 < 2 ^ 8 from by omega)
        (Nat.pow_le_pow_right (n := 2) (by decide) (by omega : 8 ≤ j)))
    rw [hb2, hc]
    simp

/-- Storing back the byte that is there leaves the bitmap as it is. -/
theorem set_getD_self : ∀ (l : List Nat) (k : Nat), l.set k (l.getD k 0) = l
  | [], _ => rfl
  | _ :: _, 0 => rfl
  | a :: l, k + 1 => by
    show a :: l.set k (l.getD k 0) = a :: l
    rw [set_getD_self l k]

/-- Setting and then clearing a bit that was clear gives the bitmap back. -/
theorem bitmap_clear_set (bm : List Nat) (hb : ∀ b ∈ bm, b < 256) (i : Nat)
    (hbit : bitmap_bit bm i = false) : bitmap_clear (bitmap_set bm i) i = bm := by
  unfold bitmap_bit at hbit
  unfold bitmap_clear bitmap_set
  by_cases hk : i >>> 3 < bm.length
  · have hget : (bm.set (i >>> 3) (bm.getD (i >>> 3) 0 ||| (1 <<< (i &&& 7)) % 256)).getD
        (i >>> 3) 0 = bm.getD (i >>> 3) 0 ||| (1 <<< (i &&& 7)) % 256 := by
      simp [List.getD_eq_getElem?_getD, hk]
    have ht : i &&& 7 < 8 := Nat.and_lt_two_pow i (n := 3) (by decide)
    have hbyte := byte_clear_set (bm.getD (i >>> 3) 0) (i &&& 7) (getD_byte_lt bm hb _) ht hbit
    rw [hget, List.set_set, hbyte, set_getD_self]
  · simp only [List.set_eq_of_length_le (Nat.le_of_not_lt hk)]

/-- The chain predicate reads the `next` links only. -/
theorem IsFreeList.congr_next {mem mem2 : Mem} : ∀ {head : Nat} {l : List Nat},
    (∀ a ∈ l, (mem2 a).next = (mem a).next) → IsFreeList mem head l → IsFreeList mem2 head l
  | _, [], _, h => h
  | _, a :: l, hm, h => by
    obtain ⟨h1, h2, h3⟩ := h
    refine ⟨h1, h2, ?_⟩
    rw [hm a (List.mem_cons_self a l)]
    exact IsFreeList.congr_next (fun b hb => hm b (List.mem_cons_of_mem a hb)) h3

/-- Under the invariant, a successful `pool_malloc` followed by a `pool_free`
of the returned pointer (lock acquired) restores the pool up to the two
operation counters, the peak and the latency totals, and restores memory up
to the time stamp of the slot. -/
theorem PoolInv.round_trip {pool : memory_pool_t} {mem : Mem} {l : List Nat}
    (h : PoolInv pool mem l) (c c2 : CallEnv)
    (hout : (pool_malloc c pool mem).out ≠ 0) (ht2 : c2.took = true) :
    (pool_free c2 (pool_malloc c pool mem).pool (pool_malloc c pool mem).out
      (pool_malloc c pool mem).mem).ok = true ∧
    (pool_free c2 (pool_malloc c pool mem).pool (pool_malloc c pool mem).out
      (pool_malloc c pool mem).mem).pool =
      { pool with
        total_allocations := pool.total_allocations + 1,
        total_deallocations := pool.total_deallocations + 1,
        peak_usage := if pool.allocated_blocks + 1 > pool.peak_usage
          then pool.allocated_blocks + 1 else pool.peak_usage,
        allocation_time_total := pool.allocation_time_total + (c.t1 - c.t0),
        deallocation_time_total := pool.deallocation_time_total + (c2.t1 - c2.t0) } ∧
    (pool_free c2 (pool_malloc c pool mem).pool (pool_malloc c pool mem).out
      (pool_malloc c pool mem).mem).mem =
      mem.write pool.free_list { (mem pool.free_list) with alloc_time := c.t_stamp } := by
  obtain ⟨hm, ht, hf, hv⟩ := (pool_malloc_out_ne_zero_iff c pool mem).1 hout
  cases l with
  | nil => exact absurd h.chain hf
  | cons a l2 =>
    obtain ⟨hfa, ha0, hch⟩ := h.chain
    obtain ⟨i, hi, hai⟩ := h.slots a (List.mem_cons_self _ _)
    have htag := (h.tags i hi).2
    rw [← hai] at htag
    have hbit : bitmap_bit pool.bitmap i = false := by
      rcases htag with hc | hc
      · exact hc.2.2
      · exact absurd (List.mem_cons_self _ _) hc.1
    have hidx : size_sub pool.free_list pool.pool_memory / pool.stride = i := by
      rw [hfa, hai]
      exact h.slot_index hi
    have hr1 := pool_malloc_ok_eq c pool mem hm ht hf hv
    rw [hidx, if_pos hi] at hr1
    have hlt := h.slot_lt hi
    rw [← hai, ← hfa] at hlt
    have hge : pool.pool_memory ≤ pool.free_list := by
      rw [hfa, hai]
      exact Nat.le_add_right _ _
    have hok : (pool_free c2 (pool_malloc c pool mem).pool (pool_malloc c pool mem).out
        (pool_malloc c pool mem).mem).ok = true := by
      rw [hr1]
      refine (pool_free_ok_iff _ _ _ _).2 ⟨?_, hm, ht2, ?_, ?_, ?_, ?_⟩
      · show pool.free_list + HDR_SIZE ≠ 0
        unfold HDR_SIZE
        omega
      · show pool.pool_memory ≤ hdr_of_ptr (pool.free_list + HDR_SIZE)
        rw [hdr_of_ptr_add]
        exact hge
      · show hdr_of_ptr (pool.free_list + HDR_SIZE) <
          pool.pool_memory + (pool.stride * pool.block_count) % SIZE_T_MOD
        rw [hdr_of_ptr_add, h.region_mod]
        exact hlt
      · show ((mem.write pool.free_list _) (hdr_of_ptr (pool.free_list + HDR_SIZE))).magic
          = POOL_MAGIC_ALLOC
        rw [hdr_of_ptr_add, Mem.write_same]
      · show ((mem.write pool.free_list _) (hdr_of_ptr (pool.free_list + HDR_SIZE))).pool_id
          = pool.pool_id
        rw [hdr_of_ptr_add, Mem.write_same]
        exact hv.2
    refine ⟨hok, ?_, ?_⟩
    · rw [pool_free_ok_eq _ _ _ _ hok, hr1]
      simp only [hdr_of_ptr_add]
      have hidx2 : size_sub pool.free_list pool.pool_memory /
          memory_pool_t.stride
            { pool with
              free_list := (mem pool.free_list).next,
              allocated_blocks := pool.allocated_blocks + 1,
              peak_usage := if pool.allocated_blocks + 1 > pool.peak_usage
                then pool.allocated_blocks + 1 else pool.peak_usage,
              total_allocations := pool.total_allocations + 1,
              bitmap := bitmap_set pool.bitmap i,
              allocation_time_total := pool.allocation_time_total + (c.t1 - c.t0) } = i := hidx
      rw [hidx2, bitmap_clear_set _ h.bytes i hbit, if_pos (Nat.succ_ne_zero _),
        Nat.add_sub_cancel]
    · rw [pool_free_ok_eq _ _ _ _ hok, hr1]
      simp only [hdr_of_ptr_add]
      funext x
      by_cases hx : x = pool.free_list
      · subst hx
        simp only [Mem.write_same]
        have hmagic : (mem pool.free_list).magic = POOL_MAGIC_FREE := hv.1
        rw [← hmagic]
      · simp only [Mem.write_other _ _ _ _ hx]

/-! ## Reachable states of a pool -/

/-- Every state reached from a freshly initialised pool satisfies the
invariant, for the list of slots that its free list visits. -/
theorem fresh_run_inv {e : InitEnv} {cfg : pool_config_t} {pool_id block_count : Nat}
    {mem : Mem} (hf : FreshPool e cfg pool_id block_count mem) (ops : List PoolOp)
    (hops : slot_ops (try_init_pool e cfg pool_id block_count mem).pool.pool_memory
      (stride_of cfg.block_size 4) block_count ops = true) :
    ∃ l, PoolInv (fresh_run e cfg pool_id block_count mem ops).1
      (fresh_run e cfg pool_id block_count mem ops).2 l := by
  obtain ⟨-, -, -, hcount, hstr, -, -, -, -⟩ :=
    try_init_pool_ok e cfg pool_id block_count mem hf.1
  refine PoolInv.run ops (s := fresh_state e cfg pool_id block_count mem) hf.inv ?_
  show slot_ops (try_init_pool e cfg pool_id block_count mem).pool.pool_memory
    (try_init_pool e cfg pool_id block_count mem).pool.stride
    (try_init_pool e cfg pool_id block_count mem).pool.block_count ops = true
  rw [hstr, hcount]
  exact hops

/-- The calls leave the geometry of the pool as `try_init_pool` set it. -/
theorem fresh_run_geometry {e : InitEnv} {cfg : pool_config_t} {pool_id block_count : Nat}
    {mem : Mem} (hf : FreshPool e cfg pool_id block_count mem) (ops : List PoolOp) :
    (fresh_run e cfg pool_id block_count mem ops).1.block_count = block_count ∧
    (fresh_run e cfg pool_id block_count mem ops).1.pool_memory
      = (try_init_pool e cfg pool_id block_count mem).pool.pool_memory ∧
    (fresh_run e cfg pool_id block_count mem ops).1.stride = stride_of cfg.block_size 4 ∧
    (fresh_run e cfg pool_id block_count mem ops).1.pool_id = pool_id := by
  obtain ⟨a1, a2, a3, a4, a5, -⟩ :=
    pool_run_frame ops (fresh_state e cfg pool_id block_count mem)
  obtain ⟨-, -, hid, hcount, hstr, -, -, -, -⟩ :=
    try_init_pool_ok e cfg pool_id block_count mem hf.1
  refine ⟨a1.trans hcount, a2, ?_, a5.trans hid⟩
  have : (fresh_run e cfg pool_id block_count mem ops).1.stride
      = (try_init_pool e cfg pool_id block_count mem).pool.stride := by
    unfold memory_pool_t.stride
    show stride_of (pool_run ops (fresh_state e cfg pool_id block_count mem)).1.block_size
      (pool_run ops (fresh_state e cfg pool_id block_count mem)).1.alignment = _
    rw [a3, a4]
    rfl
  rw [this, hstr]

/-- The pool of 64-byte blocks of `app_main`, initialised at `0x10000` in
blank memory, is a freshly initialised pool. -/
theorem small_boot_fresh :
    FreshPool (roomy_env 0x10000) ((cfgs false).getD 0 default) 1 SMALL_POOL_BLOCK_COUNT
      blank_mem := by
  exact ⟨by decide, by decide, by decide⟩

/-- C25 (slot conservation) as the code has it: in every state reached from
a freshly initialised pool by any sequence of `pool_malloc` calls and of
`pool_free` calls whose pointer is null, has its header outside the region or
has it at a slot start (as every pointer that `pool_malloc` returned has),
with any lock outcomes, the chain of `next` links from `free_list` reaches
NULL after visiting a list of slots in which no slot occurs twice,
`allocated_blocks` plus the length of that list is `block_count`, and
`allocated_blocks` is at most `block_count`. -/
theorem slot_conservation (e : InitEnv) (cfg : pool_config_t) (pool_id n : Nat) (mem : Mem)
    (hf : FreshPool e cfg pool_id n mem) (ops : List PoolOp)
    (hops : slot_ops (try_init_pool e cfg pool_id n mem).pool.pool_memory
      (stride_of cfg.block_size 4) n ops = true) :
    ∃ l : List Nat,
      IsFreeList (fresh_run e cfg pool_id n mem ops).2
        (fresh_run e cfg pool_id n mem ops).1.free_list l ∧
      l.Nodup ∧
      (∀ a ∈ l, ∃ i, i < n ∧
        a = (try_init_pool e cfg pool_id n mem).pool.pool_memory
          + i * stride_of cfg.block_size 4) ∧
      (fresh_run e cfg pool_id n mem ops).1.allocated_blocks + l.length
        = (fresh_run e cfg pool_id n mem ops).1.block_count ∧
      (fresh_run e cfg pool_id n mem ops).1.allocated_blocks
        ≤ (fresh_run e cfg pool_id n mem ops).1.block_count ∧
      (fresh_run e cfg pool_id n mem ops).1.block_count = n := by
  obtain ⟨l, h⟩ := fresh_run_inv hf ops hops
  obtain ⟨g1, g2, g3, -⟩ := fresh_run_geometry hf ops
  refine ⟨l, h.chain, h.nodup, ?_, h.count, ?_, g1⟩
  · intro a ha
    obtain ⟨i, hi, hai⟩ := h.slots a ha
    rw [g1] at hi
    rw [g2, g3] at hai
    exact ⟨i, hi, hai⟩
  · have := h.count
    omega

/-- Instance of `slot_conservation`: the calls `sample_ops` on the fresh pool
of 64-byte blocks. -/
theorem slot_conservation_witness :
    ∃ l : List Nat,
      IsFreeList
        (fresh_run (roomy_env 0x10000) ((cfgs false).getD 0 default) 1 SMALL_POOL_BLOCK_COUNT
          blank_mem sample_ops).2
        (fresh_run (roomy_env 0x10000) ((cfgs false).getD 0 default) 1 SMALL_POOL_BLOCK_COUNT
          blank_mem sample_ops).1.free_list l ∧
      l.Nodup ∧
      (fresh_run (roomy_env 0x10000) ((cfgs false).getD 0 default) 1 SMALL_POOL_BLOCK_COUNT
        blank_mem sample_ops).1.allocated_blocks + l.length
        = (fresh_run (roomy_env 0x10000) ((cfgs false).getD 0 default) 1
            SMALL_POOL_BLOCK_COUNT blank_mem sample_ops).1.block_count :=
  have ⟨l, h1, h2, _, h4, _, _⟩ := slot_conservation (roomy_env 0x10000)
    ((cfgs false).getD 0 default) 1 SMALL_POOL_BLOCK_COUNT blank_mem small_boot_fresh
    sample_ops (by decide)
  ⟨l, h1, h2, h4⟩

/-- C25 fails as stated: the one-block pool of 4096-byte blocks is
initialised in a region whose payload bytes hold stale data reading as an
allocated header of the pool; `pool_free` of the pointer 24 bytes past the
payload start, which `pool_malloc` never returned, finds that header inside
the region and returns true. The free list then visits two addresses, one of
them not a slot start, while `allocated_blocks` is 0 and `block_count` is
1. -/
theorem free_list_outgrows_pool :
    (try_init_pool (roomy_env 0x40000) ((cfgs false).getD 3 default) 4 1 stale_mem).ok = true ∧
    (pool_free quick_call (stale_run []).1 0x40030 (stale_run []).2).ok = true ∧
    IsFreeList (stale_run [PoolOp.free quick_call 0x40030]).2
      (stale_run [PoolOp.free quick_call 0x40030]).1.free_list [0x40018, 0x40000] ∧
    (stale_run [PoolOp.free quick_call 0x40030]).1.allocated_blocks = 0 ∧
    (stale_run [PoolOp.free quick_call 0x40030]).1.block_count = 1 ∧
    (stale_run [PoolOp.free quick_call 0x40030]).1.pool_memory = 0x40000 := by
  decide

/-- C23 (bitmap mirrors allocation state) as the code has it: in every state
reached from a freshly initialised pool by any sequence of `pool_malloc`
calls and of `pool_free` calls whose pointer is null, has its header outside
the region or has it at a slot start (as every pointer that `pool_malloc`
returned has), for every slot index `i < block_count`, bit `i` of the bitmap
is set if and only if the tag of slot `i` is ALLOCATED, which holds if and
only if slot `i` is not among the slots that the free list visits; and the
number of set bits among the first `block_count` bits equals
`allocated_blocks`. -/
theorem bitmap_mirrors_allocation (e : InitEnv) (cfg : pool_config_t) (pool_id n : Nat)
    (mem : Mem) (hf : FreshPool e cfg pool_id n mem) (ops : List PoolOp)
    (hops : slot_ops (try_init_pool e cfg pool_id n mem).pool.pool_memory
      (stride_of cfg.block_size 4) n ops = true) :
    ∃ l : List Nat,
      IsFreeList (fresh_run e cfg pool_id n mem ops).2
        (fresh_run e cfg pool_id n mem ops).1.free_list l ∧
      (∀ i, i < n →
        (bitmap_bit (fresh_run e cfg pool_id n mem ops).1.bitmap i = true ↔
          ((fresh_run e cfg pool_id n mem ops).2
            ((try_init_pool e cfg pool_id n mem).pool.pool_memory
              + i * stride_of cfg.block_size 4)).magic = POOL_MAGIC_ALLOC) ∧
        (((fresh_run e cfg pool_id n mem ops).2
            ((try_init_pool e cfg pool_id n mem).pool.pool_memory
              + i * stride_of cfg.block_size 4)).magic = POOL_MAGIC_ALLOC ↔
          (try_init_pool e cfg pool_id n mem).pool.pool_memory
            + i * stride_of cfg.block_size 4 ∉ l)) ∧
      (List.range n).countP
          (fun i => bitmap_bit (fresh_run e cfg pool_id n mem ops).1.bitmap i)
        = (fresh_run e cfg pool_id n mem ops).1.allocated_blocks ∧
      (fresh_run e cfg pool_id n mem ops).1.block_count = n := by
  obtain ⟨l, h⟩ := fresh_run_inv hf ops hops
  obtain ⟨g1, g2, g3, -⟩ := fresh_run_geometry hf ops
  have hbits := h.set_bits
  rw [g1] at hbits
  refine ⟨l, h.chain, ?_, hbits, g1⟩
  intro i hi
  have ht := (h.tags i (by rw [g1]; exact hi)).2
  rw [g2, g3] at ht
  have hne : POOL_MAGIC_FREE ≠ POOL_MAGIC_ALLOC := by decide
  rcases ht with ⟨u1, u2, u3⟩ | ⟨u1, u2, u3⟩
  · rw [u2, u3]
    exact ⟨⟨fun x => by simp at x, fun x => absurd x hne⟩,
      ⟨fun x => absurd x hne, fun x => absurd u1 x⟩⟩
  · rw [u2, u3]
    exact ⟨⟨fun _ => rfl, fun _ => rfl⟩, ⟨fun _ => u1, fun _ => rfl⟩⟩

/-- Instance of `bitmap_mirrors_allocation`: the calls `sample_ops` on the
fresh pool of 64-byte blocks. -/
theorem bitmap_mirrors_allocation_witness :
    (List.range SMALL_POOL_BLOCK_COUNT).countP
        (fun i => bitmap_bit (fresh_run (roomy_env 0x10000) ((cfgs false).getD 0 default) 1
          SMALL_POOL_BLOCK_COUNT blank_mem sample_ops).1.bitmap i)
      = (fresh_run (roomy_env 0x10000) ((cfgs false).getD 0 default) 1
          SMALL_POOL_BLOCK_COUNT blank_mem sample_ops).1.allocated_blocks :=
  have ⟨_, _, _, h3, _⟩ := bitmap_mirrors_allocation (roomy_env 0x10000)
    ((cfgs false).getD 0 default) 1 SMALL_POOL_BLOCK_COUNT blank_mem small_boot_fresh
    sample_ops (by decide)
  h3

/-- C23 fails as stated: on the one-block pool initialised in a region whose
payload bytes hold stale data reading as an allocated header of the pool,
`pool_free` of the pointer 24 bytes past the payload start returns true and
the following `pool_malloc` hands the same address out again, setting bit 0;
bit 0 is then set although slot 0 carries the FREE tag and is the head of
the free list. -/
theorem bitmap_bit_set_on_free_slot :
    (try_init_pool (roomy_env 0x40000) ((cfgs false).getD 3 default) 4 1 stale_mem).ok = true ∧
    (stale_run [PoolOp.free quick_call 0x40030, PoolOp.malloc quick_call]).1.block_count
      = 1 ∧
    (stale_run [PoolOp.free quick_call 0x40030, PoolOp.malloc quick_call]).1.pool_memory
      = 0x40000 ∧
    bitmap_bit
      (stale_run [PoolOp.free quick_call 0x40030, PoolOp.malloc quick_call]).1.bitmap 0
      = true ∧
    ((stale_run [PoolOp.free quick_call 0x40030, PoolOp.malloc quick_call]).2 0x40000).magic
      = POOL_MAGIC_FREE ∧
    (stale_run [PoolOp.free quick_call 0x40030, PoolOp.malloc quick_call]).1.free_list
      = 0x40000 := by
  decide

/-- C30 (allocate/free round trip) as the code has it: in every state reached
from a freshly initialised pool by `pool_malloc` calls and by `pool_free`
calls whose pointer is null, has its header outside the region or has it at
a slot start (as every pointer that `pool_malloc` returned has), if
`pool_malloc` succeeds then the state after that `pool_malloc` followed
immediately by a `pool_free` of the returned pointer (lock acquired) has the
same `free_list` head, the same chain of free slots in the same order, the
same bitmap, the same tag, owner id and link in every header and the same
`allocated_blocks` as before; the pool differs only in `total_allocations`,
`total_deallocations`, `peak_usage` and the two latency totals, and memory
only in the time stamp of the slot that was handed out. -/
theorem alloc_free_round_trip (e : InitEnv) (cfg : pool_config_t) (pool_id n : Nat)
    (mem : Mem) (hf : FreshPool e cfg pool_id n mem) (ops : List PoolOp)
    (hops : slot_ops (try_init_pool e cfg pool_id n mem).pool.pool_memory
      (stride_of cfg.block_size 4) n ops = true) (c c2 : CallEnv)
    (hout : (pool_malloc c (fresh_run e cfg pool_id n mem ops).1
      (fresh_run e cfg pool_id n mem ops).2).out ≠ 0)
    (ht2 : c2.took = true) :
    (round_trip c c2 (fresh_run e cfg pool_id n mem ops).1
      (fresh_run e cfg pool_id n mem ops).2).ok = true ∧
    (round_trip c c2 (fresh_run e cfg pool_id n mem ops).1
      (fresh_run e cfg pool_id n mem ops).2).pool.free_list
      = (fresh_run e cfg pool_id n mem ops).1.free_list ∧
    (∀ l, IsFreeList (fresh_run e cfg pool_id n mem ops).2
        (fresh_run e cfg pool_id n mem ops).1.free_list l →
      IsFreeList
        (round_trip c c2 (fresh_run e cfg pool_id n mem ops).1
          (fresh_run e cfg pool_id n mem ops).2).mem
        (round_trip c c2 (fresh_run e cfg pool_id n mem ops).1
          (fresh_run e cfg pool_id n mem ops).2).pool.free_list l) ∧
    (round_trip c c2 (fresh_run e cfg pool_id n mem ops).1
      (fresh_run e cfg pool_id n mem ops).2).pool.bitmap
      = (fresh_run e cfg pool_id n mem ops).1.bitmap ∧
    (∀ a,
      ((round_trip c c2 (fresh_run e cfg pool_id n mem ops).1
        (fresh_run e cfg pool_id n mem ops).2).mem a).magic
        = ((fresh_run e cfg pool_id n mem ops).2 a).magic ∧
      ((round_trip c c2 (fresh_run e cfg pool_id n mem ops).1
        (fresh_run e cfg pool_id n mem ops).2).mem a).pool_id
        = ((fresh_run e cfg pool_id n mem ops).2 a).pool_id ∧
      ((round_trip c c2 (fresh_run e cfg pool_id n mem ops).1
        (fresh_run e cfg pool_id n mem ops).2).mem a).next
        = ((fresh_run e cfg pool_id n mem ops).2 a).next) ∧
    (round_trip c c2 (fresh_run e cfg pool_id n mem ops).1
      (fresh_run e cfg pool_id n mem ops).2).pool.allocated_blocks
      = (fresh_run e cfg pool_id n mem ops).1.allocated_blocks ∧
    (round_trip c c2 (fresh_run e cfg pool_id n mem ops).1
      (fresh_run e cfg pool_id n mem ops).2).pool =
      { (fresh_run e cfg pool_id n mem ops).1 with
        total_allocations := (fresh_run e cfg pool_id n mem ops).1.total_allocations + 1,
        total_deallocations := (fresh_run e cfg pool_id n mem ops).1.total_deallocations + 1,
        peak_usage :=
          if (fresh_run e cfg pool_id n mem ops).1.allocated_blocks + 1
              > (fresh_run e cfg pool_id n mem ops).1.peak_usage
          then (fresh_run e cfg pool_id n mem ops).1.allocated_blocks + 1
          else (fresh_run e cfg pool_id n mem ops).1.peak_usage,
        allocation_time_total :=
          (fresh_run e cfg pool_id n mem ops).1.allocation_time_total + (c.t1 - c.t0),
        deallocation_time_total :=
          (fresh_run e cfg pool_id n mem ops).1.deallocation_time_total + (c2.t1 - c2.t0) } ∧
    (∀ a, a ≠ (fresh_run e cfg pool_id n mem ops).1.free_list →
      (round_trip c c2 (fresh_run e cfg pool_id n mem ops).1
        (fresh_run e cfg pool_id n mem ops).2).mem a
        = (fresh_run e cfg pool_id n mem ops).2 a) := by
  obtain ⟨l0, h⟩ := fresh_run_inv hf ops hops
  obtain ⟨r1, r2, r3⟩ := h.round_trip c c2 hout ht2
  have hfields : ∀ a,
      ((round_trip c c2 (fresh_run e cfg pool_id n mem ops).1
        (fresh_run e cfg pool_id n mem ops).2).mem a).magic
        = ((fresh_run e cfg pool_id n mem ops).2 a).magic ∧
      ((round_trip c c2 (fresh_run e cfg pool_id n mem ops).1
        (fresh_run e cfg pool_id n mem ops).2).mem a).pool_id
        = ((fresh_run e cfg pool_id n mem ops).2 a).pool_id ∧
      ((round_trip c c2 (fresh_run e cfg pool_id n mem ops).1
        (fresh_run e cfg pool_id n mem ops).2).mem a).next
        = ((fresh_run e cfg pool_id n mem ops).2 a).next := by
    intro a
    unfold round_trip
    rw [r3]
    by_cases ha : a = (fresh_run e cfg pool_id n mem ops).1.free_list
    · rw [ha, Mem.write_same]
      exact ⟨rfl, rfl, rfl⟩
    · rw [Mem.write_other _ _ _ _ ha]
      exact ⟨rfl, rfl, rfl⟩
  have hpool : (round_trip c c2 (fresh_run e cfg pool_id n mem ops).1
      (fresh_run e cfg pool_id n mem ops).2).pool = _ := r2
  refine ⟨r1, ?_, ?_, ?_, hfields, ?_, r2, ?_⟩
  · rw [hpool]
  · intro l hl
    rw [hpool]
    exact IsFreeList.congr_next (fun a _ => (hfields a).2.2) hl
  · rw [hpool]
  · rw [hpool]
  · intro a ha
    unfold round_trip
    rw [r3, Mem.write_other _ _ _ _ ha]

/-- Instance of `alloc_free_round_trip`: after the calls `sample_ops` on the
fresh pool of 64-byte blocks. -/
theorem alloc_free_round_trip_witness :
    (round_trip quick_call quick_call
      (fresh_run (roomy_env 0x10000) ((cfgs false).getD 0 default) 1 SMALL_POOL_BLOCK_COUNT
        blank_mem sample_ops).1
      (fresh_run (roomy_env 0x10000) ((cfgs false).getD 0 default) 1 SMALL_POOL_BLOCK_COUNT
        blank_mem sample_ops).2).ok = true ∧
    (round_trip quick_call quick_call
      (fresh_run (roomy_env 0x10000) ((cfgs false).getD 0 default) 1 SMALL_POOL_BLOCK_COUNT
        blank_mem sample_ops).1
      (fresh_run (roomy_env 0x10000) ((cfgs false).getD 0 default) 1 SMALL_POOL_BLOCK_COUNT
        blank_mem sample_ops).2).pool.bitmap
      = (fresh_run (roomy_env 0x10000) ((cfgs false).getD 0 default) 1 SMALL_POOL_BLOCK_COUNT
          blank_mem sample_ops).1.bitmap :=
  have h := alloc_free_round_trip (roomy_env 0x10000) ((cfgs false).getD 0 default) 1
    SMALL_POOL_BLOCK_COUNT blank_mem small_boot_fresh sample_ops (by decide) quick_call
    quick_call (by decide) rfl
  ⟨h.1, h.2.2.2.1⟩

/-- C30 fails as stated: on the one-block pool initialised in a region whose
payload bytes hold stale data reading as an allocated header of the pool,
after `pool_free` of the pointer 24 bytes past the payload start and a
`pool_malloc` handing that address out again, bit 0 of the bitmap is set and
slot 0 is free; the next `pool_malloc` succeeds, and after the `pool_free` of
the pointer it returned the bitmap is `[0]` where it was `[1]` before the
round trip. -/
theorem round_trip_changes_bitmap :
    (try_init_pool (roomy_env 0x40000) ((cfgs false).getD 3 default) 4 1 stale_mem).ok = true ∧
    (pool_malloc quick_call
      (stale_run [PoolOp.free quick_call 0x40030, PoolOp.malloc quick_call]).1
      (stale_run [PoolOp.free quick_call 0x40030, PoolOp.malloc quick_call]).2).out ≠ 0 ∧
    (round_trip quick_call quick_call
      (stale_run [PoolOp.free quick_call 0x40030, PoolOp.malloc quick_call]).1
      (stale_run [PoolOp.free quick_call 0x40030, PoolOp.malloc quick_call]).2).ok = true ∧
    (stale_run [PoolOp.free quick_call 0x40030, PoolOp.malloc quick_call]).1.bitmap = [1] ∧
    (round_trip quick_call quick_call
      (stale_run [PoolOp.free quick_call 0x40030, PoolOp.malloc quick_call]).1
      (stale_run [PoolOp.free quick_call 0x40030, PoolOp.malloc quick_call]).2).pool.bitmap
      = [0] := by
  decide

/-- C29 as the code has it: when `pool_free` returns true, the pointer is not
null, its header address lies inside the pool's region, and the header read
there carries the ALLOCATED tag and the pool's id; the header address is
`region_start + i * stride` for some slot index `i < block_count` whenever no
other address of the region reads as a header with that tag and id. -/
theorem pool_free_accepted_pointer (c : CallEnv) (pool : memory_pool_t) (ptr : Nat)
    (mem : Mem) (hok : (pool_free c pool ptr mem).ok = true) :
    ptr ≠ 0 ∧
    pool.pool_memory ≤ hdr_of_ptr ptr ∧
    hdr_of_ptr ptr < pool.pool_memory + (pool.stride * pool.block_count) % SIZE_T_MOD ∧
    (mem (hdr_of_ptr ptr)).magic = POOL_MAGIC_ALLOC ∧
    (mem (hdr_of_ptr ptr)).pool_id = pool.pool_id ∧
    ((∀ a, pool.pool_memory ≤ a →
        a < pool.pool_memory + (pool.stride * pool.block_count) % SIZE_T_MOD →
        (mem a).magic = POOL_MAGIC_ALLOC → (mem a).pool_id = pool.pool_id →
        ∃ i, i < pool.block_count ∧ a = pool.pool_memory + i * pool.stride) →
      ∃ i, i < pool.block_count ∧ hdr_of_ptr ptr = pool.pool_memory + i * pool.stride) := by
  obtain ⟨h1, -, -, h4, h5, h6, h7⟩ := (pool_free_ok_iff c pool ptr mem).1 hok
  exact ⟨h1, h4, h5, h6, h7, fun hall => hall _ h4 h5 h6 h7⟩

/-- Instance of `pool_free_accepted_pointer`: the free of the pointer that
the one-block pool of 4096-byte blocks handed out. -/
theorem pool_free_accepted_pointer_witness :
    huge_full.pool.pool_memory ≤ hdr_of_ptr huge_full.out ∧
    (huge_full.mem (hdr_of_ptr huge_full.out)).magic = POOL_MAGIC_ALLOC :=
  have h := pool_free_accepted_pointer quick_call huge_full.pool huge_full.out huge_full.mem
    (by decide)
  ⟨h.2.1, h.2.2.2.1⟩

/-- C29 fails as stated: the caller of the one-block pool of 4096-byte blocks
writes, into the first 24 bytes of the payload it holds, bytes that read as
a header with the ALLOCATED tag and the pool's id; `pool_free` of the pointer
24 bytes past the payload start returns true, although the header address of
that pointer is `region_start + 24`, which is not the start of the pool's
only slot. -/
theorem pool_free_accepts_forged_header :
    (pool_free quick_call huge_full.pool (huge_full.out + HDR_SIZE) forged_mem).ok = true ∧
    huge_full.pool.block_count = 1 ∧
    hdr_of_ptr (huge_full.out + HDR_SIZE) = huge_full.pool.pool_memory + HDR_SIZE ∧
    ∀ i, i < huge_full.pool.block_count →
      hdr_of_ptr (huge_full.out + HDR_SIZE)
        ≠ huge_full.pool.pool_memory + i * huge_full.pool.stride := by
  decide

end MemoryPools
